import Mathlib

/-! # The zone registry of `bind/bind.go`, with `config/config.go` and the flags of `bdns.go`

A shallow embedding of the `bind` package: the zone registry (`ZoneManager`), its
side-effect hooks and the bootstrap loader; of `Config.Override` of the `config` package;
and of the flags `bdns.go` registers and hands to `Override`. The definitions come first,
followed by the properties proved about them.

Modelling conventions.

* A Go `map[K]V` is a finite map with each key held once: `AList`. `m[k]`, `m[k] = v`,
  `delete(m, k)`, `len(m)` and `for k, v := range m` become `lookup`, `insert`, `erase`,
  the length of `entries` and `foldl`. Go leaves the order of `range` open; the model
  iterates in the order of `entries`.
* A Go `error` is its message; `nil` is `none`.
* Everything outside the process (the log, the daemon driven through `rndc`, the file
  system) is a `World`, threaded through every call that can reach a hook.
* The lock of `ZoneManager` is not modelled: every operation below is one critical section.
* A panic is a result of its own (`LoadOutcome.panic`, `Outcome.panicked`), not an error.
* The `io.Reader` of `LoadZones` is the text it delivers and the error that ends it; the
  `bufio.Scanner` between the reader and the loop is modelled with its limit of
  `MaxScanTokenSize` bytes a line, and what `LoadZones` writes to `os.Stderr` is part of
  its result.
* The specification's side of the bootstrap (`Stanza`, `DumpLine`, `addStanzas`) builds
  the lines of a dump from their parts and does not use the patterns of the code.
-/

namespace Bind

/-! ## Data model (bind.go, lines 15-33) -/

/-- Zone names: `type Zone string`. -/
abbrev Zone := String

/-- Master identifiers: `type Master string`. -/
abbrev Master := String

/-- Owner of each zone: `type ZoneMap map[Zone]Master`. -/
abbrev ZoneMap := AList (fun _ : Zone => Master)

/-- Set of zones, as Go writes it: `type ZoneSet map[Zone]bool`. -/
abbrev ZoneSet := AList (fun _ : Zone => Bool)

/-- Zones of each master: `type masters map[Master]ZoneSet`. -/
abbrev masters := AList (fun _ : Master => ZoneSet)

/-- Go error values, identified with their message. -/
abbrev GoError := String

/-- State outside the process: the lines written with `log.Printf`, oldest first, and the
rest (daemon, file system) as an abstract `ext`. -/
structure World (E : Type) where
  log : List String
  ext : E

/-- Data fields of `ZoneManager`: what a hook can read through its `zd` argument. -/
structure ZoneData where
  masters : masters
  zones : ZoneMap
  dataPath : String
  rndcPath : String

/-- Hook type `ZoneAdderFunc func(zd *ZoneManager, master Master, zone Zone) error`: it reads
the registry data, acts on the world and returns an error or `nil`. -/
abbrev ZoneAdderFunc (E : Type) :=
  ZoneData → Master → Zone → World E → Option GoError × World E

/-- Hook type `ZoneRemoverFunc`, of the same shape as `ZoneAdderFunc`. -/
abbrev ZoneRemoverFunc (E : Type) :=
  ZoneData → Master → Zone → World E → Option GoError × World E

/-- Registry `ZoneManager`: the data fields and the two configured hooks. -/
structure ZoneManager (E : Type) extends ZoneData where
  adder : ZoneAdderFunc E
  remover : ZoneRemoverFunc E

/-- Result of a mutating call: the returned error, the registry and the world afterwards. -/
structure Outcome (E : Type) where
  err : Option GoError
  zd : ZoneManager E
  world : World E

/-- Go `log.Printf`: appends one line to the log. -/
def logPrintf {E : Type} (msg : String) (w : World E) : World E :=
  { w with log := w.log ++ [msg] }

/-! ## Hooks (bind.go, lines 57-78 and 104-128) -/

/-- Configuration snippet built by `RndcZoneAdder` and `LogZoneAdder`:
`fmt.Sprintf` of the slave-zone format with the zone and the master. -/
def zoneSnippet (master : Master) (zone : Zone) : String :=
  "\x7btype slave; file \"slave/" ++ zone ++ ".db\"; masters \x7b " ++ master ++ "; \x7d;\x7d;"

/-- Hook `NullZoneAdder`: returns `nil`. -/
def NullZoneAdder {E : Type} : ZoneAdderFunc E :=
  fun _ _ _ w => (none, w)

/-- Hook `LogZoneAdder`: logs the command it skips and returns `nil`. -/
def LogZoneAdder {E : Type} : ZoneAdderFunc E :=
  fun zd master zone w =>
    (none, logPrintf ("[Skipped execution] " ++ zd.rndcPath ++ " addzone " ++ zone ++ " \x27" ++
      zoneSnippet master zone ++ "\x27") w)

/-- Hook `LoadingZoneAdder`: logs the pair being loaded and returns `nil`. -/
def LoadingZoneAdder {E : Type} : ZoneAdderFunc E :=
  fun _ master zone w =>
    (none, logPrintf ("Loaded zone " ++ zone ++ " with master " ++ master) w)

/-- Hook `NullZoneRemover`: returns `nil`. -/
def NullZoneRemover {E : Type} : ZoneRemoverFunc E :=
  fun _ _ _ w => (none, w)

/-- Hook `LogZoneRemover`: logs the command it skips and returns `nil`. -/
def LogZoneRemover {E : Type} : ZoneRemoverFunc E :=
  fun zd _ zone w =>
    (none, logPrintf ("[Skipped execution] " ++ zd.rndcPath ++ " delzone " ++ zone) w)

/-! ## Registry operations (bind.go, lines 35-55, 80-102, 130-174, 194-205) -/

/-- Error of `AddZone` for a zone that has an owner:
`fmt.Errorf` of `Zone "%s" is already assigned to "%s"`. -/
def duplicateZoneError (zone : Zone) (currentMaster : Master) : GoError :=
  "Zone \"" ++ zone ++ "\" is already assigned to \"" ++ currentMaster ++ "\""

/-- Method `AddZone` (bind.go, lines 35-55). -/
def AddZone {E : Type} (zd : ZoneManager E) (master : Master) (zone : Zone) (w : World E) :
    Outcome E :=
  match zd.zones.lookup zone with
  | some currentMaster => ⟨some (duplicateZoneError zone currentMaster), zd, w⟩
  | none =>
    match zd.adder zd.toZoneData master zone w with
    | (some result, w1) => ⟨some result, zd, w1⟩
    | (none, w1) =>
      -- if zd.masters[master] == nil { zd.masters[master] = ZoneSet{} }
      let ms : masters :=
        match zd.masters.lookup master with
        | none => zd.masters.insert master ∅
        | some _ => zd.masters
      -- zd.masters[master][zone] = true
      let ms1 : masters := ms.insert master (((ms.lookup master).getD ∅).insert zone true)
      -- zd.zones[zone] = master
      ⟨none, { zd with masters := ms1, zones := zd.zones.insert zone master }, w1⟩

/-- Method `RemoveZone` (bind.go, lines 80-102). -/
def RemoveZone {E : Type} (zd : ZoneManager E) (master : Master) (zone : Zone) (w : World E) :
    Outcome E :=
  match zd.zones.lookup zone with
  | none => ⟨some "not found in zone map", zd, w⟩
  | some _ =>
    match zd.masters.lookup master with
    | none => ⟨some "master not found", zd, w⟩
    | some set =>
      match set.lookup zone with
      | none => ⟨some "zone not in this master", zd, w⟩
      | some _ =>
        -- delete(zd.zones, zone); delete(zd.masters[master], zone)
        let zones1 : ZoneMap := zd.zones.erase zone
        let set1 : ZoneSet := set.erase zone
        let ms1 : masters := zd.masters.insert master set1
        -- if len(zd.masters[master]) == 0 { delete(zd.masters, master) }
        let ms2 : masters := if set1.entries.length = 0 then ms1.erase master else ms1
        let zd1 : ZoneManager E := { zd with masters := ms2, zones := zones1 }
        -- return zd.remover(zd, master, zone)
        match zd.remover zd1.toZoneData master zone w with
        | (result, w1) => ⟨result, zd1, w1⟩

/-- Method `GetMasters` (bind.go, lines 130-139): the keys of `zd.masters`, appended one by
one in iteration order. -/
def GetMasters {E : Type} (zd : ZoneManager E) : List Master :=
  zd.masters.foldl (fun acc master _ => acc ++ [master]) []

/-- Method `GetZones` (bind.go, lines 141-150): a fresh set holding `true` for every zone of
`zd.masters[master]`; a missing master gives the nil map, over which `range` does nothing. -/
def GetZones {E : Type} (zd : ZoneManager E) (master : Master) : ZoneSet :=
  ((zd.masters.lookup master).getD ∅).foldl (fun acc zone _ => acc.insert zone true) ∅

/-- Method `GetZoneMap` (bind.go, lines 152-161): a fresh copy of `zd.zones`. -/
def GetZoneMap {E : Type} (zd : ZoneManager E) : ZoneMap :=
  zd.zones.foldl (fun acc zone master => acc.insert zone master) ∅

/-- Constructor `NewZoneManager` (bind.go, lines 163-174); the source installs
`NullZoneRemover` for both hooks. -/
def NewZoneManager {E : Type} : ZoneManager E :=
  { masters := ∅
    zones := ∅
    adder := NullZoneRemover
    remover := NullZoneRemover
    dataPath := "./"
    rndcPath := "./rndc" }

/-- Setter `ZoneAdder` (bind.go, lines 194-196). -/
def ZoneAdder {E : Type} (zd : ZoneManager E) (adder : ZoneAdderFunc E) : ZoneManager E :=
  { zd with adder := adder }

/-- Setter `ZoneRemover` (bind.go, lines 197-199). -/
def ZoneRemover {E : Type} (zd : ZoneManager E) (remover : ZoneRemoverFunc E) : ZoneManager E :=
  { zd with remover := remover }

/-- Setter `Path` (bind.go, lines 200-202). -/
def Path {E : Type} (zd : ZoneManager E) (path : String) : ZoneManager E :=
  { zd with dataPath := path }

/-- Setter `RndcPath` (bind.go, lines 203-205). -/
def RndcPath {E : Type} (zd : ZoneManager E) (path : String) : ZoneManager E :=
  { zd with rndcPath := path }

/-! ## Regular expressions (Go `regexp`, as far as `bindLine` and `ignoredLine` use it)

Go's `regexp` returns the match a backtracking search finds first: leftmost start, and at
each choice the preferred branch first (a greedy operator prefers to take more). `Regex.run`
is that search, written with a continuation for what follows. -/

/-- Regular expressions built from one-character classes. -/
inductive Regex where
  /-- One character of a class (a literal is the class of one character). -/
  | cls (p : Char → Bool)
  /-- Greedy repetition `p*` of a one-character class. -/
  | star (p : Char → Bool)
  /-- Greedy option `r?`. -/
  | opt (r : Regex)
  /-- Capturing group number `i`. -/
  | group (i : Nat) (r : Regex)
  /-- Concatenation. -/
  | cat (r s : Regex)
  /-- Start of text `^`. -/
  | bol
  /-- End of text `$`. -/
  | eol
  /-- Empty expression. -/
  | eps

/-- State of a match: characters consumed so far, the text still ahead, and the captures. -/
structure MState where
  pos : Nat
  rest : List Char
  caps : Nat → Option (List Char)

/-- Greedy `p*` from position `pos`: take one more character when possible, and fall back
to stopping here when what follows fails. -/
def starRun {α : Type} (p : Char → Bool) (caps : Nat → Option (List Char))
    (k : MState → Option α) : Nat → List Char → Option α
  | pos, [] => k ⟨pos, [], caps⟩
  | pos, c :: cs =>
    if p c then
      match starRun p caps k (pos + 1) cs with
      | some a => some a
      | none => k ⟨pos, c :: cs, caps⟩
    else k ⟨pos, c :: cs, caps⟩

/-- Backtracking match of `r` at state `s`, then of the continuation `k`. -/
def Regex.run {α : Type} : Regex → MState → (MState → Option α) → Option α
  | .cls p, s, k =>
    match s.rest with
    | [] => none
    | c :: cs => if p c then k ⟨s.pos + 1, cs, s.caps⟩ else none
  | .star p, s, k => starRun p s.caps k s.pos s.rest
  | .opt r, s, k =>
    match r.run s k with
    | some a => some a
    | none => k s
  | .group i r, s, k =>
    r.run s (fun t =>
      k { t with caps := Function.update t.caps i (some (s.rest.take (t.pos - s.pos))) })
  | .cat r1 r2, s, k => r1.run s (fun t => r2.run t k)
  | .bol, s, k => if s.pos = 0 then k s else none
  | .eol, s, k => if s.rest = [] then k s else none
  | .eps, s, k => k s

/-- Leftmost match: the first start position, from `pos` on, at which `r` matches. -/
def Regex.searchFrom (r : Regex) : Nat → List Char → Option MState
  | pos, [] => r.run ⟨pos, [], fun _ => none⟩ some
  | pos, c :: cs =>
    match r.run ⟨pos, c :: cs, fun _ => none⟩ some with
    | some t => some t
    | none => r.searchFrom (pos + 1) cs

/-- Go `(*Regexp).MatchString`. -/
def Regex.MatchString (r : Regex) (s : String) : Bool :=
  (r.searchFrom 0 s.toList).isSome

/-- Go `(*Regexp).FindStringSubmatch`, for the groups 1 and 2: `none` is the nil slice. -/
def Regex.FindStringSubmatch (r : Regex) (s : String) : Option (String × String) :=
  match r.searchFrom 0 s.toList with
  | none => none
  | some t => some (String.mk ((t.caps 1).getD []), String.mk ((t.caps 2).getD []))

/-- Literal character. -/
def Regex.lit (c : Char) : Regex := .cls (fun x => x == c)

/-- Greedy `p+`, which is `pp*`. -/
def Regex.plus (p : Char → Bool) : Regex := .cat (.cls p) (.star p)

/-- Concatenation of a list of expressions. -/
def Regex.seq : List Regex → Regex
  | [] => .eps
  | r :: rs => .cat r (Regex.seq rs)

/-- Literal string. -/
def Regex.str (s : String) : Regex := Regex.seq (s.toList.map Regex.lit)

/-- Class `\s` of Go: tab, newline, form feed, carriage return and space. -/
def isSpace (c : Char) : Bool :=
  c == Char.ofNat 9 || c == Char.ofNat 10 || c == Char.ofNat 12 || c == Char.ofNat 13 ||
    c == Char.ofNat 32

/-- Class `[^\s"{]`. -/
def isZoneChar (c : Char) : Bool :=
  !(isSpace c || c == Char.ofNat 34 || c == Char.ofNat 123)

/-- Class `[^"]`. -/
def notQuote (c : Char) : Bool := !(c == Char.ofNat 34)

/-- Class `[^;]`. -/
def notSemicolon (c : Char) : Bool := !(c == Char.ofNat 59)

/-- Class `.`: any character but newline. -/
def notNewline (c : Char) : Bool := !(c == Char.ofNat 10)

/-! ## Bootstrap loader (bind.go, lines 176-192 and 207-220) -/

/-- Pattern `bindLine`:
`zone "?([^\s"{]+)"?\s*{type\s+slave;\s*file\s+"[^"]+";\s*masters\s*{\s*([^;]+)\s*;\s*}\s*;\s*}\s*;` -/
def bindLine : Regex :=
  Regex.seq
    [ .str "zone ", .opt (.str "\""), .group 1 (.plus isZoneChar), .opt (.str "\""),
      .star isSpace, .str "\x7btype", .plus isSpace, .str "slave;",
      .star isSpace, .str "file", .plus isSpace, .str "\"", .plus notQuote, .str "\";",
      .star isSpace, .str "masters", .star isSpace, .str "\x7b",
      .star isSpace, .group 2 (.plus notSemicolon), .star isSpace, .str ";",
      .star isSpace, .str "\x7d", .star isSpace, .str ";",
      .star isSpace, .str "\x7d", .star isSpace, .str ";" ]

/-- Pattern `ignoredLine`: `^\s*(#.*)?$` -/
def ignoredLine : Regex :=
  Regex.seq [ .bol, .star isSpace, .opt (.group 1 (.cat (.str "#") (.star notNewline))), .eol ]

deriving instance DecidableEq for Except

/-- Function `parseLine` (bind.go, lines 210-220): `found`, the master and the zone, or the
message of the panic. -/
def parseLine (line : String) : Except String (Bool × Master × Zone) :=
  if ignoredLine.MatchString line then .ok (false, "", "")
  else
    match bindLine.FindStringSubmatch line with
    | none => .error ("Invalid config line \"" ++ line ++ "\"")
    | some (m1, m2) => .ok (true, m2, m1)

/-- Outcome of the loop of `LoadZones`: the message of the panic that ended it, if any, and
the registry and the world at that point. -/
structure LoadOutcome (E : Type) where
  panic : Option String
  zd : ZoneManager E
  world : World E

/-- Loop of `LoadZones` (bind.go, lines 181-186) over the lines the scanner yields; the
error `AddZone` returns is dropped, as in the source. -/
def loadLoop {E : Type} : List String → ZoneManager E → World E → LoadOutcome E
  | [], zd, w => ⟨none, zd, w⟩
  | line :: lines, zd, w =>
    match parseLine line with
    | .error msg => ⟨some msg, zd, w⟩
    | .ok (found, master, zone) =>
      if found then
        loadLoop lines (AddZone zd master zone w).zd (AddZone zd master zone w).world
      else loadLoop lines zd w

/-- What `LoadZones` does to the registry and the world (bind.go, lines 177-186 and 191)
once the scanner has yielded `lines` as the successive values of `scanner.Text()`, whatever
these are: the adder is swapped for `LoadingZoneAdder`, the loop runs over `lines`, and the
configured adder is put back; a panic of `parseLine` leaves the function before that. -/
def loadScanned {E : Type} (zd : ZoneManager E) (lines : List String) (w : World E) :
    LoadOutcome E :=
  let oldAdder := zd.adder
  let o := loadLoop lines { zd with adder := LoadingZoneAdder } w
  match o.panic with
  | some msg => ⟨some msg, o.zd, o.world⟩
  | none => ⟨none, { o.zd with adder := oldAdder }, o.world⟩

/-! ## The scanner of `LoadZones` (Go library, `bufio.Scanner` with `bufio.ScanLines`)

`LoadZones` reads its `io.Reader` through `bufio.NewScanner(reader)`, whose split function
is `ScanLines` and whose buffer holds at most `MaxScanTokenSize` bytes. The model gives
what `scanner.Scan()`, `scanner.Text()` and `scanner.Err()` return for the text of a
reader. -/

/-- An `io.Reader` read to its end: the text it delivers, taken to be valid UTF-8, and the
error other than `io.EOF` that ends it, if any. The end or the error comes with a `Read`
of no bytes, as `*os.File` and `*strings.Reader` report it. -/
structure Reader where
  data : String
  err : Option GoError

/-- Constant `bufio.MaxScanTokenSize`. -/
def MaxScanTokenSize : Nat := 64 * 1024

/-- Length in bytes of a text in UTF-8, Go's `len`. -/
def byteLength (data : List Char) : Nat := (data.map Char.utf8Size).sum

/-- Lines of a text as `ScanLines` cuts them: the text between one newline and the next,
and the text after the last newline when it is not empty. -/
def splitLines : List Char → List (List Char)
  | [] => []
  | c :: cs =>
    if c = Char.ofNat 10 then [] :: splitLines cs
    else
      match splitLines cs with
      | [] => [[c]]
      | l :: ls => (c :: l) :: ls

/-- Function `dropCR` of `bufio`: a carriage return that ends the line is dropped. -/
def dropCR (data : List Char) : List Char :=
  if data.getLast? = some (Char.ofNat 13) then data.dropLast else data

/-- Value of `scanner.Text()` for a line of the text. -/
def lineText (l : List Char) : String := String.mk (dropCR l)

/-- Successive values of `scanner.Text()` while `scanner.Scan()` returns true: the lines
of the text up to the first one of `MaxScanTokenSize` bytes or more, which the buffer of
the scanner cannot hold, so that `Scan` returns false there. -/
def scanTokens (data : String) : List String :=
  ((splitLines data.toList).takeWhile
    (fun l => decide (byteLength l < MaxScanTokenSize))).map lineText

/-- Value of `scanner.Err()` after the loop: `bufio.ErrTooLong` when a line was too long
for the buffer, else the error of the reader, `io.EOF` counting as none. -/
def scanErr (reader : Reader) : Option GoError :=
  if (splitLines reader.data.toList).all (fun l => decide (byteLength l < MaxScanTokenSize))
  then reader.err
  else some "bufio.Scanner: token too long"

/-- Result of `LoadZones`: the outcome of its loop and the lines it wrote to `os.Stderr`. -/
structure LoadResult (E : Type) extends LoadOutcome E where
  stderr : List String

/-- Method `LoadZones` (bind.go, lines 176-192). The adder is swapped for
`LoadingZoneAdder`, the loop runs over the lines the scanner yields, an error of the
scanner is written to `os.Stderr` (`fmt.Fprintln` puts a blank between its operands), and
the configured adder is put back. A panic of `parseLine` leaves the function at once. -/
def LoadZones {E : Type} (zd : ZoneManager E) (reader : Reader) (w : World E) :
    LoadResult E :=
  let oldAdder := zd.adder
  let o := loadLoop (scanTokens reader.data) { zd with adder := LoadingZoneAdder } w
  match o.panic with
  | some msg => ⟨⟨some msg, o.zd, o.world⟩, []⟩
  | none =>
    match scanErr reader with
    | some err =>
      ⟨⟨none, { o.zd with adder := oldAdder }, o.world⟩, ["reading standard input: " ++ err]⟩
    | none => ⟨⟨none, { o.zd with adder := oldAdder }, o.world⟩, []⟩

/-- Registry data after the validation of `RemoveZone` has passed, before the hook runs. -/
def removedData (zd : ZoneData) (master : Master) (zone : Zone) : ZoneData :=
  { zd with
    masters :=
      if (((zd.masters.lookup master).getD ∅).erase zone).entries.length = 0 then
        (zd.masters.insert master (((zd.masters.lookup master).getD ∅).erase zone)).erase master
      else zd.masters.insert master (((zd.masters.lookup master).getD ∅).erase zone)
    zones := zd.zones.erase zone }

/-! ## Invariant and reachable states -/

/-- Registry invariant of the two mirrored maps. `I1`: a zone is in the zone set of `m` iff
the zone map assigns it to `m`. `I2`: a master is a key iff its zone set is not empty.
`I3`: no zone is in the zone sets of two masters. A missing key reads as the nil map. -/
structure Invariant (ms : masters) (zones : ZoneMap) : Prop where
  I1 : ∀ (m : Master) (z : Zone), z ∈ (ms.lookup m).getD ∅ ↔ zones.lookup z = some m
  I2 : ∀ m : Master, m ∈ ms ↔ ((ms.lookup m).getD ∅).entries.length ≠ 0
  I3 : ∀ (m1 m2 : Master) (z : Zone),
    z ∈ (ms.lookup m1).getD ∅ → z ∈ (ms.lookup m2).getD ∅ → m1 = m2

/-- Registries reachable from `NewZoneManager` by the exported methods, with any hooks,
any arguments and any state of the world at each call. `LoadZones` is there twice: on a
reader, and on any list of lines taken as what the scanner yields. -/
inductive Reachable {E : Type} : ZoneManager E → Prop
  | new : Reachable NewZoneManager
  | addZone (zd : ZoneManager E) (master : Master) (zone : Zone) (w : World E) :
      Reachable zd → Reachable (AddZone zd master zone w).zd
  | removeZone (zd : ZoneManager E) (master : Master) (zone : Zone) (w : World E) :
      Reachable zd → Reachable (RemoveZone zd master zone w).zd
  | loadZones (zd : ZoneManager E) (reader : Reader) (w : World E) :
      Reachable zd → Reachable (LoadZones zd reader w).zd
  | loadScanned (zd : ZoneManager E) (lines : List String) (w : World E) :
      Reachable zd → Reachable (loadScanned zd lines w).zd
  | zoneAdder (zd : ZoneManager E) (adder : ZoneAdderFunc E) :
      Reachable zd → Reachable (ZoneAdder zd adder)
  | zoneRemover (zd : ZoneManager E) (remover : ZoneRemoverFunc E) :
      Reachable zd → Reachable (ZoneRemover zd remover)
  | path (zd : ZoneManager E) (p : String) : Reachable zd → Reachable (Path zd p)
  | rndcPath (zd : ZoneManager E) (p : String) : Reachable zd → Reachable (RndcPath zd p)

/-! ## Bootstrap as the specification words it -/

/-- Fully blank line. -/
def blankLine (line : String) : Bool := line.toList.all isSpace

/-- Comment line: a `#`, possibly preceded by whitespace. -/
def commentLine (line : String) : Bool :=
  match line.toList.dropWhile isSpace with
  | c :: _ => c == Char.ofNat 35
  | [] => false

/-- Zone stanza of the specification (§4.2),
`zone "<name>" {type slave; file "<path>"; masters { <master-list> ; };};`, by its parts:
the zone name and the quote before and after it, the file path, the master, and the
whitespace `s1` to `s12` between the words and the punctuation, in the order of the text.
The whitespace defaults to that of the stanzas of `TestLoadZones`. -/
structure Stanza where
  openQuote : Bool
  zone : String
  closeQuote : Bool
  path : String
  master : String
  s1 : String := " "
  s2 : String := " "
  s3 : String := " "
  s4 : String := " "
  s5 : String := " "
  s6 : String := " "
  s7 : String := " "
  s8 : String := ""
  s9 : String := " "
  s10 : String := ""
  s11 : String := ""
  s12 : String := ""

/-- Text of a stanza. -/
def Stanza.text (s : Stanza) : String :=
  "zone " ++ (if s.openQuote then "\"" else "") ++ s.zone ++
    (if s.closeQuote then "\"" else "") ++ s.s1 ++
    "\x7btype" ++ s.s2 ++ "slave;" ++ s.s3 ++
    "file" ++ s.s4 ++ "\"" ++ s.path ++ "\";" ++ s.s5 ++
    "masters" ++ s.s6 ++ "\x7b" ++ s.s7 ++ s.master ++ s.s8 ++ ";" ++ s.s9 ++
    "\x7d" ++ s.s10 ++ ";" ++ s.s11 ++ "\x7d" ++ s.s12 ++ ";"

/-- Whitespace only. -/
def isBlank (s : String) : Bool := s.toList.all isSpace

/-- Stanza whose parts are what the shape allows: a zone name that is not empty and has
no whitespace, `"` or `{`; a path that is not empty and has no `"`; a master that is
not empty and has no `;`; whitespace between the parts, at least one character of it
after `type` and after `file`. -/
def Stanza.shaped (s : Stanza) : Bool :=
  (!s.zone.toList.isEmpty && s.zone.toList.all isZoneChar) &&
  (!s.path.toList.isEmpty && s.path.toList.all notQuote) &&
  (!s.master.toList.isEmpty && s.master.toList.all notSemicolon) &&
  (isBlank s.s1 && (!s.s2.toList.isEmpty && isBlank s.s2) && isBlank s.s3 &&
    (!s.s4.toList.isEmpty && isBlank s.s4)) &&
  (isBlank s.s5 && isBlank s.s6 && isBlank s.s7 && isBlank s.s8) &&
  (isBlank s.s9 && isBlank s.s10 && isBlank s.s11 && isBlank s.s12)

/-- Stanza that names its zone and its master without doubt: the zone name is quoted on
both sides or on none, the master neither starts nor ends with whitespace, and the `;`
follows the master at once. -/
def Stanza.proper (s : Stanza) : Bool :=
  (s.openQuote == s.closeQuote) &&
  (s.master.toList.head?.all (fun c => !isSpace c)) &&
  (s.master.toList.getLast?.all (fun c => !isSpace c)) &&
  s.s8.toList.isEmpty

/-- The line holds a stanza of the shape somewhere in its text. -/
def containsStanza (line : String) : Prop :=
  ∃ (s : Stanza) (pre post : List Char),
    s.shaped = true ∧ line.toList = pre ++ s.text.toList ++ post

/-- Line of a dump as the specification reads it: a line to ignore, or a stanza. -/
inductive DumpLine where
  | ignored (line : String)
  | stanza (s : Stanza)

/-- Text of a line of the dump. -/
def DumpLine.text : DumpLine → String
  | .ignored line => line
  | .stanza s => s.text

/-- A line to ignore is blank or a comment; a stanza has the shape and is proper. -/
def DumpLine.wellFormed : DumpLine → Bool
  | .ignored line => blankLine line || commentLine line
  | .stanza s => s.shaped && s.proper

/-- What the bootstrap takes from a line: nothing from a line to ignore, the master and
the zone of a stanza. -/
def DumpLine.found : DumpLine → Bool × Master × Zone
  | .ignored _ => (false, "", "")
  | .stanza s => (true, s.master, s.zone)

/-- Bootstrap as the specification describes it: blank and comment lines contribute
nothing, and every stanza is fed, in line order, to `AddZone` under the no-op hook with
its master and its zone. -/
def addStanzas {E : Type} : List DumpLine → ZoneManager E → World E → ZoneManager E × World E
  | [], zd, w => (zd, w)
  | .ignored _ :: items, zd, w => addStanzas items zd w
  | .stanza s :: items, zd, w =>
    addStanzas items (AddZone (ZoneAdder zd NullZoneAdder) s.master s.zone w).zd
      (AddZone (ZoneAdder zd NullZoneAdder) s.master s.zone w).world

/-- Dump of `TestLoadZones` (bind_test.go, lines 22-26), line by line. -/
def testDump : List String :=
  [ "",
    "# Empty and uncommented lines should be ignored",
    "zone \"test.com\" \x7btype slave; file \"slave/test.com.db\"; masters \x7b 192.168.2.10; \x7d;\x7d;",
    "zone domain.tld \x7btype slave; file \"slave/domain.es.db\"; masters \x7b 10.10.29.19; \x7d;\x7d;",
    "zone something.net \x7btype slave; file \"slave/something.net.db\"; masters \x7b 127.0.3.1; \x7d;\x7d;" ]

/-- Constant `input` of `TestLoadZones` (bind_test.go, lines 22-26). -/
def testInput : String :=
  "\n# Empty and uncommented lines should be ignored\nzone \"test.com\" \x7btype slave; file \"slave/test.com.db\"; masters \x7b 192.168.2.10; \x7d;\x7d;\nzone domain.tld \x7btype slave; file \"slave/domain.es.db\"; masters \x7b 10.10.29.19; \x7d;\x7d;\nzone something.net \x7btype slave; file \"slave/something.net.db\"; masters \x7b 127.0.3.1; \x7d;\x7d;"

/-- Dump of `TestLoadZones` as the specification reads it. -/
def testItems : List DumpLine :=
  [ .ignored "",
    .ignored "# Empty and uncommented lines should be ignored",
    .stanza
      { openQuote := true, zone := "test.com", closeQuote := true,
        path := "slave/test.com.db", master := "192.168.2.10" },
    .stanza
      { openQuote := false, zone := "domain.tld", closeQuote := false,
        path := "slave/domain.es.db", master := "10.10.29.19" },
    .stanza
      { openQuote := false, zone := "something.net", closeQuote := false,
        path := "slave/something.net.db", master := "127.0.3.1" } ]

/-- Comment line of `MaxScanTokenSize` bytes: the character `#`, 65536 times. -/
def longComment : List Char := List.replicate MaxScanTokenSize (Char.ofNat 35)

/-- Stanza of `b.org` under the master `10.0.0.1`. -/
def stanzaB : Stanza :=
  { openQuote := false, zone := "b.org", closeQuote := false, path := "slave/b.org.db",
    master := "10.0.0.1" }

/-- Stanza of `a.org` under the master `10.0.0.1`. -/
def stanzaA : Stanza :=
  { openQuote := false, zone := "a.org", closeQuote := false, path := "slave/a.org.db",
    master := "10.0.0.1" }

/-- The long comment and the stanza of `b.org`, as the specification reads them. -/
def longItems : List DumpLine := [.ignored (String.mk longComment), .stanza stanzaB]

/-- Dump of two lines: the long comment, then the stanza of `b.org`. -/
def longDump : String := String.mk (longComment ++ Char.ofNat 10 :: stanzaB.text.toList)

/-- Dump of two lines: the long comment, then the line `zone basis.es` of
`TestLoadZones_Invalid`. -/
def longInvalidDump : String :=
  String.mk (longComment ++ Char.ofNat 10 :: "zone basis.es".toList)

end Bind

/-! # Configuration (`config/config.go`)

`Override` works by reflection. The model keeps what reflection sees of `Config`: the name
and the `toml` tag of each field, and the dynamic type of the value passed as
`interface{}`. -/

namespace config

/-- Struct `Client` (config.go, lines 41-44). -/
structure Client where
  Username : String
  Password : String
deriving DecidableEq

/-- Struct `Config` (config.go, lines 12-22); a Go `int` is an integer here. -/
structure Config where
  ZoneFile : String
  Port : Int
  Rndc : String
  Path : String
  LogToSyslog : Bool
  SSLEnabled : Bool
  SSLCert : String
  SSLKey : String
  Clients : List Client
deriving DecidableEq

/-- Field of `Config` as `reflect.TypeOf(Config{}).Field(i)` describes it: its name and the
value of its `toml` tag, empty when the field has none. -/
structure StructField where
  Name : String
  toml : String

/-- Fields of `Config`, in declaration order, with their tags. -/
def configFields : List StructField :=
  [ ⟨"ZoneFile", "zone_file"⟩, ⟨"Port", ""⟩, ⟨"Rndc", ""⟩, ⟨"Path", ""⟩,
    ⟨"LogToSyslog", "syslog"⟩, ⟨"SSLEnabled", "ssl_enabled"⟩, ⟨"SSLCert", "ssl_cert"⟩,
    ⟨"SSLKey", "ssl_key"⟩, ⟨"Clients", "client"⟩ ]

/-- Go `strings.ToLower`, on the ASCII names it is applied to. -/
def toLower (s : String) : String := String.mk (s.toList.map Char.toLower)

/-- Map `fieldNames` as `init` builds it (config.go, lines 24-39): from the representation
name of a field, its tag or else its lower-cased name, to the name of the field. -/
def fieldNames : AList (fun _ : String => String) :=
  configFields.foldl
    (fun acc f => acc.insert (if f.toml ≠ "" then f.toml else toLower f.Name) f.Name) ∅

/-- Value passed as `interface{}`, by dynamic type; `other` is nil or a value of any type
that no field of `Config` has. -/
inductive Value where
  | str (s : String)
  | int (n : Int)
  | bool (b : Bool)
  | clients (cs : List Client)
  | other
deriving DecidableEq

/-- Result of looking a field up by name and setting it by reflection. -/
inductive SetResult where
  /-- No field of that name: `FieldByName` returns the zero `Value`. -/
  | noField
  /-- The value is not assignable to the type of the field: `Set` panics. -/
  | notAssignable
  /-- The field has been set. -/
  | set (c : Config)
deriving DecidableEq

/-- Effect of `s.FieldByName(name)` followed by `f.Set(reflect.ValueOf(value))` on the
struct the receiver points to. -/
def setField (c : Config) (name : String) (value : Value) : SetResult :=
  if name = "ZoneFile" then
    match value with
    | .str s => .set { c with ZoneFile := s }
    | _ => .notAssignable
  else if name = "Port" then
    match value with
    | .int n => .set { c with Port := n }
    | _ => .notAssignable
  else if name = "Rndc" then
    match value with
    | .str s => .set { c with Rndc := s }
    | _ => .notAssignable
  else if name = "Path" then
    match value with
    | .str s => .set { c with Path := s }
    | _ => .notAssignable
  else if name = "LogToSyslog" then
    match value with
    | .bool b => .set { c with LogToSyslog := b }
    | _ => .notAssignable
  else if name = "SSLEnabled" then
    match value with
    | .bool b => .set { c with SSLEnabled := b }
    | _ => .notAssignable
  else if name = "SSLCert" then
    match value with
    | .str s => .set { c with SSLCert := s }
    | _ => .notAssignable
  else if name = "SSLKey" then
    match value with
    | .str s => .set { c with SSLKey := s }
    | _ => .notAssignable
  else if name = "Clients" then
    match value with
    | .clients cs => .set { c with Clients := cs }
    | _ => .notAssignable
  else .noField

/-- Result of `Override`: whether the call panicked, the error it returned, and the
configuration afterwards. -/
structure Outcome where
  panicked : Bool
  err : Option String
  config : Config
deriving DecidableEq

/-- Method `Override` (config.go, lines 66-80). -/
def Override (config : Config) (name : String) (value : Value) : Outcome :=
  match fieldNames.lookup name with
  | none => ⟨false, some ("Variable \"" ++ name ++ "\" is invalid."), config⟩
  | some field =>
    match setField config field value with
    | .noField => ⟨false, some "This variable does not exist/cannot be set", config⟩
    | .notAssignable => ⟨true, none, config⟩
    | .set c => ⟨false, none, c⟩

/-- Configuration `testConfig` of config_test.go, lines 14-29. -/
def testConfig : Config :=
  { ZoneFile := "3bf305731dd26307.nzf"
    Port := 54515
    Rndc := "test/rndc.sh"
    Path := "test/"
    LogToSyslog := false
    SSLEnabled := true
    SSLCert := "test/ssl/cert.bundle.crt"
    SSLKey := "test/ssl/cert.key"
    Clients := [⟨"client1", "password1"⟩, ⟨"client2", "password2"⟩] }

end config

/-! # Command line (`bdns.go`) -/

namespace Main

open config

/-- Type of a command-line flag: defined by `flag.Bool`, `flag.String` or `flag.Int`. -/
inductive FlagType where
  | boolFlag
  | stringFlag
  | intFlag
deriving DecidableEq

/-- Flag definition: name, type and usage string. -/
structure Flag where
  Name : String
  type : FlagType
  usage : String

/-- Flags registered by `init` (bdns.go, lines 172-183). -/
def flags : List Flag :=
  [ ⟨"dumpconfig", .boolFlag, "Dumps the effective configuration settings and terminates"⟩,
    ⟨"configfile", .stringFlag, "Set the configuration file to use"⟩,
    ⟨"zonefile", .stringFlag, "Set the bind\x27s zone file to read"⟩,
    ⟨"port", .intFlag, "Port where to listen"⟩,
    ⟨"rndc", .stringFlag, "Path to the rndc executable"⟩,
    ⟨"path", .stringFlag, "Path to bind\x27s data directory"⟩,
    ⟨"syslog", .boolFlag, "Send logs to syslog"⟩,
    ⟨"ssl_enabled", .boolFlag, "Enables https"⟩,
    ⟨"ssl_cert", .boolFlag, "Path to the certificate (bundle)"⟩,
    ⟨"ssl_key", .boolFlag, "Path to the certificate key"⟩ ]

/-- Dynamic type of what `flag.Getter.Get` returns for a flag of the given type. -/
def FlagType.holds : FlagType → Value → Bool
  | .boolFlag, .bool _ => true
  | .stringFlag, .str _ => true
  | .intFlag, .int _ => true
  | _, _ => false

/-- Type of the flag registered under a name. -/
def flagType (name : String) : Option FlagType :=
  (flags.find? (fun f => f.Name = name)).map (fun f => f.type)

/-- Loop of `flag.Visit` in `loadConfiguration` (bdns.go, lines 124-127) over the flags the
user has set, each with the value it holds: `conf.Override(a.Name, g.Get())`, the error
it returns being dropped; a panic ends the loop. The result is whether the loop panicked
and the configuration. -/
def visitOverride : Config → List (String × Value) → Bool × Config
  | conf, [] => (false, conf)
  | conf, (name, value) :: rest =>
    if (Override conf name value).panicked then (true, (Override conf name value).config)
    else visitOverride (Override conf name value).config rest

end Main

namespace Bind

/-! ## Finite-map lemmas -/

section MapLemmas

variable {α : Type} [DecidableEq α] {β : Type}

/-- Copying a map entry by entry: an entry of the source wins over the accumulator. -/
theorem lookup_foldl_insert (l : List (Sigma (fun _ : α => β))) (hl : l.NodupKeys)
    (acc : AList (fun _ : α => β)) (a : α) :
    (l.foldl (fun d s => d.insert s.1 s.2) acc).lookup a
      = if a ∈ l.keys then l.dlookup a else acc.lookup a := by
  induction l generalizing acc with
  | nil => simp
  | cons e t ih =>
    obtain ⟨k, v⟩ := e
    rw [List.nodupKeys_cons] at hl
    rw [List.foldl_cons, ih hl.2]
    by_cases hak : a = k
    · subst hak
      simp [hl.1, AList.lookup_insert]
    · have hka : k ≠ a := fun h => hak h.symm
      by_cases hat : a ∈ t.keys
      · have hd : List.dlookup a (⟨k, v⟩ :: t) = List.dlookup a t :=
          List.dlookup_cons_ne t (s := ⟨k, v⟩) hak
        simp [hat, hd]
      · have hd : List.dlookup a (⟨k, v⟩ :: t) = List.dlookup a t :=
          List.dlookup_cons_ne t (s := ⟨k, v⟩) hak
        simp [hat, hak, hd, AList.lookup_insert_ne hak]

/-- Copy of a map made by `range` and assignment has the lookups of the source. -/
theorem lookup_copy (m : AList (fun _ : α => β)) (a : α) :
    (m.foldl (fun (d : AList (fun _ : α => β)) k v => d.insert k v) ∅).lookup a
      = m.lookup a := by
  unfold AList.foldl
  rw [lookup_foldl_insert m.entries m.nodupKeys ∅ a]
  by_cases h : a ∈ m.entries.keys
  · simp [h, AList.lookup]
  · have h2 : a ∉ m := h
    simp [h, AList.lookup_eq_none.mpr h2]

/-- Setting a constant for every key of a list. -/
theorem lookup_foldl_const {γ : Type} (c : γ) (l : List (Sigma (fun _ : α => β)))
    (acc : AList (fun _ : α => γ)) (a : α) :
    (l.foldl (fun d s => d.insert s.1 c) acc).lookup a
      = if a ∈ l.keys then some c else acc.lookup a := by
  induction l generalizing acc with
  | nil => simp
  | cons e t ih =>
    obtain ⟨k, v⟩ := e
    rw [List.foldl_cons, ih]
    by_cases hak : a = k
    · subst hak
      simp [AList.lookup_insert]
    · by_cases hat : a ∈ t.keys
      · simp [hat]
      · simp [hat, hak, AList.lookup_insert_ne hak]

/-- Set of keys built by `range` and assignment of a constant. -/
theorem lookup_keyset {γ : Type} (c : γ) (m : AList (fun _ : α => β)) (a : α) :
    (m.foldl (fun (d : AList (fun _ : α => γ)) k _ => d.insert k c) ∅).lookup a
      = if a ∈ m then some c else none := by
  unfold AList.foldl
  rw [lookup_foldl_const c m.entries ∅ a]
  by_cases h : a ∈ m
  · have h2 : a ∈ m.entries.keys := h
    simp [h, h2]
  · have h2 : a ∉ m.entries.keys := h
    simp [h, h2]

omit [DecidableEq α] in
/-- Appending every key of a list. -/
theorem foldl_append_keys (l : List (Sigma (fun _ : α => β))) (acc : List α) :
    l.foldl (fun d s => d ++ [s.1]) acc = acc ++ l.keys := by
  induction l generalizing acc with
  | nil => simp
  | cons e t ih => simp [ih, List.keys]

omit [DecidableEq α] in
/-- A map without entries has no member, and conversely. -/
theorem entries_eq_nil_iff (m : AList (fun _ : α => β)) :
    m.entries = [] ↔ ∀ a, a ∉ m := by
  constructor
  · intro h a ha
    have : a ∈ m.entries.keys := ha
    simp [h] at this
  · intro h
    cases hm : m.entries with
    | nil => rfl
    | cons e t =>
      exfalso
      apply h e.1
      show e.1 ∈ m.entries.keys
      simp [hm, List.keys]

end MapLemmas

/-! ## What the read operations return -/

section Reads

variable {E : Type}

theorem GetZoneMap_lookup (zd : ZoneManager E) (z : Zone) :
    (GetZoneMap zd).lookup z = zd.zones.lookup z :=
  lookup_copy zd.zones z

theorem GetZones_lookup (zd : ZoneManager E) (m : Master) (z : Zone) :
    (GetZones zd m).lookup z
      = if z ∈ (zd.masters.lookup m).getD ∅ then some true else none :=
  lookup_keyset true _ z

theorem GetMasters_eq_keys (zd : ZoneManager E) : GetMasters zd = zd.masters.keys := by
  unfold GetMasters AList.foldl
  rw [foldl_append_keys]
  simp [AList.keys]

end Reads

/-! ## Case analysis of the two mutating operations -/

section Cases

variable {E : Type}

/-- Zone sets of the masters after `AddZone` has registered `zone` under `master`. -/
theorem lookup_masters_added (ms : masters) (master m : Master) (zone : Zone) :
    let ms0 : masters :=
      match ms.lookup master with
      | none => ms.insert master ∅
      | some _ => ms
    (ms0.insert master (((ms0.lookup master).getD ∅).insert zone true)).lookup m
      = if m = master then some (((ms.lookup master).getD ∅).insert zone true)
        else ms.lookup m := by
  intro ms0
  by_cases hm : m = master
  · subst hm
    rw [if_pos rfl, AList.lookup_insert]
    cases h : ms.lookup m with
    | none =>
      have : ms0 = ms.insert m ∅ := by simp only [ms0, h]
      simp [this, AList.lookup_insert]
    | some s =>
      have : ms0 = ms := by simp only [ms0, h]
      simp [this, h]
  · rw [if_neg hm, AList.lookup_insert_ne hm]
    cases h : ms.lookup master with
    | none =>
      have : ms0 = ms.insert master ∅ := by simp only [ms0, h]
      rw [this, AList.lookup_insert_ne hm]
    | some s =>
      have : ms0 = ms := by simp only [ms0, h]
      rw [this]

/-- The three ways `AddZone` ends. -/
theorem AddZone_cases (zd : ZoneManager E) (master : Master) (zone : Zone) (w : World E) :
    (∃ c, zd.zones.lookup zone = some c ∧
        AddZone zd master zone w = ⟨some (duplicateZoneError zone c), zd, w⟩) ∨
    (zd.zones.lookup zone = none ∧ ∃ e w1,
        zd.adder zd.toZoneData master zone w = (some e, w1) ∧
        AddZone zd master zone w = ⟨some e, zd, w1⟩) ∨
    (zd.zones.lookup zone = none ∧ ∃ w1,
        zd.adder zd.toZoneData master zone w = (none, w1) ∧
        (AddZone zd master zone w).err = none ∧
        (AddZone zd master zone w).world = w1 ∧
        (AddZone zd master zone w).zd.zones = zd.zones.insert zone master ∧
        (∀ m, (AddZone zd master zone w).zd.masters.lookup m
            = if m = master then some (((zd.masters.lookup master).getD ∅).insert zone true)
              else zd.masters.lookup m) ∧
        (AddZone zd master zone w).zd.adder = zd.adder ∧
        (AddZone zd master zone w).zd.remover = zd.remover ∧
        (AddZone zd master zone w).zd.dataPath = zd.dataPath ∧
        (AddZone zd master zone w).zd.rndcPath = zd.rndcPath) := by
  cases hz : zd.zones.lookup zone with
  | some c =>
    left
    exact ⟨c, rfl, by simp [AddZone, hz]⟩
  | none =>
    right
    cases ha : zd.adder zd.toZoneData master zone w with
    | mk r w1 =>
      cases r with
      | some e =>
        left
        exact ⟨rfl, e, w1, rfl, by simp [AddZone, hz, ha]⟩
      | none =>
        right
        refine ⟨rfl, w1, rfl, ?_, ?_, ?_, ?_, ?_, ?_, ?_, ?_⟩
        · simp [AddZone, hz, ha]
        · simp [AddZone, hz, ha]
        · simp [AddZone, hz, ha]
        · intro m
          have h := lookup_masters_added zd.masters master m zone
          simp only [AddZone, hz, ha]
          exact h
        · simp [AddZone, hz, ha]
        · simp [AddZone, hz, ha]
        · simp [AddZone, hz, ha]
        · simp [AddZone, hz, ha]

/-- Zone sets of the masters after `RemoveZone` has taken `zone` from the set of `master`. -/
theorem lookup_masters_removed (ms : masters) (master m : Master) (set1 : ZoneSet) :
    (if set1.entries.length = 0 then (ms.insert master set1).erase master
      else ms.insert master set1).lookup m
      = if m = master then (if set1.entries.length = 0 then none else some set1)
        else ms.lookup m := by
  by_cases hm : m = master
  · subst hm
    by_cases hl : set1.entries.length = 0
    · simp [hl, AList.lookup_erase]
    · simp [hl, AList.lookup_insert]
  · by_cases hl : set1.entries.length = 0
    · simp [hl, hm, AList.lookup_erase_ne hm, AList.lookup_insert_ne hm]
    · simp [hl, hm, AList.lookup_insert_ne hm]

/-- The four ways `RemoveZone` ends. -/
theorem RemoveZone_cases (zd : ZoneManager E) (master : Master) (zone : Zone) (w : World E) :
    (zd.zones.lookup zone = none ∧
        RemoveZone zd master zone w = ⟨some "not found in zone map", zd, w⟩) ∨
    (zone ∈ zd.zones ∧ zd.masters.lookup master = none ∧
        RemoveZone zd master zone w = ⟨some "master not found", zd, w⟩) ∨
    (zone ∈ zd.zones ∧ (∃ set, zd.masters.lookup master = some set ∧ zone ∉ set) ∧
        RemoveZone zd master zone w = ⟨some "zone not in this master", zd, w⟩) ∨
    (zone ∈ zd.zones ∧ (∃ set, zd.masters.lookup master = some set ∧ zone ∈ set) ∧
        (RemoveZone zd master zone w).zd.toZoneData = removedData zd.toZoneData master zone ∧
        (RemoveZone zd master zone w).zd.adder = zd.adder ∧
        (RemoveZone zd master zone w).zd.remover = zd.remover ∧
        (RemoveZone zd master zone w).err
          = (zd.remover (removedData zd.toZoneData master zone) master zone w).1 ∧
        (RemoveZone zd master zone w).world
          = (zd.remover (removedData zd.toZoneData master zone) master zone w).2) := by
  cases hz : zd.zones.lookup zone with
  | none =>
    left
    exact ⟨rfl, by simp [RemoveZone, hz]⟩
  | some c =>
    right
    have hzm : zone ∈ zd.zones := by
      rw [← AList.lookup_isSome, hz]; rfl
    cases hm : zd.masters.lookup master with
    | none =>
      left
      exact ⟨hzm, rfl, by simp [RemoveZone, hz, hm]⟩
    | some set =>
      right
      cases hs : set.lookup zone with
      | none =>
        left
        exact ⟨hzm, ⟨set, rfl, AList.lookup_eq_none.mp hs⟩, by simp [RemoveZone, hz, hm, hs]⟩
      | some b =>
        right
        have hsm : zone ∈ set := by
          rw [← AList.lookup_isSome, hs]; rfl
        refine ⟨hzm, ⟨set, rfl, hsm⟩, ?_, ?_, ?_, ?_, ?_⟩ <;>
          simp [RemoveZone, hz, hm, hs, removedData]

end Cases

/-! ## The registry invariant is kept -/

section InvariantKept

variable {E : Type}

/-- The invariant follows from its first two parts. -/
theorem Invariant.of_I1_I2 {ms : masters} {zones : ZoneMap}
    (h1 : ∀ (m : Master) (z : Zone), z ∈ (ms.lookup m).getD ∅ ↔ zones.lookup z = some m)
    (h2 : ∀ m : Master, m ∈ ms ↔ ((ms.lookup m).getD ∅).entries.length ≠ 0) :
    Invariant ms zones :=
  ⟨h1, h2, fun m1 m2 z hz1 hz2 => by
    have e1 := (h1 m1 z).mp hz1
    have e2 := (h1 m2 z).mp hz2
    rw [e1] at e2
    exact Option.some.inj e2⟩

theorem Invariant_new : Invariant (∅ : masters) (∅ : ZoneMap) := by
  apply Invariant.of_I1_I2
  · intro m z
    simp [AList.lookup_empty, AList.not_mem_empty]
  · intro m
    simp [AList.lookup_empty, AList.not_mem_empty]

/-- A map that has a member has an entry. -/
theorem length_ne_zero_of_mem {β : Type} {m : AList (fun _ : String => β)} {a : String}
    (h : a ∈ m) : m.entries.length ≠ 0 := by
  intro hl
  have hnil : m.entries = [] := List.length_eq_zero.mp hl
  exact (entries_eq_nil_iff m).mp hnil a h

/-- Reading a pruned zone set as a Go map gives the members of the zone set. -/
theorem mem_pruned (set1 : ZoneSet) (z : Zone) :
    z ∈ (if set1.entries.length = 0 then (none : Option ZoneSet) else some set1).getD ∅
      ↔ z ∈ set1 := by
  by_cases hl : set1.entries.length = 0
  · have hnil : set1.entries = [] := List.length_eq_zero.mp hl
    have := (entries_eq_nil_iff set1).mp hnil z
    simp [hl, this, AList.not_mem_empty]
  · simp [hl]

theorem Invariant_add {ms ms1 : masters} {zones : ZoneMap} (inv : Invariant ms zones)
    (master : Master) (zone : Zone) (hfree : zones.lookup zone = none)
    (hms : ∀ m, ms1.lookup m
      = if m = master then some (((ms.lookup master).getD ∅).insert zone true)
        else ms.lookup m) :
    Invariant ms1 (zones.insert zone master) := by
  apply Invariant.of_I1_I2
  · intro m z
    rw [hms m]
    by_cases hm : m = master
    · subst hm
      rw [if_pos rfl]
      by_cases hz : z = zone
      · subst hz
        simp [AList.mem_insert, AList.lookup_insert]
      · simp [AList.mem_insert, hz, AList.lookup_insert_ne hz, inv.I1 m z]
    · rw [if_neg hm, inv.I1 m z]
      by_cases hz : z = zone
      · subst hz
        rw [hfree, AList.lookup_insert]
        constructor
        · intro h; cases h
        · intro h; exact absurd (Option.some.inj h).symm hm
      · rw [AList.lookup_insert_ne hz]
  · intro m
    rw [← AList.lookup_isSome, hms m]
    by_cases hm : m = master
    · subst hm
      have hmem : zone ∈ ((ms.lookup m).getD ∅).insert zone true := by
        simp [AList.mem_insert]
      simp [length_ne_zero_of_mem hmem]
    · rw [if_neg hm, AList.lookup_isSome]
      exact inv.I2 m

theorem Invariant_remove {ms ms2 : masters} {zones : ZoneMap} (inv : Invariant ms zones)
    (master : Master) (zone : Zone) (set : ZoneSet)
    (hset : ms.lookup master = some set) (hin : zone ∈ set)
    (hms : ∀ m, ms2.lookup m
      = if m = master then
          (if (set.erase zone).entries.length = 0 then none else some (set.erase zone))
        else ms.lookup m) :
    Invariant ms2 (zones.erase zone) := by
  have howner : zones.lookup zone = some master := by
    rw [← inv.I1 master zone, hset]
    exact hin
  apply Invariant.of_I1_I2
  · intro m z
    rw [hms m]
    by_cases hm : m = master
    · subst hm
      rw [if_pos rfl, mem_pruned, AList.mem_erase]
      by_cases hz : z = zone
      · subst hz
        simp [AList.lookup_erase]
      · rw [AList.lookup_erase_ne hz, ← inv.I1 m z, hset]
        simp [hz]
    · rw [if_neg hm, inv.I1 m z]
      by_cases hz : z = zone
      · subst hz
        rw [howner, AList.lookup_erase]
        constructor
        · intro h; exact absurd (Option.some.inj h).symm hm
        · intro h; cases h
      · rw [AList.lookup_erase_ne hz]
  · intro m
    rw [← AList.lookup_isSome, hms m]
    by_cases hm : m = master
    · subst hm
      by_cases hl : (set.erase zone).entries.length = 0
      · simp [hl]
      · simp [hl]
    · rw [if_neg hm, AList.lookup_isSome]
      exact inv.I2 m

theorem Invariant_AddZone (zd : ZoneManager E) (master : Master) (zone : Zone) (w : World E)
    (inv : Invariant zd.masters zd.zones) :
    Invariant (AddZone zd master zone w).zd.masters (AddZone zd master zone w).zd.zones := by
  rcases AddZone_cases zd master zone w with ⟨c, _, heq⟩ | ⟨_, e, w1, _, heq⟩ |
    ⟨hfree, w1, _, _, _, hzones, hms, _⟩
  · rw [heq]; exact inv
  · rw [heq]; exact inv
  · rw [hzones]
    exact Invariant_add inv master zone hfree hms

theorem removedData_lookup (zd : ZoneData) (master : Master) (zone : Zone) (set : ZoneSet)
    (hset : zd.masters.lookup master = some set) (m : Master) :
    (removedData zd master zone).masters.lookup m
      = if m = master then
          (if (set.erase zone).entries.length = 0 then none else some (set.erase zone))
        else zd.masters.lookup m := by
  have h := lookup_masters_removed zd.masters master m (set.erase zone)
  simp only [removedData, hset, Option.getD_some]
  exact h

theorem Invariant_RemoveZone (zd : ZoneManager E) (master : Master) (zone : Zone) (w : World E)
    (inv : Invariant zd.masters zd.zones) :
    Invariant (RemoveZone zd master zone w).zd.masters
      (RemoveZone zd master zone w).zd.zones := by
  rcases RemoveZone_cases zd master zone w with ⟨_, heq⟩ | ⟨_, _, heq⟩ | ⟨_, _, heq⟩ |
    ⟨_, ⟨set, hset, hin⟩, hdata, _⟩
  · rw [heq]; exact inv
  · rw [heq]; exact inv
  · rw [heq]; exact inv
  · have h1 : (RemoveZone zd master zone w).zd.masters
        = (removedData zd.toZoneData master zone).masters := by rw [← hdata]
    have h2 : (RemoveZone zd master zone w).zd.zones = zd.zones.erase zone := by
      show (RemoveZone zd master zone w).zd.toZoneData.zones = _
      rw [hdata]; rfl
    rw [h1, h2]
    exact Invariant_remove inv master zone set hset hin
      (removedData_lookup zd.toZoneData master zone set hset)

theorem Invariant_loadLoop (lines : List String) (zd : ZoneManager E) (w : World E)
    (inv : Invariant zd.masters zd.zones) :
    Invariant (loadLoop lines zd w).zd.masters (loadLoop lines zd w).zd.zones := by
  induction lines generalizing zd w with
  | nil => exact inv
  | cons line lines ih =>
    unfold loadLoop
    cases hp : parseLine line with
    | error msg => exact inv
    | ok r =>
      obtain ⟨found, master, zone⟩ := r
      cases found with
      | true =>
        simp only [if_true]
        exact ih _ _ (Invariant_AddZone zd master zone w inv)
      | false =>
        simp only [Bool.false_eq_true, if_false]
        exact ih _ _ inv

theorem Invariant_loadScanned (zd : ZoneManager E) (lines : List String) (w : World E)
    (inv : Invariant zd.masters zd.zones) :
    Invariant (loadScanned zd lines w).zd.masters (loadScanned zd lines w).zd.zones := by
  have h := Invariant_loadLoop lines { zd with adder := LoadingZoneAdder } w inv
  unfold loadScanned
  simp only
  cases hp : (loadLoop lines { zd with adder := LoadingZoneAdder } w).panic with
  | none => exact h
  | some msg => exact h

/-- Registry and world of `LoadZones` on a reader are those of `loadScanned` on the lines
the scanner yields. -/
theorem LoadZones_toLoadOutcome (zd : ZoneManager E) (reader : Reader) (w : World E) :
    (LoadZones zd reader w).toLoadOutcome = loadScanned zd (scanTokens reader.data) w := by
  unfold LoadZones loadScanned
  simp only
  cases hp : (loadLoop (scanTokens reader.data) { zd with adder := LoadingZoneAdder } w).panic with
  | some msg => rfl
  | none =>
    cases he : scanErr reader with
    | some err => rfl
    | none => rfl

theorem Invariant_LoadZones (zd : ZoneManager E) (reader : Reader) (w : World E)
    (inv : Invariant zd.masters zd.zones) :
    Invariant (LoadZones zd reader w).zd.masters (LoadZones zd reader w).zd.zones := by
  show Invariant (LoadZones zd reader w).toLoadOutcome.zd.masters
    (LoadZones zd reader w).toLoadOutcome.zd.zones
  rw [LoadZones_toLoadOutcome]
  exact Invariant_loadScanned zd _ w inv

theorem Invariant_of_Reachable {zd : ZoneManager E} (h : Reachable zd) :
    Invariant zd.masters zd.zones := by
  induction h with
  | new => exact Invariant_new
  | addZone zd master zone w _ ih => exact Invariant_AddZone zd master zone w ih
  | removeZone zd master zone w _ ih => exact Invariant_RemoveZone zd master zone w ih
  | loadZones zd reader w _ ih => exact Invariant_LoadZones zd reader w ih
  | loadScanned zd lines w _ ih => exact Invariant_loadScanned zd lines w ih
  | zoneAdder zd adder _ ih => exact ih
  | zoneRemover zd remover _ ih => exact ih
  | path zd p _ ih => exact ih
  | rndcPath zd p _ ih => exact ih

end InvariantKept

/-! ## Consequences of the invariant -/

section Owners

variable {E : Type}

/-- Under the invariant a master is a key iff the zone map assigns it a zone. -/
theorem mem_masters_iff_owner {ms : masters} {zones : ZoneMap} (inv : Invariant ms zones)
    (m : Master) : m ∈ ms ↔ ∃ z, zones.lookup z = some m := by
  rw [inv.I2 m]
  constructor
  · intro h
    by_contra hno
    apply h
    have hnil : ((ms.lookup m).getD ∅).entries = [] := by
      rw [entries_eq_nil_iff]
      intro z hz
      exact hno ⟨z, (inv.I1 m z).mp hz⟩
    rw [hnil]; rfl
  · rintro ⟨z, hz⟩
    exact length_ne_zero_of_mem ((inv.I1 m z).mpr hz)

/-- Under the invariant the owner of a zone has a zone set, and the zone is in it. -/
theorem owner_has_set {ms : masters} {zones : ZoneMap} (inv : Invariant ms zones)
    {m : Master} {z : Zone} (h : zones.lookup z = some m) :
    ∃ set, ms.lookup m = some set ∧ z ∈ set := by
  have hz := (inv.I1 m z).mpr h
  cases hm : ms.lookup m with
  | none =>
    rw [hm] at hz
    exact absurd hz (AList.not_mem_empty z)
  | some set =>
    rw [hm] at hz
    exact ⟨set, rfl, hz⟩

/-- Registry after a `RemoveZone` whose validation passes. -/
theorem RemoveZone_owned (zd : ZoneManager E) (inv : Invariant zd.masters zd.zones)
    (m : Master) (z : Zone) (w : World E) (h : zd.zones.lookup z = some m) :
    ∃ set, zd.masters.lookup m = some set ∧ z ∈ set ∧
      (RemoveZone zd m z w).zd.zones = zd.zones.erase z ∧
      (∀ m1, (RemoveZone zd m z w).zd.masters.lookup m1
        = if m1 = m then
            (if (set.erase z).entries.length = 0 then none else some (set.erase z))
          else zd.masters.lookup m1) ∧
      (RemoveZone zd m z w).err
        = (zd.remover (RemoveZone zd m z w).zd.toZoneData m z w).1 ∧
      (RemoveZone zd m z w).world
        = (zd.remover (RemoveZone zd m z w).zd.toZoneData m z w).2 := by
  obtain ⟨set, hset, hin⟩ := owner_has_set inv h
  rcases RemoveZone_cases zd m z w with ⟨hz, _⟩ | ⟨_, hm, _⟩ | ⟨_, ⟨set1, hs1, hn⟩, _⟩ |
    ⟨_, _, hdata, _, _, herr, hworld⟩
  · rw [hz] at h; cases h
  · rw [hm] at hset; cases hset
  · rw [hs1] at hset
    cases hset
    exact absurd hin hn
  · refine ⟨set, hset, hin, ?_, ?_, ?_, ?_⟩
    · show (RemoveZone zd m z w).zd.toZoneData.zones = _
      rw [hdata]; rfl
    · intro m1
      show (RemoveZone zd m z w).zd.toZoneData.masters.lookup m1 = _
      rw [hdata]
      exact removedData_lookup zd.toZoneData m z set hset m1
    · rw [herr, hdata]
    · rw [hworld, hdata]

end Owners

/-! ## The pattern of ignored lines -/

theorem starRun_fail_head {α : Type} (p : Char → Bool) (caps : Nat → Option (List Char))
    (k : MState → Option α)
    (hk : ∀ pos c cs, p c = true → k ⟨pos, c :: cs, caps⟩ = none) (pos : Nat) (cs : List Char) :
    starRun p caps k pos cs
      = k ⟨pos + (cs.takeWhile p).length, cs.dropWhile p, caps⟩ := by
  induction cs generalizing pos with
  | nil => rfl
  | cons c cs ih =>
    by_cases hp : p c = true
    · have h1 : starRun p caps k pos (c :: cs) = starRun p caps k (pos + 1) cs := by
        simp only [starRun, hp, if_true, hk pos c cs hp]
        cases starRun p caps k (pos + 1) cs <;> rfl
      rw [h1, ih]
      simp only [List.takeWhile_cons, List.dropWhile_cons, hp, if_true, List.length_cons]
      rw [Nat.add_assoc, Nat.add_comm 1]
    · simp [starRun, hp]

theorem starRun_to_end {α : Type} (p : Char → Bool) (caps : Nat → Option (List Char))
    (k : MState → Option α)
    (hk : ∀ t : MState, t.rest ≠ [] → k t = none) (pos : Nat) (cs : List Char) :
    starRun p caps k pos cs
      = if cs.all p then k ⟨pos + cs.length, [], caps⟩ else none := by
  induction cs generalizing pos with
  | nil => simp [starRun]
  | cons c cs ih =>
    have hfail : k ⟨pos, c :: cs, caps⟩ = none := hk _ (by simp)
    by_cases hp : p c = true
    · simp only [starRun, hp, if_true, hfail, ih, List.all_cons, Bool.true_and,
        List.length_cons]
      rw [Nat.add_assoc, Nat.add_comm 1]
      cases hall : cs.all p <;> simp
      cases k ⟨pos + (cs.length + 1), [], caps⟩ <;> rfl
    · simp [starRun, hp, hfail]


theorem ignoredLine_run_pos {α : Type} (pos : Nat) (hpos : pos ≠ 0) (cs : List Char)
    (caps : Nat → Option (List Char)) (k : MState → Option α) :
    ignoredLine.run ⟨pos, cs, caps⟩ k = none := by
  simp [ignoredLine, Regex.seq, Regex.run, hpos]

theorem ignoredLine_searchFrom_pos (pos : Nat) (hpos : pos ≠ 0) (cs : List Char) :
    ignoredLine.searchFrom pos cs = none := by
  induction cs generalizing pos with
  | nil => simp [Regex.searchFrom, ignoredLine_run_pos pos hpos]
  | cons c cs ih =>
    simp [Regex.searchFrom, ignoredLine_run_pos pos hpos, ih (pos + 1) (by omega)]

theorem ignoredLine_run_zero (cs : List Char) (hnl : ∀ c ∈ cs, notNewline c = true) :
    (ignoredLine.run ⟨0, cs, fun _ => none⟩ some).isSome
      = (cs.all isSpace ||
          match cs.dropWhile isSpace with
          | c :: _ => c == Char.ofNat 35
          | [] => false) := by
  have hstr : "#".toList = [Char.ofNat 35] := by decide
  simp only [ignoredLine, Regex.seq, Regex.str, Regex.run, hstr, List.map, Regex.lit, if_true]
  rw [starRun_fail_head]
  · simp only [Nat.zero_add]
    have hsuf : List.dropWhile isSpace cs <:+ cs := List.dropWhile_suffix isSpace
    cases hd : List.dropWhile isSpace cs with
    | nil =>
      have hall : cs.all isSpace = true := by
        rw [List.all_eq_true]
        exact List.dropWhile_eq_nil_iff.mp hd
      simp [hall]
    | cons c body =>
      have hall : cs.all isSpace = false := by
        cases h : cs.all isSpace with
        | false => rfl
        | true =>
          rw [List.all_eq_true] at h
          rw [List.dropWhile_eq_nil_iff.mpr h] at hd
          cases hd
      by_cases hc : c = Char.ofNat 35
      · subst hc
        have hbody : body.all notNewline = true := by
          rw [List.all_eq_true]
          intro x hx
          apply hnl
          rw [hd] at hsuf
          exact hsuf.subset (List.mem_cons_of_mem _ hx)
        dsimp only
        rw [starRun_to_end]
        · simp [hall, hbody]
        · intro t ht
          simp [ht]
      · have hc2 : (c == Char.ofNat 35) = false := by simpa using hc
        simp [hall, hc2]
  · intro pos c cs1 hsp
    have hc : (c == Char.ofNat 35) = false := by
      simp only [isSpace, Bool.or_eq_true, beq_iff_eq] at hsp
      rcases hsp with (((rfl | rfl) | rfl) | rfl) | rfl <;> decide
    simp [hc]

theorem ignoredLine_MatchString (line : String)
    (hnl : ∀ c ∈ line.toList, notNewline c = true) :
    ignoredLine.MatchString line = (blankLine line || commentLine line) := by
  unfold Regex.MatchString blankLine commentLine
  rw [← ignoredLine_run_zero line.toList hnl]
  cases h : line.toList with
  | nil => rfl
  | cons c cs =>
    simp only [Regex.searchFrom]
    cases hr : ignoredLine.run ⟨0, c :: cs, fun _ => none⟩ some with
    | some t => rfl
    | none => simp [ignoredLine_searchFrom_pos 1 (by decide) cs]


/-! ## AddZone -/

section AddZoneClaims

variable {E : Type}

/-- Claim C1. For every registry, master `m` and zone `z`: when `AddZone m z` returns no
error, `GetZoneMap()` maps `z` to `m` afterwards and `z` is in `GetZones(m)`, with value
`true`. -/
theorem AddZone_success_registers (zd : ZoneManager E) (m : Master) (z : Zone) (w : World E)
    (h : (AddZone zd m z w).err = none) :
    (GetZoneMap (AddZone zd m z w).zd).lookup z = some m ∧
    z ∈ GetZones (AddZone zd m z w).zd m ∧
    (GetZones (AddZone zd m z w).zd m).lookup z = some true := by
  rcases AddZone_cases zd m z w with ⟨c, _, heq⟩ | ⟨_, e, w1, _, heq⟩ |
    ⟨_, w1, _, _, _, hzones, hms, _⟩
  · rw [heq] at h; cases h
  · rw [heq] at h; cases h
  · have hz : (GetZones (AddZone zd m z w).zd m).lookup z = some true := by
      rw [GetZones_lookup, hms m, if_pos rfl]
      simp [AList.mem_insert]
    refine ⟨?_, ?_, hz⟩
    · rw [GetZoneMap_lookup, hzones, AList.lookup_insert]
    · rw [← AList.lookup_isSome, hz]; rfl

/-- Witness of C1: on a new registry, adding `domain.tld` for `178.33.115.135` succeeds and
registers the pair (the scenario of `TestAddZone`). -/
theorem AddZone_success_registers_witness :
    (AddZone (NewZoneManager : ZoneManager Unit) "178.33.115.135" "domain.tld" ⟨[], ()⟩).err
        = none ∧
    (GetZoneMap (AddZone (NewZoneManager : ZoneManager Unit) "178.33.115.135" "domain.tld"
        ⟨[], ()⟩).zd).lookup "domain.tld" = some "178.33.115.135" ∧
    "domain.tld" ∈ GetZones (AddZone (NewZoneManager : ZoneManager Unit) "178.33.115.135"
        "domain.tld" ⟨[], ()⟩).zd "178.33.115.135" ∧
    (GetZones (AddZone (NewZoneManager : ZoneManager Unit) "178.33.115.135" "domain.tld"
        ⟨[], ()⟩).zd "178.33.115.135").lookup "domain.tld" = some true :=
  ⟨by decide, AddZone_success_registers NewZoneManager "178.33.115.135" "domain.tld" ⟨[], ()⟩
    (by decide)⟩

/-- Claim C2. In every registry where zone `z` already has an owner `c`, `AddZone m z`, for
every master `m`, returns the duplicate-zone error naming `c`, leaves the world as it was
whatever the add hook is (the hook is not invoked), and returns the registry unchanged. -/
theorem AddZone_duplicate_rejected (zd : ZoneManager E) (m c : Master) (z : Zone) (w : World E)
    (h : (GetZoneMap zd).lookup z = some c) :
    (AddZone zd m z w).err = some (duplicateZoneError z c) ∧
    (∀ adder : ZoneAdderFunc E, (AddZone (ZoneAdder zd adder) m z w).world = w) ∧
    (AddZone zd m z w).world = w ∧
    (AddZone zd m z w).zd = zd := by
  rw [GetZoneMap_lookup] at h
  have key : ∀ zd1 : ZoneManager E, zd1.zones.lookup z = some c →
      AddZone zd1 m z w = ⟨some (duplicateZoneError z c), zd1, w⟩ := by
    intro zd1 h1
    simp [AddZone, h1]
  refine ⟨?_, ?_, ?_, ?_⟩
  · rw [key zd h]
  · intro adder
    rw [key (ZoneAdder zd adder) h]
  · rw [key zd h]
  · rw [key zd h]

/-- Witness of C2: adding `domain.tld` a second time, under another master and with an add
hook that would write to the log. -/
theorem AddZone_duplicate_rejected_witness :
    (AddZone (ZoneAdder (AddZone (NewZoneManager : ZoneManager Unit) "178.33.115.135"
        "domain.tld" ⟨[], ()⟩).zd LogZoneAdder) "10.0.0.1" "domain.tld" ⟨[], ()⟩).err
      = some "Zone \"domain.tld\" is already assigned to \"178.33.115.135\"" ∧
    (AddZone (ZoneAdder (AddZone (NewZoneManager : ZoneManager Unit) "178.33.115.135"
        "domain.tld" ⟨[], ()⟩).zd LogZoneAdder) "10.0.0.1" "domain.tld" ⟨[], ()⟩).world.log
      = [] :=
  have h := AddZone_duplicate_rejected
    (ZoneAdder (AddZone (NewZoneManager : ZoneManager Unit) "178.33.115.135" "domain.tld"
      ⟨[], ()⟩).zd LogZoneAdder) "10.0.0.1" "178.33.115.135" "domain.tld" ⟨[], ()⟩ (by decide)
  ⟨h.1.trans (by decide), by rw [h.2.2.1]⟩

/-- Claim C3. For every registry, master `m` and zone `z` without an owner: when the
configured add hook fails with error `e`, `AddZone m z` returns `e` and the registry after
the call is the registry before it. -/
theorem AddZone_hook_failure_atomic (zd : ZoneManager E) (m : Master) (z : Zone) (w : World E)
    (e : GoError) (hfree : (GetZoneMap zd).lookup z = none)
    (hfail : (zd.adder zd.toZoneData m z w).1 = some e) :
    (AddZone zd m z w).err = some e ∧
    (AddZone zd m z w).zd = zd ∧
    GetZoneMap (AddZone zd m z w).zd = GetZoneMap zd ∧
    (∀ m1, GetZones (AddZone zd m z w).zd m1 = GetZones zd m1) ∧
    GetMasters (AddZone zd m z w).zd = GetMasters zd := by
  rw [GetZoneMap_lookup] at hfree
  have heq : AddZone zd m z w = ⟨some e, zd, (zd.adder zd.toZoneData m z w).2⟩ := by
    cases ha : zd.adder zd.toZoneData m z w with
    | mk r w1 =>
      rw [ha] at hfail
      simp only at hfail
      subst hfail
      simp [AddZone, hfree, ha]
  rw [heq]
  exact ⟨rfl, rfl, rfl, fun _ => rfl, rfl⟩

/-- Witness of C3: a hook that always fails, on a new registry. -/
theorem AddZone_hook_failure_atomic_witness :
    (AddZone (ZoneAdder (NewZoneManager : ZoneManager Unit)
        (fun _ _ _ w => (some "rndc failed", w))) "10.0.0.1" "basis.es" ⟨[], ()⟩).err
      = some "rndc failed" ∧
    (GetZoneMap (AddZone (ZoneAdder (NewZoneManager : ZoneManager Unit)
        (fun _ _ _ w => (some "rndc failed", w))) "10.0.0.1" "basis.es" ⟨[], ()⟩).zd).entries
      = [] :=
  have h := AddZone_hook_failure_atomic
    (ZoneAdder (NewZoneManager : ZoneManager Unit) (fun _ _ _ w => (some "rndc failed", w)))
    "10.0.0.1" "basis.es" ⟨[], ()⟩ "rndc failed" (by decide) (by decide)
  ⟨h.1, by rw [h.2.2.1]; decide⟩

end AddZoneClaims

/-! ## RemoveZone -/

section RemoveZoneClaims

variable {E : Type}

/-- Claim C4. In every reachable registry `RemoveZone m z` tells three failures apart, each
with its own error: a zone without owner gives the zone-not-found error; a zone with an
owner and a master that owns no zone give the master-not-found error; a zone owned by
another master, when `m` owns some zone, gives the zone-not-in-this-master error. In the
remaining case, `z` owned by `m`, the validation passes: the remove hook runs on the
updated registry and its result is what the call returns. -/
theorem RemoveZone_validation {zd : ZoneManager E} (hr : Reachable zd) (m : Master) (z : Zone)
    (w : World E) :
    ((GetZoneMap zd).lookup z = none →
      (RemoveZone zd m z w).err = some "not found in zone map") ∧
    ((∃ o, (GetZoneMap zd).lookup z = some o) → (∀ z1, (GetZoneMap zd).lookup z1 ≠ some m) →
      (RemoveZone zd m z w).err = some "master not found") ∧
    (∀ o, (GetZoneMap zd).lookup z = some o → (∃ z1, (GetZoneMap zd).lookup z1 = some m) →
      o ≠ m → (RemoveZone zd m z w).err = some "zone not in this master") ∧
    ((GetZoneMap zd).lookup z = some m →
      (RemoveZone zd m z w).err = (zd.remover (RemoveZone zd m z w).zd.toZoneData m z w).1 ∧
      (RemoveZone zd m z w).world
        = (zd.remover (RemoveZone zd m z w).zd.toZoneData m z w).2) ∧
    ("not found in zone map" ≠ "master not found" ∧
      "not found in zone map" ≠ "zone not in this master" ∧
      "master not found" ≠ "zone not in this master") := by
  have inv := Invariant_of_Reachable hr
  simp only [GetZoneMap_lookup]
  refine ⟨?_, ?_, ?_, ?_, by decide⟩
  · intro hz
    simp [RemoveZone, hz]
  · rintro ⟨o, ho⟩ hnone
    have hm : zd.masters.lookup m = none := by
      rw [AList.lookup_eq_none, mem_masters_iff_owner inv m]
      rintro ⟨z1, hz1⟩
      exact hnone z1 hz1
    simp [RemoveZone, ho, hm]
  · intro o ho hsome hne
    have hmem : m ∈ zd.masters := (mem_masters_iff_owner inv m).mpr hsome
    rw [← AList.lookup_isSome] at hmem
    cases hm : zd.masters.lookup m with
    | none => rw [hm] at hmem; cases hmem
    | some set =>
      have hs : set.lookup z = none := by
        rw [AList.lookup_eq_none]
        intro hin
        have : z ∈ (zd.masters.lookup m).getD ∅ := by rw [hm]; exact hin
        rw [inv.I1 m z, ho] at this
        exact hne (Option.some.inj this)
      simp [RemoveZone, ho, hm, hs]
  · intro h
    obtain ⟨set, _, _, _, _, herr, hworld⟩ := RemoveZone_owned zd inv m z w h
    exact ⟨herr, hworld⟩

/-- Witness of C4: with `a.org` under `10.0.0.1` and `b.org` under `10.0.0.2`, removing
`a.org` as `10.0.0.2` is refused with the zone-not-in-this-master error. -/
theorem RemoveZone_validation_witness :
    (RemoveZone (AddZone (AddZone (NewZoneManager : ZoneManager Unit) "10.0.0.1" "a.org"
        ⟨[], ()⟩).zd "10.0.0.2" "b.org" ⟨[], ()⟩).zd "10.0.0.2" "a.org" ⟨[], ()⟩).err
      = some "zone not in this master" :=
  (RemoveZone_validation
    (Reachable.addZone _ "10.0.0.2" "b.org" ⟨[], ()⟩
      (Reachable.addZone _ "10.0.0.1" "a.org" ⟨[], ()⟩ Reachable.new))
    "10.0.0.2" "a.org" ⟨[], ()⟩).2.2.1 "10.0.0.1" (by decide) ⟨"b.org", by decide⟩ (by decide)

/-- Claim C5. In every reachable registry where master `m` owns zone `z`, `RemoveZone m z`
takes `z` out of the zone map and out of the zone set of `m` whatever the remove hook
returns; the result of the hook, an error included, is what the call returns. -/
theorem RemoveZone_removes_despite_hook {zd : ZoneManager E} (hr : Reachable zd) (m : Master)
    (z : Zone) (w : World E) (hown : (GetZoneMap zd).lookup z = some m) :
    (GetZoneMap (RemoveZone zd m z w).zd).lookup z = none ∧
    z ∉ GetZones (RemoveZone zd m z w).zd m ∧
    (RemoveZone zd m z w).err = (zd.remover (RemoveZone zd m z w).zd.toZoneData m z w).1 ∧
    (∀ e, (zd.remover (RemoveZone zd m z w).zd.toZoneData m z w).1 = some e →
      (RemoveZone zd m z w).err = some e ∧
      (GetZoneMap (RemoveZone zd m z w).zd).lookup z = none ∧
      z ∉ GetZones (RemoveZone zd m z w).zd m) := by
  have inv := Invariant_of_Reachable hr
  rw [GetZoneMap_lookup] at hown
  obtain ⟨set, _, _, hzones, hms, herr, _⟩ := RemoveZone_owned zd inv m z w hown
  have h1 : (GetZoneMap (RemoveZone zd m z w).zd).lookup z = none := by
    rw [GetZoneMap_lookup, hzones, AList.lookup_erase]
  have h2 : z ∉ GetZones (RemoveZone zd m z w).zd m := by
    rw [← AList.lookup_eq_none, GetZones_lookup, hms m, if_pos rfl]
    have : z ∉ (if (set.erase z).entries.length = 0 then (none : Option ZoneSet)
        else some (set.erase z)).getD ∅ := by
      rw [mem_pruned, AList.mem_erase]
      simp
    rw [if_neg this]
  exact ⟨h1, h2, herr, fun e he => ⟨herr.trans he, h1, h2⟩⟩

/-- Witness of C5: the remove hook fails, the error comes back, and `basis.es` is gone. -/
theorem RemoveZone_removes_despite_hook_witness :
    (RemoveZone (ZoneRemover (AddZone (NewZoneManager : ZoneManager Unit) "10.0.0.1"
        "basis.es" ⟨[], ()⟩).zd (fun _ _ _ w => (some "rndc failed", w)))
        "10.0.0.1" "basis.es" ⟨[], ()⟩).err = some "rndc failed" ∧
    (GetZoneMap (RemoveZone (ZoneRemover (AddZone (NewZoneManager : ZoneManager Unit)
        "10.0.0.1" "basis.es" ⟨[], ()⟩).zd (fun _ _ _ w => (some "rndc failed", w)))
        "10.0.0.1" "basis.es" ⟨[], ()⟩).zd).lookup "basis.es" = none :=
  have h := RemoveZone_removes_despite_hook
    (Reachable.zoneRemover _ (fun _ _ _ w => (some "rndc failed", w))
      (Reachable.addZone _ "10.0.0.1" "basis.es" ⟨[], ()⟩
        (Reachable.new : Reachable (NewZoneManager : ZoneManager Unit))))
    "10.0.0.1" "basis.es" ⟨[], ()⟩ (by decide)
  ⟨(h.2.2.2 "rndc failed" rfl).1, h.1⟩

end RemoveZoneClaims

/-! ## Invariant -/

section InvariantClaim

variable {E : Type}

/-- Claim C6. Every registry reachable from `NewZoneManager()` by `AddZone`, `RemoveZone`
and `LoadZones` (on any reader, and on any lines taken as what the scanner yields; and by
the setters of hooks and paths), whatever the hooks return, satisfies
the registry invariant: a zone is in the zone set of `m` iff the zone map assigns it to `m`
(I1), a master is a key iff its zone set is not empty (I2), and no zone is in the zone sets
of two masters (I3). -/
theorem Reachable_invariant {zd : ZoneManager E} (hr : Reachable zd) :
    (∀ (m : Master) (z : Zone),
      z ∈ (zd.masters.lookup m).getD ∅ ↔ zd.zones.lookup z = some m) ∧
    (∀ m : Master, m ∈ zd.masters ↔ ((zd.masters.lookup m).getD ∅).entries.length ≠ 0) ∧
    (∀ (m1 m2 : Master) (z : Zone),
      z ∈ (zd.masters.lookup m1).getD ∅ → z ∈ (zd.masters.lookup m2).getD ∅ → m1 = m2) ∧
    Invariant zd.masters zd.zones :=
  have inv := Invariant_of_Reachable hr
  ⟨inv.I1, inv.I2, inv.I3, inv⟩

/-- Witness of C6: the registry after two additions and a removal whose hook fails. -/
theorem Reachable_invariant_witness :
    Invariant
      (RemoveZone (ZoneRemover (AddZone (AddZone (NewZoneManager : ZoneManager Unit)
        "10.0.0.1" "a.org" ⟨[], ()⟩).zd "10.0.0.1" "b.org" ⟨[], ()⟩).zd
        (fun _ _ _ w => (some "rndc failed", w))) "10.0.0.1" "a.org" ⟨[], ()⟩).zd.masters
      (RemoveZone (ZoneRemover (AddZone (AddZone (NewZoneManager : ZoneManager Unit)
        "10.0.0.1" "a.org" ⟨[], ()⟩).zd "10.0.0.1" "b.org" ⟨[], ()⟩).zd
        (fun _ _ _ w => (some "rndc failed", w))) "10.0.0.1" "a.org" ⟨[], ()⟩).zd.zones :=
  (Reachable_invariant
    (Reachable.removeZone _ "10.0.0.1" "a.org" ⟨[], ()⟩
      (Reachable.zoneRemover _ (fun _ _ _ w => (some "rndc failed", w))
        (Reachable.addZone _ "10.0.0.1" "b.org" ⟨[], ()⟩
          (Reachable.addZone _ "10.0.0.1" "a.org" ⟨[], ()⟩
            (Reachable.new : Reachable (NewZoneManager : ZoneManager Unit))))))).2.2.2

end InvariantClaim

/-! ## Read operations -/

section ReadClaims

variable {E : Type}

/-- Claim C7. In every reachable registry where master `m` owns zone `z`: when `z` is the
only zone of `m`, `m` does not occur in `GetMasters()` after `RemoveZone m z`; when `m`
owns another zone as well, `m` still occurs in `GetMasters()` after the call. -/
theorem RemoveZone_last_zone_prunes_master {zd : ZoneManager E} (hr : Reachable zd)
    (m : Master) (z : Zone) (w : World E) (hown : (GetZoneMap zd).lookup z = some m) :
    ((∀ z1, (GetZoneMap zd).lookup z1 = some m → z1 = z) →
      m ∉ GetMasters (RemoveZone zd m z w).zd) ∧
    ((∃ z1, z1 ≠ z ∧ (GetZoneMap zd).lookup z1 = some m) →
      m ∈ GetMasters (RemoveZone zd m z w).zd) := by
  have inv := Invariant_of_Reachable hr
  simp only [GetZoneMap_lookup] at hown ⊢
  obtain ⟨set, hset, _, _, hms, _⟩ := RemoveZone_owned zd inv m z w hown
  have hmem : ∀ z1, z1 ∈ set ↔ zd.zones.lookup z1 = some m := by
    intro z1
    rw [← inv.I1 m z1, hset]; rfl
  have hkeys : m ∈ GetMasters (RemoveZone zd m z w).zd
      ↔ (set.erase z).entries.length ≠ 0 := by
    rw [GetMasters_eq_keys, ← AList.mem_keys, ← AList.lookup_isSome, hms m, if_pos rfl]
    by_cases hl : (set.erase z).entries.length = 0
    · simp [hl]
    · simp [hl]
  constructor
  · intro honly
    rw [hkeys]
    have hnil : (set.erase z).entries = [] := by
      rw [entries_eq_nil_iff]
      intro z1 hz1
      rw [AList.mem_erase] at hz1
      exact hz1.1 (honly z1 ((hmem z1).mp hz1.2))
    simp [hnil]
  · rintro ⟨z1, hne, hz1⟩
    rw [hkeys]
    apply length_ne_zero_of_mem (a := z1)
    rw [AList.mem_erase]
    exact ⟨hne, (hmem z1).mpr hz1⟩

/-- Witness of C7: removing the only zone of `178.33.115.135` empties `GetMasters()`. -/
theorem RemoveZone_last_zone_prunes_master_witness :
    "178.33.115.135" ∉ GetMasters (RemoveZone (AddZone (NewZoneManager : ZoneManager Unit)
      "178.33.115.135" "basis.es" ⟨[], ()⟩).zd "178.33.115.135" "basis.es" ⟨[], ()⟩).zd :=
  (RemoveZone_last_zone_prunes_master
    (Reachable.addZone _ "178.33.115.135" "basis.es" ⟨[], ()⟩
      (Reachable.new : Reachable (NewZoneManager : ZoneManager Unit)))
    "178.33.115.135" "basis.es" ⟨[], ()⟩ (by decide)).1
    (by
      intro z1 h
      by_contra hne
      rw [GetZoneMap_lookup] at h
      have h2 : (AList.lookup z1 ((∅ : ZoneMap).insert "basis.es" "178.33.115.135"))
          = some "178.33.115.135" := h
      rw [AList.lookup_insert_ne hne, AList.lookup_empty] at h2
      cases h2)

/-- Claim C8. In every reachable registry `GetMasters()` holds each master once, and a
master occurs in it iff `GetZoneMap()` assigns it at least one zone. It is empty for a new
registry, and has length 1 after one successful `AddZone` on a new registry, whatever add
hook is installed. -/
theorem GetMasters_are_the_owners {zd : ZoneManager E} (hr : Reachable zd) :
    (GetMasters zd).Nodup ∧
    (∀ m, (GetMasters zd).count m ≤ 1) ∧
    (∀ m, m ∈ GetMasters zd ↔ ∃ z, (GetZoneMap zd).lookup z = some m) ∧
    GetMasters (NewZoneManager : ZoneManager E) = [] ∧
    (∀ (adder : ZoneAdderFunc E) (m : Master) (z : Zone) (w : World E),
      (AddZone (ZoneAdder NewZoneManager adder) m z w).err = none →
      (GetMasters (AddZone (ZoneAdder NewZoneManager adder) m z w).zd).length = 1) := by
  have inv := Invariant_of_Reachable hr
  have hnodup : (GetMasters zd).Nodup := by
    rw [GetMasters_eq_keys]
    exact zd.masters.keys_nodup
  refine ⟨hnodup, ?_, ?_, ?_, ?_⟩
  · intro m
    exact List.nodup_iff_count_le_one.mp hnodup m
  · intro m
    rw [GetMasters_eq_keys, ← AList.mem_keys, mem_masters_iff_owner inv m]
    simp only [GetZoneMap_lookup]
  · rw [GetMasters_eq_keys]
    rfl
  · intro adder m z w hok
    rw [GetMasters_eq_keys]
    cases ha : adder (NewZoneManager : ZoneManager E).toZoneData m z w with
    | mk r w1 =>
      cases r with
      | some e =>
        have : (AddZone (ZoneAdder NewZoneManager adder) m z w).err = some e := by
          simp [AddZone, ZoneAdder, NewZoneManager, AList.lookup_empty] at ha ⊢
          simp [ha]
        rw [this] at hok
        cases hok
      | none =>
        have : (AddZone (ZoneAdder NewZoneManager adder) m z w).zd.masters.keys = [m] := by
          simp [AddZone, ZoneAdder, NewZoneManager, AList.lookup_empty] at ha ⊢
          simp [ha, AList.lookup_insert, AList.keys_insert]
        rw [this]
        rfl

/-- Witness of C8: after adding `basis.es` for `178.33.115.135` and `b.org` for another
master, `178.33.115.135` occurs in `GetMasters()`. -/
theorem GetMasters_are_the_owners_witness :
    "178.33.115.135" ∈ GetMasters (AddZone (AddZone (NewZoneManager : ZoneManager Unit)
      "178.33.115.135" "basis.es" ⟨[], ()⟩).zd "10.0.0.2" "b.org" ⟨[], ()⟩).zd :=
  ((GetMasters_are_the_owners
    (Reachable.addZone _ "10.0.0.2" "b.org" ⟨[], ()⟩
      (Reachable.addZone _ "178.33.115.135" "basis.es" ⟨[], ()⟩
        (Reachable.new : Reachable (NewZoneManager : ZoneManager Unit))))).2.2.1
    "178.33.115.135").mpr ⟨"basis.es", by decide⟩

/-- Claim C9. In every reachable registry and for every master `m`, `GetZones(m)` holds
exactly the zones that `GetZoneMap()` assigns to `m`, each with value `true`; for a master
that owns no zone, or that is not in `GetMasters()`, it is the empty set. `GetZones` is a
total function: it has no error result. -/
theorem GetZones_are_the_owned_zones {zd : ZoneManager E} (hr : Reachable zd) (m : Master) :
    (∀ z, (GetZones zd m).lookup z
      = if (GetZoneMap zd).lookup z = some m then some true else none) ∧
    (∀ z, z ∈ GetZones zd m ↔ (GetZoneMap zd).lookup z = some m) ∧
    ((∀ z, (GetZoneMap zd).lookup z ≠ some m) → (GetZones zd m).entries = []) ∧
    (m ∉ GetMasters zd → (GetZones zd m).entries = []) := by
  have inv := Invariant_of_Reachable hr
  have hlook : ∀ z, (GetZones zd m).lookup z
      = if (GetZoneMap zd).lookup z = some m then some true else none := by
    intro z
    rw [GetZones_lookup, GetZoneMap_lookup]
    by_cases h : zd.zones.lookup z = some m
    · rw [if_pos ((inv.I1 m z).mpr h), if_pos h]
    · rw [if_neg (fun hz => h ((inv.I1 m z).mp hz)), if_neg h]
  have hmem : ∀ z, z ∈ GetZones zd m ↔ (GetZoneMap zd).lookup z = some m := by
    intro z
    rw [← AList.lookup_isSome, hlook z]
    by_cases h : (GetZoneMap zd).lookup z = some m
    · simp [h]
    · simp [h]
  have hempty : (∀ z, (GetZoneMap zd).lookup z ≠ some m) → (GetZones zd m).entries = [] := by
    intro hno
    rw [entries_eq_nil_iff]
    intro z hz
    exact hno z ((hmem z).mp hz)
  refine ⟨hlook, hmem, hempty, ?_⟩
  intro hnot
  apply hempty
  intro z hz
  apply hnot
  rw [GetMasters_eq_keys, ← AList.mem_keys, mem_masters_iff_owner inv m]
  rw [GetZoneMap_lookup] at hz
  exact ⟨z, hz⟩

/-- Witness of C9: the registry of `TestGetZones`; `192.168.2.2` has `domain.com` and
`domain.es`, and not `domain.org`. -/
theorem GetZones_are_the_owned_zones_witness :
    "domain.es" ∈ GetZones (AddZone (AddZone (AddZone (NewZoneManager : ZoneManager Unit)
      "192.168.2.1" "domain.org" ⟨[], ()⟩).zd "192.168.2.2" "domain.com" ⟨[], ()⟩).zd
      "192.168.2.2" "domain.es" ⟨[], ()⟩).zd "192.168.2.2" :=
  ((GetZones_are_the_owned_zones
    (Reachable.addZone _ "192.168.2.2" "domain.es" ⟨[], ()⟩
      (Reachable.addZone _ "192.168.2.2" "domain.com" ⟨[], ()⟩
        (Reachable.addZone _ "192.168.2.1" "domain.org" ⟨[], ()⟩
          (Reachable.new : Reachable (NewZoneManager : ZoneManager Unit)))))
    "192.168.2.2").2.1 "domain.es").mpr (by decide)

end ReadClaims

/-! ## Bootstrap -/

section Bootstrap

variable {E : Type}

theorem AddZone_adder (zd : ZoneManager E) (m : Master) (z : Zone) (w : World E) :
    (AddZone zd m z w).zd.adder = zd.adder := by
  rcases AddZone_cases zd m z w with ⟨c, _, heq⟩ | ⟨_, e, w1, _, heq⟩ |
    ⟨_, w1, _, _, _, _, _, h, _⟩
  · rw [heq]
  · rw [heq]
  · exact h

/-- Two add hooks that return `nil` leave the same registry data behind. -/
theorem AddZone_data_congr (zd1 zd2 : ZoneManager E) (m : Master) (z : Zone)
    (w1 w2 : World E) (hdata : zd1.toZoneData = zd2.toZoneData)
    (h1 : (zd1.adder zd1.toZoneData m z w1).1 = none)
    (h2 : (zd2.adder zd2.toZoneData m z w2).1 = none) :
    (AddZone zd1 m z w1).zd.toZoneData = (AddZone zd2 m z w2).zd.toZoneData := by
  obtain ⟨d1, a1, r1⟩ := zd1
  obtain ⟨d2, a2, r2⟩ := zd2
  simp only at hdata h1 h2
  subst hdata
  cases hz : d1.zones.lookup z with
  | some c => simp [AddZone, hz]
  | none =>
    cases ha1 : a1 d1 m z w1 with
    | mk x1 y1 =>
      cases ha2 : a2 d1 m z w2 with
      | mk x2 y2 =>
        rw [ha1] at h1
        rw [ha2] at h2
        simp only at h1 h2
        subst h1
        subst h2
        simp [AddZone, hz, ha1, ha2]

theorem parseLine_ignored (line : String) (hnl : Char.ofNat 10 ∉ line.toList)
    (h : (blankLine line || commentLine line) = true) :
    parseLine line = .ok (false, "", "") := by
  have hnl2 : ∀ c ∈ line.toList, notNewline c = true := by
    intro c hc
    simp only [notNewline, Bool.not_eq_true', beq_eq_false_iff_ne, ne_eq]
    rintro rfl
    exact hnl hc
  unfold parseLine
  rw [ignoredLine_MatchString line hnl2, h]
  rfl

end Bootstrap

/-! ## Bootstrap: failures and frame -/

section BootstrapFailures

variable {E : Type}

theorem loadLoop_cons (line : String) (lines : List String) (zd : ZoneManager E)
    (w : World E) :
    loadLoop (line :: lines) zd w
      = match parseLine line with
        | .error msg => ⟨some msg, zd, w⟩
        | .ok (found, master, zone) =>
          if found then
            loadLoop lines (AddZone zd master zone w).zd (AddZone zd master zone w).world
          else loadLoop lines zd w := by
  rw [loadLoop]

/-- Loading a dump whose first part ends without panic continues with the rest. -/
theorem loadLoop_append (pre rest : List String) (zd : ZoneManager E) (w : World E)
    (h : (loadLoop pre zd w).panic = none) :
    loadLoop (pre ++ rest) zd w
      = loadLoop rest (loadLoop pre zd w).zd (loadLoop pre zd w).world := by
  induction pre generalizing zd w with
  | nil => rfl
  | cons line pre ih =>
    rw [List.cons_append]
    simp only [loadLoop_cons] at h ⊢
    cases hp : parseLine line with
    | error msg =>
      rw [hp] at h
      cases h
    | ok r =>
      obtain ⟨found, master, zone⟩ := r
      rw [hp] at h
      cases found with
      | true =>
        simp only [if_true] at h ⊢
        exact ih _ _ h
      | false =>
        simp only [Bool.false_eq_true, if_false] at h ⊢
        exact ih _ _ h

theorem parseLine_invalid (line : String) (hnl : Char.ofNat 10 ∉ line.toList)
    (h : (blankLine line || commentLine line) = false)
    (hm : bindLine.FindStringSubmatch line = none) :
    parseLine line = .error ("Invalid config line \"" ++ line ++ "\"") := by
  have hnl2 : ∀ c ∈ line.toList, notNewline c = true := by
    intro c hc
    simp only [notNewline, Bool.not_eq_true', beq_eq_false_iff_ne, ne_eq]
    rintro rfl
    exact hnl hc
  unfold parseLine
  rw [ignoredLine_MatchString line hnl2, h, hm]
  rfl

/-- What `AddZone` leaves alone: the hooks and the paths. -/
theorem AddZone_frame (zd : ZoneManager E) (m : Master) (z : Zone) (w : World E) :
    (AddZone zd m z w).zd.adder = zd.adder ∧
    (AddZone zd m z w).zd.remover = zd.remover ∧
    (AddZone zd m z w).zd.dataPath = zd.dataPath ∧
    (AddZone zd m z w).zd.rndcPath = zd.rndcPath := by
  rcases AddZone_cases zd m z w with ⟨c, _, heq⟩ | ⟨_, e, w1, _, heq⟩ |
    ⟨_, w1, _, _, _, _, _, h1, h2, h3, h4⟩
  · rw [heq]; exact ⟨rfl, rfl, rfl, rfl⟩
  · rw [heq]; exact ⟨rfl, rfl, rfl, rfl⟩
  · exact ⟨h1, h2, h3, h4⟩

/-- Result of `AddZone` depends on the registry data and the add hook only. -/
theorem AddZone_congr_remover (zd1 zd2 : ZoneManager E) (m : Master) (z : Zone) (w : World E)
    (hdata : zd1.toZoneData = zd2.toZoneData) (hadder : zd1.adder = zd2.adder) :
    (AddZone zd1 m z w).err = (AddZone zd2 m z w).err ∧
    (AddZone zd1 m z w).zd.toZoneData = (AddZone zd2 m z w).zd.toZoneData ∧
    (AddZone zd1 m z w).world = (AddZone zd2 m z w).world := by
  obtain ⟨d1, a1, r1⟩ := zd1
  obtain ⟨d2, a2, r2⟩ := zd2
  simp only at hdata hadder
  subst hdata
  subst hadder
  cases hz : d1.zones.lookup z with
  | some c => simp [AddZone, hz]
  | none =>
    cases ha : a1 d1 m z w with
    | mk x y =>
      cases x with
      | none => simp [AddZone, hz, ha]
      | some e => simp [AddZone, hz, ha]

/-- Under the loading hook `AddZone` writes to the log at most. -/
theorem AddZone_loading_ext (zd : ZoneManager E) (m : Master) (z : Zone) (w : World E)
    (hadder : zd.adder = LoadingZoneAdder) : (AddZone zd m z w).world.ext = w.ext := by
  rcases AddZone_cases zd m z w with ⟨c, _, heq⟩ | ⟨_, e, w1, ha, _⟩ |
    ⟨_, w1, ha, _, hw, _⟩
  · rw [heq]
  · rw [hadder] at ha
    cases ha
  · rw [hw]
    rw [hadder] at ha
    cases ha
    rfl

theorem loadLoop_congr_remover (lines : List String) (zd1 zd2 : ZoneManager E) (w : World E)
    (hdata : zd1.toZoneData = zd2.toZoneData) (hadder : zd1.adder = zd2.adder) :
    (loadLoop lines zd1 w).panic = (loadLoop lines zd2 w).panic ∧
    (loadLoop lines zd1 w).zd.toZoneData = (loadLoop lines zd2 w).zd.toZoneData ∧
    (loadLoop lines zd1 w).world = (loadLoop lines zd2 w).world := by
  induction lines generalizing zd1 zd2 w with
  | nil => exact ⟨rfl, hdata, rfl⟩
  | cons line lines ih =>
    unfold loadLoop
    cases hp : parseLine line with
    | error msg => exact ⟨rfl, hdata, rfl⟩
    | ok r =>
      obtain ⟨found, master, zone⟩ := r
      cases found with
      | true =>
        simp only [if_true]
        obtain ⟨_, hd, hw⟩ := AddZone_congr_remover zd1 zd2 master zone w hdata hadder
        rw [hw]
        apply ih _ _ _ hd
        rw [(AddZone_frame zd1 master zone w).1, (AddZone_frame zd2 master zone w).1, hadder]
      | false =>
        simp only [Bool.false_eq_true, if_false]
        exact ih zd1 zd2 w hdata hadder

theorem loadLoop_frame (lines : List String) (zd : ZoneManager E) (w : World E) :
    (loadLoop lines zd w).zd.adder = zd.adder ∧
    (loadLoop lines zd w).zd.remover = zd.remover ∧
    (loadLoop lines zd w).zd.dataPath = zd.dataPath ∧
    (loadLoop lines zd w).zd.rndcPath = zd.rndcPath := by
  induction lines generalizing zd w with
  | nil => exact ⟨rfl, rfl, rfl, rfl⟩
  | cons line lines ih =>
    unfold loadLoop
    cases hp : parseLine line with
    | error msg => exact ⟨rfl, rfl, rfl, rfl⟩
    | ok r =>
      obtain ⟨found, master, zone⟩ := r
      cases found with
      | true =>
        simp only [if_true]
        obtain ⟨h1, h2, h3, h4⟩ := ih (AddZone zd master zone w).zd (AddZone zd master zone w).world
        obtain ⟨f1, f2, f3, f4⟩ := AddZone_frame zd master zone w
        exact ⟨h1.trans f1, h2.trans f2, h3.trans f3, h4.trans f4⟩
      | false =>
        simp only [Bool.false_eq_true, if_false]
        exact ih zd w

theorem loadLoop_loading_ext (lines : List String) (zd : ZoneManager E) (w : World E)
    (hadder : zd.adder = LoadingZoneAdder) : (loadLoop lines zd w).world.ext = w.ext := by
  induction lines generalizing zd w with
  | nil => rfl
  | cons line lines ih =>
    unfold loadLoop
    cases hp : parseLine line with
    | error msg => rfl
    | ok r =>
      obtain ⟨found, master, zone⟩ := r
      cases found with
      | true =>
        simp only [if_true]
        rw [ih _ _ ((AddZone_frame zd master zone w).1.trans hadder)]
        exact AddZone_loading_ext zd master zone w hadder
      | false =>
        simp only [Bool.false_eq_true, if_false]
        exact ih zd w hadder

/-- Outcome of `loadScanned` in terms of its loop. -/
theorem loadScanned_eq (zd : ZoneManager E) (lines : List String) (w : World E) :
    (loadScanned zd lines w).panic
      = (loadLoop lines { zd with adder := LoadingZoneAdder } w).panic ∧
    (loadScanned zd lines w).zd.toZoneData
      = (loadLoop lines { zd with adder := LoadingZoneAdder } w).zd.toZoneData ∧
    (loadScanned zd lines w).world
      = (loadLoop lines { zd with adder := LoadingZoneAdder } w).world ∧
    (loadScanned zd lines w).zd.remover
      = (loadLoop lines { zd with adder := LoadingZoneAdder } w).zd.remover ∧
    ((loadScanned zd lines w).panic = none → (loadScanned zd lines w).zd.adder = zd.adder) ∧
    (∀ msg, (loadScanned zd lines w).panic = some msg →
      (loadScanned zd lines w).zd
        = (loadLoop lines { zd with adder := LoadingZoneAdder } w).zd) := by
  unfold loadScanned
  simp only
  cases hp : (loadLoop lines { zd with adder := LoadingZoneAdder } w).panic with
  | none =>
    refine ⟨rfl, rfl, rfl, rfl, fun _ => rfl, ?_⟩
    intro msg h
    cases h
  | some msg =>
    refine ⟨rfl, rfl, rfl, rfl, ?_, fun _ _ => rfl⟩
    intro h
    cases h

/-- What `LoadZones` writes to `os.Stderr`: the error of the scanner, when the loop ends
without panic. -/
theorem LoadZones_stderr (zd : ZoneManager E) (reader : Reader) (w : World E) :
    (LoadZones zd reader w).stderr
      = match (LoadZones zd reader w).panic, scanErr reader with
        | none, some err => ["reading standard input: " ++ err]
        | _, _ => [] := by
  unfold LoadZones
  simp only
  cases hp : (loadLoop (scanTokens reader.data) { zd with adder := LoadingZoneAdder } w).panic with
  | some msg => rfl
  | none =>
    cases he : scanErr reader with
    | some err => rfl
    | none => rfl

/-- Two runs of `LoadZones` that agree on the loop and on the error of the scanner agree
on everything. -/
theorem LoadZones_congr (zd : ZoneManager E) (r1 r2 : Reader) (w : World E)
    (h : loadScanned zd (scanTokens r1.data) w = loadScanned zd (scanTokens r2.data) w)
    (herr : scanErr r1 = scanErr r2) : LoadZones zd r1 w = LoadZones zd r2 w := by
  have h1 := LoadZones_toLoadOutcome zd r1 w
  have h2 := LoadZones_toLoadOutcome zd r2 w
  have hs1 := LoadZones_stderr zd r1 w
  have hs2 := LoadZones_stderr zd r2 w
  have hp : (LoadZones zd r1 w).panic = (LoadZones zd r2 w).panic := by
    show (LoadZones zd r1 w).toLoadOutcome.panic = (LoadZones zd r2 w).toLoadOutcome.panic
    rw [h1, h2, h]
  have ho : (LoadZones zd r1 w).toLoadOutcome = (LoadZones zd r2 w).toLoadOutcome := by
    rw [h1, h2, h]
  have hs : (LoadZones zd r1 w).stderr = (LoadZones zd r2 w).stderr := by
    rw [hs1, hs2, hp, herr]
  cases hr1 : LoadZones zd r1 w with
  | mk o1 e1 =>
    cases hr2 : LoadZones zd r2 w with
    | mk o2 e2 =>
      rw [hr1, hr2] at ho hs
      simp only at ho hs
      rw [ho, hs]

/-- Claim C12, at the line `junk zone a.org {type slave; file "slave/a.org.db"; masters
{ 10.0.0.1; };}; more junk`: `parseLine` does not reject it; it returns `found = true`
with the zone `a.org` and the master `10.0.0.1`, the text around the stanza being skipped,
because `bindLine` is searched for anywhere in the line. A second stanza on the same line
is dropped in the same way. -/
theorem parseLine_accepts_text_around_stanza :
    parseLine
        "junk zone a.org \x7btype slave; file \"slave/a.org.db\"; masters \x7b 10.0.0.1; \x7d;\x7d; more junk"
      = .ok (true, "10.0.0.1", "a.org") ∧
    parseLine
        "zone a.org \x7btype slave; file \"a\"; masters \x7b 10.0.0.1; \x7d;\x7d; zone b.org \x7btype slave; file \"b\"; masters \x7b 10.0.0.2; \x7d;\x7d;"
      = .ok (true, "10.0.0.1", "a.org") := by
  decide

theorem loadLoop_append_panic (pre rest : List String) (zd : ZoneManager E) (w : World E)
    (msg : String) (h : (loadLoop pre zd w).panic = some msg) :
    loadLoop (pre ++ rest) zd w = loadLoop pre zd w := by
  induction pre generalizing zd w with
  | nil =>
    rw [loadLoop] at h
    cases h
  | cons line pre ih =>
    rw [List.cons_append]
    simp only [loadLoop_cons] at h ⊢
    cases hp : parseLine line with
    | error e => rfl
    | ok r =>
      obtain ⟨found, master, zone⟩ := r
      rw [hp] at h
      cases found with
      | true =>
        simp only [if_true] at h ⊢
        exact ih _ _ h
      | false =>
        simp only [Bool.false_eq_true, if_false] at h ⊢
        exact ih _ _ h

/-- A stanza for a zone that has an owner when its line is reached changes nothing. -/
theorem loadLoop_skips_owned (pre post : List String) (line : String) (m c : Master)
    (z : Zone) (zd : ZoneManager E) (w : World E)
    (hp : parseLine line = .ok (true, m, z))
    (hown : (loadLoop pre zd w).zd.zones.lookup z = some c) :
    loadLoop (pre ++ line :: post) zd w = loadLoop (pre ++ post) zd w := by
  cases hpanic : (loadLoop pre zd w).panic with
  | some msg =>
    rw [loadLoop_append_panic pre _ zd w msg hpanic, loadLoop_append_panic pre _ zd w msg hpanic]
  | none =>
    rw [loadLoop_append pre _ zd w hpanic, loadLoop_append pre _ zd w hpanic, loadLoop_cons, hp]
    have hadd : AddZone (loadLoop pre zd w).zd m z (loadLoop pre zd w).world
        = ⟨some (duplicateZoneError z c), (loadLoop pre zd w).zd, (loadLoop pre zd w).world⟩ := by
      simp [AddZone, hown]
    simp only [if_true, hadd]

theorem parseLine_error (line msg : String) (h : parseLine line = .error msg) :
    msg = "Invalid config line \"" ++ line ++ "\"" := by
  unfold parseLine at h
  by_cases hi : ignoredLine.MatchString line = true
  · rw [if_pos hi] at h
    cases h
  · rw [if_neg hi] at h
    cases hm : bindLine.FindStringSubmatch line with
    | none =>
      rw [hm] at h
      simp only [Except.error.injEq] at h
      exact h.symm
    | some pair =>
      rw [hm] at h
      cases h

/-- A panic of the loading loop is the panic of `parseLine` on a line of the dump. -/
theorem loadLoop_panic_is_parse (lines : List String) (zd : ZoneManager E) (w : World E)
    (msg : String) (h : (loadLoop lines zd w).panic = some msg) :
    ∃ line ∈ lines, msg = "Invalid config line \"" ++ line ++ "\"" := by
  induction lines generalizing zd w with
  | nil =>
    rw [loadLoop] at h
    cases h
  | cons line lines ih =>
    rw [loadLoop_cons] at h
    cases hp : parseLine line with
    | error e =>
      rw [hp] at h
      simp only [Option.some.injEq] at h
      subst h
      exact ⟨line, List.mem_cons_self _ _, parseLine_error line e hp⟩
    | ok r =>
      obtain ⟨found, master, zone⟩ := r
      rw [hp] at h
      cases found with
      | true =>
        simp only [if_true] at h
        obtain ⟨l, hl, hmsg⟩ := ih _ _ h
        exact ⟨l, List.mem_cons_of_mem _ hl, hmsg⟩
      | false =>
        simp only [Bool.false_eq_true, if_false] at h
        obtain ⟨l, hl, hmsg⟩ := ih _ _ h
        exact ⟨l, List.mem_cons_of_mem _ hl, hmsg⟩

/-- Claim C13, as the code has it. `LoadZones` has no result and drops the error of an
`AddZone` call it makes. For every registry, world and dump: when the zone of a stanza
line has an owner once the lines before it are loaded (the registry had it, or an earlier
stanza lists it), the `AddZone` call for that line fails with the duplicate-zone error,
and `LoadZones` ends exactly as it does on the dump without that line: same panic or
absence of panic, same registry, same world. A panic of `parseLine` is the only failure
that leaves `LoadZones`. This holds for any lines taken as what the scanner yields
(`loadScanned`), and so for `LoadZones` on two readers of which the scanner yields the
dump with the line and the dump without it, and ends with the same error. -/
theorem LoadZones_skips_failed_AddZone (zd : ZoneManager E) (pre post : List String)
    (line : String) (m c : Master) (z : Zone) (w : World E)
    (hp : parseLine line = .ok (true, m, z))
    (hown : (GetZoneMap (loadScanned zd pre w).zd).lookup z = some c) :
    (AddZone (loadLoop pre (ZoneAdder zd LoadingZoneAdder) w).zd m z
        (loadLoop pre (ZoneAdder zd LoadingZoneAdder) w).world).err
      = some (duplicateZoneError z c) ∧
    loadScanned zd (pre ++ line :: post) w = loadScanned zd (pre ++ post) w ∧
    (loadScanned zd (pre ++ line :: post) w).panic = (loadScanned zd (pre ++ post) w).panic ∧
    GetZoneMap (loadScanned zd (pre ++ line :: post) w).zd
      = GetZoneMap (loadScanned zd (pre ++ post) w).zd ∧
    (loadScanned zd (pre ++ line :: post) w).world = (loadScanned zd (pre ++ post) w).world ∧
    (∀ (lines : List String) (msg : String), (loadScanned zd lines w).panic = some msg →
      ∃ l ∈ lines, msg = "Invalid config line \"" ++ l ++ "\"") ∧
    (∀ r1 r2 : Reader, scanTokens r1.data = pre ++ line :: post →
      scanTokens r2.data = pre ++ post → scanErr r1 = scanErr r2 →
      LoadZones zd r1 w = LoadZones zd r2 w ∧
      (LoadZones zd r1 w).panic = (LoadZones zd r2 w).panic ∧
      GetZoneMap (LoadZones zd r1 w).zd = GetZoneMap (LoadZones zd r2 w).zd ∧
      (LoadZones zd r1 w).world = (LoadZones zd r2 w).world ∧
      (LoadZones zd r1 w).stderr = (LoadZones zd r2 w).stderr) ∧
    (∀ (reader : Reader) (msg : String), (LoadZones zd reader w).panic = some msg →
      ∃ l ∈ scanTokens reader.data, msg = "Invalid config line \"" ++ l ++ "\"") := by
  rw [GetZoneMap_lookup] at hown
  have hown2 : (loadLoop pre { zd with adder := LoadingZoneAdder } w).zd.zones.lookup z
      = some c := by
    rw [← hown]
    exact congrArg (fun d : ZoneData => d.zones.lookup z) (loadScanned_eq zd pre w).2.1.symm
  have hloop := loadLoop_skips_owned pre post line m c z
    { zd with adder := LoadingZoneAdder } w hp hown2
  have heq : loadScanned zd (pre ++ line :: post) w = loadScanned zd (pre ++ post) w := by
    unfold loadScanned
    simp only [hloop]
  have hparse : ∀ (lines : List String) (msg : String),
      (loadScanned zd lines w).panic = some msg →
      ∃ l ∈ lines, msg = "Invalid config line \"" ++ l ++ "\"" := by
    intro lines msg hmsg
    rw [(loadScanned_eq zd lines w).1] at hmsg
    exact loadLoop_panic_is_parse lines _ w msg hmsg
  refine ⟨?_, heq, ?_, ?_, ?_, hparse, ?_, ?_⟩
  · show (AddZone (loadLoop pre { zd with adder := LoadingZoneAdder } w).zd m z _).err = _
    simp [AddZone, hown2]
  · rw [heq]
  · rw [heq]
  · rw [heq]
  · intro r1 r2 h1 h2 herr
    have hr : LoadZones zd r1 w = LoadZones zd r2 w :=
      LoadZones_congr zd r1 r2 w (by rw [h1, h2, heq]) herr
    refine ⟨hr, ?_, ?_, ?_, ?_⟩ <;> rw [hr]
  · intro reader msg hmsg
    apply hparse (scanTokens reader.data) msg
    rw [← LoadZones_toLoadOutcome]
    exact hmsg

/-- Witness of C13, as the code has it: between the stanzas of `a.org` and `b.org`, a
second stanza of `a.org` under another master leaves no trace in the log and does not
change the owner of `a.org`. -/
theorem LoadZones_skips_failed_AddZone_witness :
    (LoadZones (NewZoneManager : ZoneManager Unit)
      ⟨"zone a.org \x7btype slave; file \"slave/a.org.db\"; masters \x7b 10.0.0.1; \x7d;\x7d;\nzone a.org \x7btype slave; file \"slave/a.org.db\"; masters \x7b 10.0.0.2; \x7d;\x7d;\nzone b.org \x7btype slave; file \"slave/b.org.db\"; masters \x7b 10.0.0.2; \x7d;\x7d;\n",
        none⟩
      ⟨[], ()⟩).world.log
      = ["Loaded zone a.org with master 10.0.0.1", "Loaded zone b.org with master 10.0.0.2"] ∧
    (GetZoneMap (LoadZones (NewZoneManager : ZoneManager Unit)
      ⟨"zone a.org \x7btype slave; file \"slave/a.org.db\"; masters \x7b 10.0.0.1; \x7d;\x7d;\nzone a.org \x7btype slave; file \"slave/a.org.db\"; masters \x7b 10.0.0.2; \x7d;\x7d;\nzone b.org \x7btype slave; file \"slave/b.org.db\"; masters \x7b 10.0.0.2; \x7d;\x7d;\n",
        none⟩
      ⟨[], ()⟩).zd).lookup "a.org" = some "10.0.0.1" ∧
    (loadScanned (NewZoneManager : ZoneManager Unit)
      [ "zone a.org \x7btype slave; file \"slave/a.org.db\"; masters \x7b 10.0.0.1; \x7d;\x7d;",
        "zone a.org \x7btype slave; file \"slave/a.org.db\"; masters \x7b 10.0.0.2; \x7d;\x7d;",
        "zone b.org \x7btype slave; file \"slave/b.org.db\"; masters \x7b 10.0.0.2; \x7d;\x7d;" ]
      ⟨[], ()⟩).world.log
      = ["Loaded zone a.org with master 10.0.0.1", "Loaded zone b.org with master 10.0.0.2"] :=
  have h := LoadZones_skips_failed_AddZone (NewZoneManager : ZoneManager Unit)
    [ "zone a.org \x7btype slave; file \"slave/a.org.db\"; masters \x7b 10.0.0.1; \x7d;\x7d;" ]
    [ "zone b.org \x7btype slave; file \"slave/b.org.db\"; masters \x7b 10.0.0.2; \x7d;\x7d;" ]
    "zone a.org \x7btype slave; file \"slave/a.org.db\"; masters \x7b 10.0.0.2; \x7d;\x7d;"
    "10.0.0.2" "10.0.0.1" "a.org" ⟨[], ()⟩ (by decide) (by decide)
  have h2 := h.2.2.2.2.2.2.1
    ⟨"zone a.org \x7btype slave; file \"slave/a.org.db\"; masters \x7b 10.0.0.1; \x7d;\x7d;\nzone a.org \x7btype slave; file \"slave/a.org.db\"; masters \x7b 10.0.0.2; \x7d;\x7d;\nzone b.org \x7btype slave; file \"slave/b.org.db\"; masters \x7b 10.0.0.2; \x7d;\x7d;\n",
      none⟩
    ⟨"zone a.org \x7btype slave; file \"slave/a.org.db\"; masters \x7b 10.0.0.1; \x7d;\x7d;\nzone b.org \x7btype slave; file \"slave/b.org.db\"; masters \x7b 10.0.0.2; \x7d;\x7d;\n",
      none⟩
    (by decide) (by decide) (by decide)
  ⟨(congrArg (fun x : World Unit => x.log) h2.2.2.2.1).trans (by decide),
    (congrArg (fun zm : ZoneMap => zm.lookup "a.org") h2.2.2.1).trans (by decide),
    (congrArg (fun x : World Unit => x.log) h.2.2.2.2.1).trans (by decide)⟩

/-- Counterexample to C13 as stated: on the dump that lists `a.org` under `10.0.0.1` and
then under `10.0.0.2`, the `AddZone` call for the second stanza fails with the
duplicate-zone error, yet `LoadZones` ends without panic and writes nothing to
`os.Stderr`, and its log, zone map and masters are those of the dump of the first stanza
alone: nothing of the error reaches the caller. -/
theorem LoadZones_drops_AddZone_error :
    scanTokens
        "zone a.org \x7btype slave; file \"slave/a.org.db\"; masters \x7b 10.0.0.1; \x7d;\x7d;\nzone a.org \x7btype slave; file \"slave/a.org.db\"; masters \x7b 10.0.0.2; \x7d;\x7d;\n"
      = [ "zone a.org \x7btype slave; file \"slave/a.org.db\"; masters \x7b 10.0.0.1; \x7d;\x7d;",
          "zone a.org \x7btype slave; file \"slave/a.org.db\"; masters \x7b 10.0.0.2; \x7d;\x7d;" ] ∧
    (AddZone
      (loadLoop
        [ "zone a.org \x7btype slave; file \"slave/a.org.db\"; masters \x7b 10.0.0.1; \x7d;\x7d;" ]
        (ZoneAdder (NewZoneManager : ZoneManager Unit) LoadingZoneAdder) ⟨[], ()⟩).zd
      "10.0.0.2" "a.org" ⟨[], ()⟩).err
      = some "Zone \"a.org\" is already assigned to \"10.0.0.1\"" ∧
    (LoadZones (NewZoneManager : ZoneManager Unit)
      ⟨"zone a.org \x7btype slave; file \"slave/a.org.db\"; masters \x7b 10.0.0.1; \x7d;\x7d;\nzone a.org \x7btype slave; file \"slave/a.org.db\"; masters \x7b 10.0.0.2; \x7d;\x7d;\n",
        none⟩
      ⟨[], ()⟩).panic = none ∧
    (LoadZones (NewZoneManager : ZoneManager Unit)
      ⟨"zone a.org \x7btype slave; file \"slave/a.org.db\"; masters \x7b 10.0.0.1; \x7d;\x7d;\nzone a.org \x7btype slave; file \"slave/a.org.db\"; masters \x7b 10.0.0.2; \x7d;\x7d;\n",
        none⟩
      ⟨[], ()⟩).stderr = [] ∧
    (GetZoneMap (LoadZones (NewZoneManager : ZoneManager Unit)
      ⟨"zone a.org \x7btype slave; file \"slave/a.org.db\"; masters \x7b 10.0.0.1; \x7d;\x7d;\nzone a.org \x7btype slave; file \"slave/a.org.db\"; masters \x7b 10.0.0.2; \x7d;\x7d;\n",
        none⟩
      ⟨[], ()⟩).zd).entries = [⟨"a.org", "10.0.0.1"⟩] ∧
    GetMasters (LoadZones (NewZoneManager : ZoneManager Unit)
      ⟨"zone a.org \x7btype slave; file \"slave/a.org.db\"; masters \x7b 10.0.0.1; \x7d;\x7d;\nzone a.org \x7btype slave; file \"slave/a.org.db\"; masters \x7b 10.0.0.2; \x7d;\x7d;\n",
        none⟩
      ⟨[], ()⟩).zd = ["10.0.0.1"] ∧
    (LoadZones (NewZoneManager : ZoneManager Unit)
      ⟨"zone a.org \x7btype slave; file \"slave/a.org.db\"; masters \x7b 10.0.0.1; \x7d;\x7d;\nzone a.org \x7btype slave; file \"slave/a.org.db\"; masters \x7b 10.0.0.2; \x7d;\x7d;\n",
        none⟩
      ⟨[], ()⟩).world.log = ["Loaded zone a.org with master 10.0.0.1"] ∧
    (LoadZones (NewZoneManager : ZoneManager Unit)
      ⟨"zone a.org \x7btype slave; file \"slave/a.org.db\"; masters \x7b 10.0.0.1; \x7d;\x7d;\n",
        none⟩
      ⟨[], ()⟩).world.log = ["Loaded zone a.org with master 10.0.0.1"] := by
  refine ⟨by decide, by decide, by decide, by decide, by decide, by decide, by decide,
    by decide⟩

/-- Claim C14. For every registry, dump and world: the outcome of `LoadZones` (panic,
registry data, world) is the same whatever add hook and remove hook are configured, so
neither is invoked; zones are added through `LoadingZoneAdder`, which returns `nil` for
every argument, and only the log of the world changes. The remove hook, the data path and
the rndc path are as before the call, and so is the add hook when `LoadZones` returns,
that is when it does not end in a panic. This holds for any lines taken as what the
scanner yields (`loadScanned`), and for `LoadZones` on every reader, where what is
written to `os.Stderr` does not depend on the hooks either. -/
theorem LoadZones_spares_configured_hooks (zd : ZoneManager E) (lines : List String)
    (reader : Reader) (w : World E) :
    ((∀ (adder : ZoneAdderFunc E) (remover : ZoneRemoverFunc E),
      (loadScanned (ZoneRemover (ZoneAdder zd adder) remover) lines w).panic
        = (loadScanned zd lines w).panic ∧
      (loadScanned (ZoneRemover (ZoneAdder zd adder) remover) lines w).zd.toZoneData
        = (loadScanned zd lines w).zd.toZoneData ∧
      (loadScanned (ZoneRemover (ZoneAdder zd adder) remover) lines w).world
        = (loadScanned zd lines w).world) ∧
    (∀ (d : ZoneData) (m : Master) (z : Zone) (w1 : World E),
      (LoadingZoneAdder d m z w1).1 = none) ∧
    (loadScanned zd lines w).world.ext = w.ext ∧
    ((loadScanned zd lines w).panic = none → (loadScanned zd lines w).zd.adder = zd.adder) ∧
    (loadScanned zd lines w).zd.remover = zd.remover ∧
    (loadScanned zd lines w).zd.dataPath = zd.dataPath ∧
    (loadScanned zd lines w).zd.rndcPath = zd.rndcPath) ∧
    ((∀ (adder : ZoneAdderFunc E) (remover : ZoneRemoverFunc E),
      (LoadZones (ZoneRemover (ZoneAdder zd adder) remover) reader w).panic
        = (LoadZones zd reader w).panic ∧
      (LoadZones (ZoneRemover (ZoneAdder zd adder) remover) reader w).zd.toZoneData
        = (LoadZones zd reader w).zd.toZoneData ∧
      (LoadZones (ZoneRemover (ZoneAdder zd adder) remover) reader w).world
        = (LoadZones zd reader w).world ∧
      (LoadZones (ZoneRemover (ZoneAdder zd adder) remover) reader w).stderr
        = (LoadZones zd reader w).stderr) ∧
    (LoadZones zd reader w).world.ext = w.ext ∧
    ((LoadZones zd reader w).panic = none → (LoadZones zd reader w).zd.adder = zd.adder) ∧
    (LoadZones zd reader w).zd.remover = zd.remover ∧
    (LoadZones zd reader w).zd.dataPath = zd.dataPath ∧
    (LoadZones zd reader w).zd.rndcPath = zd.rndcPath) := by
  have key : ∀ ls : List String,
      (∀ (adder : ZoneAdderFunc E) (remover : ZoneRemoverFunc E),
        (loadScanned (ZoneRemover (ZoneAdder zd adder) remover) ls w).panic
          = (loadScanned zd ls w).panic ∧
        (loadScanned (ZoneRemover (ZoneAdder zd adder) remover) ls w).zd.toZoneData
          = (loadScanned zd ls w).zd.toZoneData ∧
        (loadScanned (ZoneRemover (ZoneAdder zd adder) remover) ls w).world
          = (loadScanned zd ls w).world) ∧
      (loadScanned zd ls w).world.ext = w.ext ∧
      ((loadScanned zd ls w).panic = none → (loadScanned zd ls w).zd.adder = zd.adder) ∧
      (loadScanned zd ls w).zd.remover = zd.remover ∧
      (loadScanned zd ls w).zd.dataPath = zd.dataPath ∧
      (loadScanned zd ls w).zd.rndcPath = zd.rndcPath := by
    intro ls
    obtain ⟨a1, a2, a3, a4, a5, _⟩ := loadScanned_eq zd ls w
    obtain ⟨_, f2, f3, f4⟩ := loadLoop_frame ls { zd with adder := LoadingZoneAdder } w
    refine ⟨?_, ?_, a5, ?_, ?_, ?_⟩
    · intro adder remover
      obtain ⟨b1, b2, b3, _⟩ := loadScanned_eq (ZoneRemover (ZoneAdder zd adder) remover) ls w
      obtain ⟨c1, c2, c3⟩ := loadLoop_congr_remover ls
        { ZoneRemover (ZoneAdder zd adder) remover with adder := LoadingZoneAdder }
        { zd with adder := LoadingZoneAdder } w rfl rfl
      exact ⟨b1.trans (c1.trans a1.symm), b2.trans (c2.trans a2.symm),
        b3.trans (c3.trans a3.symm)⟩
    · rw [a3]
      exact loadLoop_loading_ext ls _ w rfl
    · rw [a4, f2]
    · show (loadScanned zd ls w).zd.toZoneData.dataPath = _
      rw [a2]
      exact f3
    · show (loadScanned zd ls w).zd.toZoneData.rndcPath = _
      rw [a2]
      exact f4
  obtain ⟨k1, k2, k3, k4, k5, k6⟩ := key lines
  refine ⟨⟨k1, fun _ _ _ _ => rfl, k2, k3, k4, k5, k6⟩, ?_⟩
  obtain ⟨r1, r2, r3, r4, r5, r6⟩ := key (scanTokens reader.data)
  have ho := LoadZones_toLoadOutcome zd reader w
  have hp : (LoadZones zd reader w).panic = (loadScanned zd (scanTokens reader.data) w).panic :=
    congrArg LoadOutcome.panic ho
  have hz : (LoadZones zd reader w).zd = (loadScanned zd (scanTokens reader.data) w).zd :=
    congrArg LoadOutcome.zd ho
  have hw : (LoadZones zd reader w).world = (loadScanned zd (scanTokens reader.data) w).world :=
    congrArg LoadOutcome.world ho
  refine ⟨?_, ?_, ?_, ?_, ?_, ?_⟩
  · intro adder remover
    have ho2 := LoadZones_toLoadOutcome (ZoneRemover (ZoneAdder zd adder) remover) reader w
    obtain ⟨q1, q2, q3⟩ := r1 adder remover
    have hp2 : (LoadZones (ZoneRemover (ZoneAdder zd adder) remover) reader w).panic
        = (LoadZones zd reader w).panic :=
      (congrArg LoadOutcome.panic ho2).trans (q1.trans hp.symm)
    refine ⟨hp2, ?_, ?_, ?_⟩
    · exact (congrArg (fun o : LoadOutcome E => o.zd.toZoneData) ho2).trans
        (q2.trans (congrArg (fun o : LoadOutcome E => o.zd.toZoneData) ho).symm)
    · exact (congrArg LoadOutcome.world ho2).trans (q3.trans hw.symm)
    · rw [LoadZones_stderr, LoadZones_stderr, hp2]
  · rw [hw]
    exact r2
  · intro h
    rw [hz]
    exact r3 (hp ▸ h)
  · rw [hz]
    exact r4
  · rw [hz]
    exact r5
  · rw [hz]
    exact r6

/-- Witness of C14: loading the dump of `TestLoadZones` into a registry whose add hook
would fail and write to the log leaves the three load records in the log and nothing
else, and the hook is back in place afterwards. -/
theorem LoadZones_spares_configured_hooks_witness :
    (LoadZones (ZoneAdder (NewZoneManager : ZoneManager Unit)
        (fun _ _ _ w => (some "rndc failed", logPrintf "rndc addzone" w)))
        ⟨testInput, none⟩ ⟨[], ()⟩).world.log
      = [ "Loaded zone test.com with master 192.168.2.10",
          "Loaded zone domain.tld with master 10.10.29.19",
          "Loaded zone something.net with master 127.0.3.1" ] ∧
    ((LoadZones (ZoneAdder (NewZoneManager : ZoneManager Unit)
        (fun _ _ _ w => (some "rndc failed", logPrintf "rndc addzone" w)))
        ⟨testInput, none⟩ ⟨[], ()⟩).zd.adder
      (NewZoneManager : ZoneManager Unit).toZoneData "m" "z" ⟨[], ()⟩).1
      = some "rndc failed" ∧
    ((loadScanned (ZoneAdder (NewZoneManager : ZoneManager Unit)
        (fun _ _ _ w => (some "rndc failed", logPrintf "rndc addzone" w))) testDump
        ⟨[], ()⟩).zd.adder
      (NewZoneManager : ZoneManager Unit).toZoneData "m" "z" ⟨[], ()⟩).1
      = some "rndc failed" :=
  have h := LoadZones_spares_configured_hooks (ZoneAdder (NewZoneManager : ZoneManager Unit)
    (fun _ _ _ w => (some "rndc failed", logPrintf "rndc addzone" w))) testDump
    ⟨testInput, none⟩ ⟨[], ()⟩
  ⟨by decide, by rw [h.2.2.2.1 (by decide)]; rfl, by rw [h.1.2.2.2.1 (by decide)]; rfl⟩

end BootstrapFailures

/-! ## Add and remove together -/

section AddRemove

variable {E : Type}

/-- A map has an entry iff it has a member. -/
theorem length_ne_zero_iff {β : Type} (m : AList (fun _ : String => β)) :
    m.entries.length ≠ 0 ↔ ∃ a, a ∈ m := by
  constructor
  · intro h
    by_contra hno
    apply h
    have : m.entries = [] := (entries_eq_nil_iff m).mpr (fun a ha => hno ⟨a, ha⟩)
    rw [this]; rfl
  · rintro ⟨a, ha⟩
    exact length_ne_zero_of_mem ha

/-- Claim C15. In every reachable registry, for a master `m` and a zone `z` without owner,
with an add hook and a remove hook that succeed at the two calls made (the add hook on
the registry data and the world before `AddZone`, the remove hook on the registry data
after the deletion and the world `AddZone` left): `AddZone m z` followed by
`RemoveZone m z` both return no error, and afterwards `GetZoneMap()` has the owner it had
for every zone, `GetMasters()` has the members it had, and `GetZones` has, for every
master, the zones it had. -/
theorem AddZone_then_RemoveZone_identity {zd : ZoneManager E} (hr : Reachable zd)
    (m : Master) (z : Zone) (w : World E)
    (hfree : (GetZoneMap zd).lookup z = none)
    (hadd : (zd.adder zd.toZoneData m z w).1 = none)
    (hrem : (zd.remover (removedData (AddZone zd m z w).zd.toZoneData m z) m z
      (AddZone zd m z w).world).1 = none) :
    (AddZone zd m z w).err = none ∧
    (RemoveZone (AddZone zd m z w).zd m z (AddZone zd m z w).world).err = none ∧
    (∀ z1, (GetZoneMap (RemoveZone (AddZone zd m z w).zd m z (AddZone zd m z w).world).zd).lookup
      z1 = (GetZoneMap zd).lookup z1) ∧
    (∀ m1, m1 ∈ GetMasters (RemoveZone (AddZone zd m z w).zd m z (AddZone zd m z w).world).zd
      ↔ m1 ∈ GetMasters zd) ∧
    (∀ m1 z1, (GetZones (RemoveZone (AddZone zd m z w).zd m z (AddZone zd m z w).world).zd
      m1).lookup z1 = (GetZones zd m1).lookup z1) ∧
    (∀ m1 z1, z1 ∈ GetZones (RemoveZone (AddZone zd m z w).zd m z (AddZone zd m z w).world).zd m1
      ↔ z1 ∈ GetZones zd m1) := by
  have inv := Invariant_of_Reachable hr
  have inv1 := Invariant_of_Reachable (Reachable.addZone zd m z w hr)
  rw [GetZoneMap_lookup] at hfree
  rcases AddZone_cases zd m z w with ⟨c, hc, _⟩ | ⟨_, e, w1, ha, _⟩ |
    ⟨_, w1, _, herr1, _, hzones, hms, _, hremover, _⟩
  · rw [hfree] at hc; cases hc
  · rw [ha] at hadd; cases hadd
  · have hown : (AddZone zd m z w).zd.zones.lookup z = some m := by
      rw [hzones, AList.lookup_insert]
    obtain ⟨set, hset, hin, hzones2, hms2, _, _⟩ :=
      RemoveZone_owned (AddZone zd m z w).zd inv1 m z (AddZone zd m z w).world hown
    have herr2 : (RemoveZone (AddZone zd m z w).zd m z (AddZone zd m z w).world).err
        = ((AddZone zd m z w).zd.remover (removedData (AddZone zd m z w).zd.toZoneData m z)
            m z (AddZone zd m z w).world).1 := by
      rcases RemoveZone_cases (AddZone zd m z w).zd m z (AddZone zd m z w).world with
        ⟨h0, _⟩ | ⟨_, h0, _⟩ | ⟨_, ⟨s1, hs1, hn⟩, _⟩ | ⟨_, _, _, _, _, h0, _⟩
      · rw [hown] at h0; cases h0
      · rw [hset] at h0; cases h0
      · rw [hset] at hs1
        cases hs1
        exact absurd hin hn
      · exact h0
    have hsetEq : set = ((zd.masters.lookup m).getD ∅).insert z true := by
      have := hms m
      rw [if_pos rfl, hset] at this
      exact Option.some.inj this
    have hnotin : z ∉ (zd.masters.lookup m).getD ∅ := by
      rw [inv.I1 m z, hfree]
      intro h; cases h
    have hmem : ∀ z1, z1 ∈ set.erase z ↔ z1 ∈ (zd.masters.lookup m).getD ∅ := by
      intro z1
      rw [AList.mem_erase, hsetEq, AList.mem_insert]
      constructor
      · rintro ⟨hne, h | h⟩
        · exact absurd h hne
        · exact h
      · intro h
        refine ⟨?_, Or.inr h⟩
        rintro rfl
        exact hnotin h
    have hgz : ∀ m1 z1,
        z1 ∈ ((RemoveZone (AddZone zd m z w).zd m z (AddZone zd m z w).world).zd.masters.lookup
          m1).getD ∅ ↔ z1 ∈ (zd.masters.lookup m1).getD ∅ := by
      intro m1 z1
      rw [hms2 m1]
      by_cases hm : m1 = m
      · subst hm
        rw [if_pos rfl, mem_pruned, hmem]
      · rw [if_neg hm, hms m1, if_neg hm]
    have hlook : ∀ m1 z1,
        (GetZones (RemoveZone (AddZone zd m z w).zd m z (AddZone zd m z w).world).zd
          m1).lookup z1 = (GetZones zd m1).lookup z1 := by
      intro m1 z1
      rw [GetZones_lookup, GetZones_lookup]
      by_cases h : z1 ∈ (zd.masters.lookup m1).getD ∅
      · rw [if_pos h, if_pos ((hgz m1 z1).mpr h)]
      · rw [if_neg h, if_neg (fun h2 => h ((hgz m1 z1).mp h2))]
    refine ⟨herr1, ?_, ?_, ?_, hlook, ?_⟩
    · rw [herr2, hremover]
      exact hrem
    · intro z1
      rw [GetZoneMap_lookup, GetZoneMap_lookup, hzones2, hzones]
      by_cases hz : z1 = z
      · subst hz
        rw [AList.lookup_erase, hfree]
      · rw [AList.lookup_erase_ne hz, AList.lookup_insert_ne hz]
    · intro m1
      rw [GetMasters_eq_keys, GetMasters_eq_keys, ← AList.mem_keys, ← AList.mem_keys]
      rw [← AList.lookup_isSome, hms2 m1]
      by_cases hm : m1 = m
      · subst hm
        rw [if_pos rfl, inv.I2 m1, length_ne_zero_iff]
        by_cases hl : (set.erase z).entries.length = 0
        · have hnone : ¬ ∃ a, a ∈ (zd.masters.lookup m1).getD ∅ := by
            rintro ⟨a, ha⟩
            exact length_ne_zero_of_mem ((hmem a).mpr ha) hl
          simp [hl, hnone]
        · obtain ⟨a, ha⟩ := (length_ne_zero_iff _).mp hl
          have hsome : ∃ a, a ∈ (zd.masters.lookup m1).getD ∅ := ⟨a, (hmem a).mp ha⟩
          simp [hl, hsome]
      · rw [if_neg hm, hms m1, if_neg hm, AList.lookup_isSome]
    · intro m1 z1
      rw [← AList.lookup_isSome, ← AList.lookup_isSome, hlook]

/-- Witness of C15: on a new registry, adding and then removing `basis.es` for
`178.33.115.135` (the scenario of `TestRemoveZone`) returns no error twice and leaves both
maps without entries, as in a new registry. -/
theorem AddZone_then_RemoveZone_identity_witness :
    (RemoveZone (AddZone (NewZoneManager : ZoneManager Unit) "178.33.115.135" "basis.es"
      ⟨[], ()⟩).zd "178.33.115.135" "basis.es" ⟨[], ()⟩).err = none ∧
    (RemoveZone (AddZone (NewZoneManager : ZoneManager Unit) "178.33.115.135" "basis.es"
      ⟨[], ()⟩).zd "178.33.115.135" "basis.es" ⟨[], ()⟩).zd.zones.entries
      = (NewZoneManager : ZoneManager Unit).zones.entries ∧
    (RemoveZone (AddZone (NewZoneManager : ZoneManager Unit) "178.33.115.135" "basis.es"
      ⟨[], ()⟩).zd "178.33.115.135" "basis.es" ⟨[], ()⟩).zd.masters.keys
      = (NewZoneManager : ZoneManager Unit).masters.keys ∧
    ("178.33.115.135" ∈ GetMasters (RemoveZone (AddZone (NewZoneManager : ZoneManager Unit)
      "178.33.115.135" "basis.es" ⟨[], ()⟩).zd "178.33.115.135" "basis.es" ⟨[], ()⟩).zd
      ↔ "178.33.115.135" ∈ GetMasters (NewZoneManager : ZoneManager Unit)) :=
  have h := AddZone_then_RemoveZone_identity
    (Reachable.new : Reachable (NewZoneManager : ZoneManager Unit))
    "178.33.115.135" "basis.es" ⟨[], ()⟩ (by decide) (by decide) rfl
  ⟨h.2.1, by decide, by decide, h.2.2.2.1 "178.33.115.135"⟩

/-- Claim C18. For every registry, master `m` and zone `z`: when the validation of
`RemoveZone m z` fails (the zone has no owner, the master is no key, or the zone is not in
the zone set of the master), the call returns one of the three validation errors, the
registry is the one before the call, and the world is untouched whatever remove hook is
installed, so the hook is not invoked. Read from the result: when the call returns one of
the three validation errors and that error is not what the remove hook itself returns,
the registry and the world are as before the call. -/
theorem RemoveZone_validation_failure_atomic (zd : ZoneManager E) (m : Master) (z : Zone)
    (w : World E) :
    ((¬ ∃ set, z ∈ zd.zones ∧ zd.masters.lookup m = some set ∧ z ∈ set) →
      ((RemoveZone zd m z w).err = some "not found in zone map" ∨
        (RemoveZone zd m z w).err = some "master not found" ∨
        (RemoveZone zd m z w).err = some "zone not in this master") ∧
      (RemoveZone zd m z w).zd = zd ∧
      (RemoveZone zd m z w).world = w ∧
      (∀ remover : ZoneRemoverFunc E,
        (RemoveZone (ZoneRemover zd remover) m z w).err = (RemoveZone zd m z w).err ∧
        (RemoveZone (ZoneRemover zd remover) m z w).world = w ∧
        (RemoveZone (ZoneRemover zd remover) m z w).zd = ZoneRemover zd remover)) ∧
    (∀ e, e = "not found in zone map" ∨ e = "master not found" ∨
        e = "zone not in this master" →
      (RemoveZone zd m z w).err = some e →
      (zd.remover (removedData zd.toZoneData m z) m z w).1 ≠ some e →
      (RemoveZone zd m z w).zd = zd ∧ (RemoveZone zd m z w).world = w ∧
      GetZoneMap (RemoveZone zd m z w).zd = GetZoneMap zd ∧
      (∀ m1, GetZones (RemoveZone zd m z w).zd m1 = GetZones zd m1) ∧
      GetMasters (RemoveZone zd m z w).zd = GetMasters zd) := by
  constructor
  · intro hfail
    have key : ∀ zd1 : ZoneManager E, zd1.toZoneData = zd.toZoneData →
        ∃ e, (e = "not found in zone map" ∨ e = "master not found" ∨
          e = "zone not in this master") ∧
          (zd.zones.lookup z = none → e = "not found in zone map") ∧
          (zd.zones.lookup z ≠ none → zd.masters.lookup m = none → e = "master not found") ∧
          (zd.zones.lookup z ≠ none → zd.masters.lookup m ≠ none →
            e = "zone not in this master") ∧
          RemoveZone zd1 m z w = ⟨some e, zd1, w⟩ := by
      intro zd1 hd
      have hz1 : zd1.zones = zd.zones := congrArg ZoneData.zones hd
      have hm1 : zd1.masters = zd.masters := congrArg ZoneData.masters hd
      rcases RemoveZone_cases zd1 m z w with ⟨h1, heq⟩ | ⟨h1, h2, heq⟩ |
        ⟨h1, ⟨set, h2, _⟩, heq⟩ | ⟨h1, ⟨set, h2, h3⟩, _⟩
      · rw [hz1] at h1
        exact ⟨_, Or.inl rfl, fun _ => rfl, fun h => absurd h1 h, fun h => absurd h1 h, heq⟩
      · rw [hz1] at h1
        rw [hm1] at h2
        have hne : zd.zones.lookup z ≠ none := by
          rw [Ne, AList.lookup_eq_none]
          exact fun h => h h1
        exact ⟨_, Or.inr (Or.inl rfl), fun h => absurd h hne, fun _ _ => rfl,
          fun _ h => absurd h2 h, heq⟩
      · rw [hz1] at h1
        rw [hm1] at h2
        have hne : zd.zones.lookup z ≠ none := by
          rw [Ne, AList.lookup_eq_none]
          exact fun h => h h1
        have hne2 : zd.masters.lookup m ≠ none := by
          rw [h2]
          intro h; cases h
        exact ⟨_, Or.inr (Or.inr rfl), fun h => absurd h hne, fun _ h => absurd h hne2,
          fun _ _ => rfl, heq⟩
      · rw [hz1] at h1
        rw [hm1] at h2
        exact absurd ⟨set, h1, h2, h3⟩ hfail
    obtain ⟨e, he, k1, k2, k3, heq⟩ := key zd rfl
    refine ⟨?_, ?_, ?_, ?_⟩
    · rw [heq]
      rcases he with rfl | rfl | rfl
      · exact Or.inl rfl
      · exact Or.inr (Or.inl rfl)
      · exact Or.inr (Or.inr rfl)
    · rw [heq]
    · rw [heq]
    · intro remover
      obtain ⟨e2, _, j1, j2, j3, heq2⟩ := key (ZoneRemover zd remover) rfl
      have hee : e2 = e := by
        by_cases hz : zd.zones.lookup z = none
        · rw [j1 hz, k1 hz]
        · by_cases hm : zd.masters.lookup m = none
          · rw [j2 hz hm, k2 hz hm]
          · rw [j3 hz hm, k3 hz hm]
      rw [heq2, heq, hee]
      exact ⟨rfl, rfl, rfl⟩
  · intro e _ herr hhook
    have hsame : (RemoveZone zd m z w).zd = zd ∧ (RemoveZone zd m z w).world = w := by
      rcases RemoveZone_cases zd m z w with ⟨_, heq⟩ | ⟨_, _, heq⟩ | ⟨_, _, heq⟩ |
        ⟨_, _, _, _, _, herr2, _⟩
      · rw [heq]; exact ⟨rfl, rfl⟩
      · rw [heq]; exact ⟨rfl, rfl⟩
      · rw [heq]; exact ⟨rfl, rfl⟩
      · rw [herr2] at herr
        exact absurd herr hhook
    refine ⟨hsame.1, hsame.2, ?_, ?_, ?_⟩
    · rw [hsame.1]
    · intro m1
      rw [hsame.1]
    · rw [hsame.1]

/-- Witness of C18: removing `a.org` as `10.0.0.2`, which owns `b.org` only, with a remove
hook that would write to the log, leaves the log empty and `a.org` in place. -/
theorem RemoveZone_validation_failure_atomic_witness :
    (RemoveZone (ZoneRemover (AddZone (AddZone (NewZoneManager : ZoneManager Unit) "10.0.0.1"
        "a.org" ⟨[], ()⟩).zd "10.0.0.2" "b.org" ⟨[], ()⟩).zd LogZoneRemover)
        "10.0.0.2" "a.org" ⟨[], ()⟩).world.log = [] ∧
    (GetZoneMap (RemoveZone (ZoneRemover (AddZone (AddZone (NewZoneManager : ZoneManager Unit)
        "10.0.0.1" "a.org" ⟨[], ()⟩).zd "10.0.0.2" "b.org" ⟨[], ()⟩).zd LogZoneRemover)
        "10.0.0.2" "a.org" ⟨[], ()⟩).zd).lookup "a.org" = some "10.0.0.1" :=
  have h := (RemoveZone_validation_failure_atomic
    (ZoneRemover (AddZone (AddZone (NewZoneManager : ZoneManager Unit) "10.0.0.1"
      "a.org" ⟨[], ()⟩).zd "10.0.0.2" "b.org" ⟨[], ()⟩).zd LogZoneRemover)
    "10.0.0.2" "a.org" ⟨[], ()⟩).2 "zone not in this master" (Or.inr (Or.inr rfl))
    (by decide) (by decide)
  ⟨by rw [h.2.1], by rw [h.2.2.1]; decide⟩

/-- Claim C19. For every registry, master `m` and zone `z`, whatever the call returns:
`AddZone m z` and `RemoveZone m z` leave the owner of every other zone in `GetZoneMap()`,
or its absence, as it was, and leave `GetZones(m1)` as it was for every other master
`m1`. -/
theorem AddZone_RemoveZone_touch_one_zone (zd : ZoneManager E) (m : Master) (z : Zone)
    (w : World E) :
    (∀ z1, z1 ≠ z →
      (GetZoneMap (AddZone zd m z w).zd).lookup z1 = (GetZoneMap zd).lookup z1) ∧
    (∀ m1, m1 ≠ m → GetZones (AddZone zd m z w).zd m1 = GetZones zd m1) ∧
    (∀ z1, z1 ≠ z →
      (GetZoneMap (RemoveZone zd m z w).zd).lookup z1 = (GetZoneMap zd).lookup z1) ∧
    (∀ m1, m1 ≠ m → GetZones (RemoveZone zd m z w).zd m1 = GetZones zd m1) := by
  refine ⟨?_, ?_, ?_, ?_⟩
  · intro z1 hne
    rw [GetZoneMap_lookup, GetZoneMap_lookup]
    rcases AddZone_cases zd m z w with ⟨c, _, heq⟩ | ⟨_, e, w1, _, heq⟩ |
      ⟨_, w1, _, _, _, hzones, _⟩
    · rw [heq]
    · rw [heq]
    · rw [hzones, AList.lookup_insert_ne hne]
  · intro m1 hne
    unfold GetZones
    rcases AddZone_cases zd m z w with ⟨c, _, heq⟩ | ⟨_, e, w1, _, heq⟩ |
      ⟨_, w1, _, _, _, _, hms, _⟩
    · rw [heq]
    · rw [heq]
    · rw [hms m1, if_neg hne]
  · intro z1 hne
    rw [GetZoneMap_lookup, GetZoneMap_lookup]
    rcases RemoveZone_cases zd m z w with ⟨_, heq⟩ | ⟨_, _, heq⟩ | ⟨_, _, heq⟩ |
      ⟨_, _, hdata, _⟩
    · rw [heq]
    · rw [heq]
    · rw [heq]
    · show (RemoveZone zd m z w).zd.toZoneData.zones.lookup z1 = _
      rw [hdata]
      exact AList.lookup_erase_ne hne
  · intro m1 hne
    unfold GetZones
    rcases RemoveZone_cases zd m z w with ⟨_, heq⟩ | ⟨_, _, heq⟩ | ⟨_, _, heq⟩ |
      ⟨_, ⟨set, hset, _⟩, hdata, _⟩
    · rw [heq]
    · rw [heq]
    · rw [heq]
    · have : (RemoveZone zd m z w).zd.masters.lookup m1 = zd.masters.lookup m1 := by
        show (RemoveZone zd m z w).zd.toZoneData.masters.lookup m1 = _
        rw [hdata, removedData_lookup zd.toZoneData m z set hset m1, if_neg hne]
      rw [this]

/-- Witness of C19: with `a.org` under `10.0.0.1` and `b.org` under `10.0.0.2`, removing
`a.org` leaves the owner of `b.org` and the zones of `10.0.0.2` as they were. -/
theorem AddZone_RemoveZone_touch_one_zone_witness :
    (GetZoneMap (RemoveZone (AddZone (AddZone (NewZoneManager : ZoneManager Unit) "10.0.0.1"
        "a.org" ⟨[], ()⟩).zd "10.0.0.2" "b.org" ⟨[], ()⟩).zd
        "10.0.0.1" "a.org" ⟨[], ()⟩).zd).lookup "b.org" = some "10.0.0.2" ∧
    (GetZones (RemoveZone (AddZone (AddZone (NewZoneManager : ZoneManager Unit) "10.0.0.1"
        "a.org" ⟨[], ()⟩).zd "10.0.0.2" "b.org" ⟨[], ()⟩).zd
        "10.0.0.1" "a.org" ⟨[], ()⟩).zd "10.0.0.2").keys = ["b.org"] :=
  have h := AddZone_RemoveZone_touch_one_zone
    (AddZone (AddZone (NewZoneManager : ZoneManager Unit) "10.0.0.1"
      "a.org" ⟨[], ()⟩).zd "10.0.0.2" "b.org" ⟨[], ()⟩).zd "10.0.0.1" "a.org" ⟨[], ()⟩
  ⟨(h.2.2.1 "b.org" (by decide)).trans (by decide),
    by rw [h.2.2.2 "10.0.0.2" (by decide)]; decide⟩

end AddRemove

end Bind

/-! # Configuration: `Override` -/

namespace config

/-- Representation names of the fields of `Config`, as keys of `fieldNames`. -/
theorem fieldNames_keys :
    fieldNames.keys
      = ["client", "ssl_key", "ssl_cert", "ssl_enabled", "syslog", "path", "rndc", "port",
          "zone_file"] := by
  decide

theorem fieldNames_lookup_other (name : String)
    (h : name ∉ ["zone_file", "port", "rndc", "path", "syslog", "ssl_enabled", "ssl_cert",
      "ssl_key", "client"]) :
    fieldNames.lookup name = none := by
  rw [AList.lookup_eq_none, AList.mem_keys, fieldNames_keys]
  intro hmem
  apply h
  simp only [List.mem_cons, List.mem_singleton, List.not_mem_nil, or_false] at hmem ⊢
  tauto

/-- Claim C16. For every `Config`: `Override` with the representation name of a field
(`zone_file`, `port`, `rndc`, `path`, `syslog`, `ssl_enabled`, `ssl_cert`, `ssl_key`,
`client`) and a value of the type of that field returns no error, without panic, and the
configuration afterwards has that field set to the value and every other field as before.
With any other name and any value it returns the error `Variable "<name>" is invalid.`
and the configuration is unchanged. -/
theorem Override_sets_named_field (c : Config) :
    (∀ s, Override c "zone_file" (.str s) = ⟨false, none, { c with ZoneFile := s }⟩) ∧
    (∀ n, Override c "port" (.int n) = ⟨false, none, { c with Port := n }⟩) ∧
    (∀ s, Override c "rndc" (.str s) = ⟨false, none, { c with Rndc := s }⟩) ∧
    (∀ s, Override c "path" (.str s) = ⟨false, none, { c with Path := s }⟩) ∧
    (∀ b, Override c "syslog" (.bool b) = ⟨false, none, { c with LogToSyslog := b }⟩) ∧
    (∀ b, Override c "ssl_enabled" (.bool b) = ⟨false, none, { c with SSLEnabled := b }⟩) ∧
    (∀ s, Override c "ssl_cert" (.str s) = ⟨false, none, { c with SSLCert := s }⟩) ∧
    (∀ s, Override c "ssl_key" (.str s) = ⟨false, none, { c with SSLKey := s }⟩) ∧
    (∀ cs, Override c "client" (.clients cs) = ⟨false, none, { c with Clients := cs }⟩) ∧
    (∀ (name : String) (value : Value),
      name ∉ ["zone_file", "port", "rndc", "path", "syslog", "ssl_enabled", "ssl_cert",
        "ssl_key", "client"] →
      Override c name value
        = ⟨false, some ("Variable \"" ++ name ++ "\" is invalid."), c⟩) := by
  have h1 : fieldNames.lookup "zone_file" = some "ZoneFile" := by decide
  have h2 : fieldNames.lookup "port" = some "Port" := by decide
  have h3 : fieldNames.lookup "rndc" = some "Rndc" := by decide
  have h4 : fieldNames.lookup "path" = some "Path" := by decide
  have h5 : fieldNames.lookup "syslog" = some "LogToSyslog" := by decide
  have h6 : fieldNames.lookup "ssl_enabled" = some "SSLEnabled" := by decide
  have h7 : fieldNames.lookup "ssl_cert" = some "SSLCert" := by decide
  have h8 : fieldNames.lookup "ssl_key" = some "SSLKey" := by decide
  have h9 : fieldNames.lookup "client" = some "Clients" := by decide
  refine ⟨?_, ?_, ?_, ?_, ?_, ?_, ?_, ?_, ?_, ?_⟩
  · intro s
    simp only [Override, h1]
    rfl
  · intro n
    simp only [Override, h2]
    rfl
  · intro s
    simp only [Override, h3]
    rfl
  · intro s
    simp only [Override, h4]
    rfl
  · intro b
    simp only [Override, h5]
    rfl
  · intro b
    simp only [Override, h6]
    rfl
  · intro s
    simp only [Override, h7]
    rfl
  · intro s
    simp only [Override, h8]
    rfl
  · intro cs
    simp only [Override, h9]
    rfl
  · intro name value h
    simp only [Override, fieldNames_lookup_other name h]

/-- Witness of C16: `Override("port", 2)` on the configuration of `TestOverride` changes
`Port` and nothing else; `Override("zonefile", ...)` is refused. -/
theorem Override_sets_named_field_witness :
    Override testConfig "port" (.int 2) = ⟨false, none, { testConfig with Port := 2 }⟩ ∧
    Override testConfig "zonefile" (.str "other.nzf")
      = ⟨false, some "Variable \"zonefile\" is invalid.", testConfig⟩ :=
  ⟨(Override_sets_named_field testConfig).2.1 2,
    (Override_sets_named_field testConfig).2.2.2.2.2.2.2.2.2 "zonefile" (.str "other.nzf")
      (by decide)⟩

end config

/-! # Command line: flags and `Override` -/

namespace Main

open config

/-- Claim C17, at the flags `zonefile`, `ssl_cert` and `ssl_key`. The flag `zonefile` is a
string flag, and for every configuration and every value of the flag
`Override("zonefile", value)` returns the error `Variable "zonefile" is invalid.` and
changes nothing, so that the loop of `loadConfiguration`, which drops the error, leaves
`ZoneFile` as the configuration file gave it. The flags `ssl_cert` and `ssl_key` are
boolean flags while the fields are strings: `Override` panics on them. -/
theorem zonefile_flag_has_no_effect (c : Config) (s : String) (b : Bool) :
    flagType "zonefile" = some FlagType.stringFlag ∧
    Override c "zonefile" (.str s) = ⟨false, some "Variable \"zonefile\" is invalid.", c⟩ ∧
    visitOverride c [("zonefile", .str s)] = (false, c) ∧
    (visitOverride c [("zonefile", .str s)]).2.ZoneFile = c.ZoneFile ∧
    flagType "ssl_cert" = some FlagType.boolFlag ∧
    flagType "ssl_key" = some FlagType.boolFlag ∧
    (Override c "ssl_cert" (.bool b)).panicked = true ∧
    (Override c "ssl_key" (.bool b)).panicked = true ∧
    (visitOverride c [("ssl_cert", .bool b)]).1 = true := by
  have h0 : fieldNames.lookup "zonefile" = none := by decide
  have h7 : fieldNames.lookup "ssl_cert" = some "SSLCert" := by decide
  have h8 : fieldNames.lookup "ssl_key" = some "SSLKey" := by decide
  have e0 : Override c "zonefile" (.str s)
      = ⟨false, some "Variable \"zonefile\" is invalid.", c⟩ := by
    simp only [Override, h0]
    rfl
  have e7 : (Override c "ssl_cert" (.bool b)).panicked = true := by
    simp only [Override, h7]
    rfl
  have e8 : (Override c "ssl_key" (.bool b)).panicked = true := by
    simp only [Override, h8]
    rfl
  refine ⟨by decide, e0, ?_, ?_, by decide, by decide, e7, e8, ?_⟩
  · simp [visitOverride, e0]
  · simp [visitOverride, e0]
  · simp [visitOverride, e7]

end Main

/-! # Bootstrap parser: reading back the add hook's snippet -/

namespace Bind

section Matching

variable {α : Type}

theorem run_seq_cons (r : Regex) (rs : List Regex) (s : MState) (k : MState → Option α) :
    (Regex.seq (r :: rs)).run s k = r.run s (fun t => (Regex.seq rs).run t k) := rfl

/-- Literal characters match themselves. -/
theorem run_lits (l rest : List Char) (pos : Nat) (caps : Nat → Option (List Char))
    (k : MState → Option α) :
    (Regex.seq (l.map Regex.lit)).run ⟨pos, l ++ rest, caps⟩ k
      = k ⟨pos + l.length, rest, caps⟩ := by
  induction l generalizing pos with
  | nil => rfl
  | cons c l ih =>
    simp only [List.map_cons, run_seq_cons, List.cons_append, Regex.lit, Regex.run,
      beq_self_eq_true, if_true]
    rw [ih]
    simp only [List.length_cons]
    rw [Nat.add_assoc, Nat.add_comm 1]

theorem run_str (s : String) (rest : List Char) (pos : Nat) (caps : Nat → Option (List Char))
    (k : MState → Option α) :
    (Regex.str s).run ⟨pos, s.toList ++ rest, caps⟩ k
      = k ⟨pos + s.toList.length, rest, caps⟩ :=
  run_lits s.toList rest pos caps k

/-- Greedy star that takes a block: when what follows the block succeeds, that is the
match found first. -/
theorem starRun_block (p : Char → Bool) (caps : Nat → Option (List Char))
    (k : MState → Option α) (xs rest : List Char) (pos : Nat) (r : α)
    (hall : ∀ x ∈ xs, p x = true) (hhead : ∀ c ∈ rest.head?, p c = false)
    (h : k ⟨pos + xs.length, rest, caps⟩ = some r) :
    starRun p caps k pos (xs ++ rest) = some r := by
  induction xs generalizing pos with
  | nil =>
    simp only [List.nil_append, List.length_nil, Nat.add_zero] at h ⊢
    cases rest with
    | nil => simpa [starRun] using h
    | cons c cs =>
      have hc : p c = false := hhead c (by simp)
      simpa [starRun, hc] using h
  | cons x xs ih =>
    have hx : p x = true := hall x (List.mem_cons_self _ _)
    have := ih (pos + 1) (fun y hy => hall y (List.mem_cons_of_mem _ hy))
      (by rw [← h]; simp only [List.length_cons]; rw [Nat.add_assoc, Nat.add_comm 1])
    rw [List.cons_append, starRun, if_pos hx, this]

theorem seq_str (s : String) (rs : List Regex) (rest : List Char) (pos : Nat)
    (caps : Nat → Option (List Char)) (k : MState → Option α) (r : α)
    (h : (Regex.seq rs).run ⟨pos + s.toList.length, rest, caps⟩ k = some r) :
    (Regex.seq (Regex.str s :: rs)).run ⟨pos, s.toList ++ rest, caps⟩ k = some r := by
  rw [run_seq_cons, run_str]
  exact h

theorem seq_star (p : Char → Bool) (rs : List Regex) (xs rest : List Char) (pos : Nat)
    (caps : Nat → Option (List Char)) (k : MState → Option α) (r : α)
    (hall : ∀ x ∈ xs, p x = true) (hhead : ∀ c ∈ rest.head?, p c = false)
    (h : (Regex.seq rs).run ⟨pos + xs.length, rest, caps⟩ k = some r) :
    (Regex.seq (Regex.star p :: rs)).run ⟨pos, xs ++ rest, caps⟩ k = some r := by
  rw [run_seq_cons]
  exact starRun_block p caps _ xs rest pos r hall hhead h

theorem seq_star_none (p : Char → Bool) (rs : List Regex) (rest : List Char) (pos : Nat)
    (caps : Nat → Option (List Char)) (k : MState → Option α) (r : α)
    (hhead : ∀ c ∈ rest.head?, p c = false)
    (h : (Regex.seq rs).run ⟨pos, rest, caps⟩ k = some r) :
    (Regex.seq (Regex.star p :: rs)).run ⟨pos, rest, caps⟩ k = some r :=
  seq_star p rs [] rest pos caps k r (fun _ hx => absurd hx (List.not_mem_nil _)) hhead h

theorem plus_block (p : Char → Bool) (xs rest : List Char) (pos : Nat)
    (caps : Nat → Option (List Char)) (k : MState → Option α) (r : α)
    (hne : xs ≠ []) (hall : ∀ x ∈ xs, p x = true) (hhead : ∀ c ∈ rest.head?, p c = false)
    (h : k ⟨pos + xs.length, rest, caps⟩ = some r) :
    (Regex.plus p).run ⟨pos, xs ++ rest, caps⟩ k = some r := by
  cases xs with
  | nil => exact absurd rfl hne
  | cons x xs =>
    have hx : p x = true := hall x (List.mem_cons_self _ _)
    simp only [Regex.plus, Regex.run, List.cons_append, hx, if_true]
    apply starRun_block p caps k xs rest (pos + 1) r
      (fun y hy => hall y (List.mem_cons_of_mem _ hy)) hhead
    rw [← h]
    simp only [List.length_cons]
    rw [Nat.add_assoc, Nat.add_comm 1]

theorem seq_plus (p : Char → Bool) (rs : List Regex) (xs rest : List Char) (pos : Nat)
    (caps : Nat → Option (List Char)) (k : MState → Option α) (r : α)
    (hne : xs ≠ []) (hall : ∀ x ∈ xs, p x = true) (hhead : ∀ c ∈ rest.head?, p c = false)
    (h : (Regex.seq rs).run ⟨pos + xs.length, rest, caps⟩ k = some r) :
    (Regex.seq (Regex.plus p :: rs)).run ⟨pos, xs ++ rest, caps⟩ k = some r := by
  rw [run_seq_cons]
  exact plus_block p xs rest pos caps _ r hne hall hhead h

theorem seq_group_plus (i : Nat) (p : Char → Bool) (rs : List Regex) (xs rest : List Char)
    (pos : Nat) (caps : Nat → Option (List Char)) (k : MState → Option α) (r : α)
    (hne : xs ≠ []) (hall : ∀ x ∈ xs, p x = true) (hhead : ∀ c ∈ rest.head?, p c = false)
    (h : (Regex.seq rs).run ⟨pos + xs.length, rest, Function.update caps i (some xs)⟩ k
      = some r) :
    (Regex.seq (Regex.group i (Regex.plus p) :: rs)).run ⟨pos, xs ++ rest, caps⟩ k
      = some r := by
  rw [run_seq_cons]
  simp only [Regex.run]
  apply plus_block p xs rest pos caps _ r hne hall hhead
  simp only [Nat.add_sub_cancel_left, List.take_left']
  exact h

theorem seq_opt_take (s : String) (rs : List Regex) (rest : List Char) (pos : Nat)
    (caps : Nat → Option (List Char)) (k : MState → Option α) (r : α)
    (h : (Regex.seq rs).run ⟨pos + s.toList.length, rest, caps⟩ k = some r) :
    (Regex.seq (Regex.opt (Regex.str s) :: rs)).run ⟨pos, s.toList ++ rest, caps⟩ k
      = some r := by
  rw [run_seq_cons]
  simp only [Regex.run]
  rw [run_str, h]

theorem seq_opt_skip (s : String) (rs : List Regex) (rest : List Char) (pos : Nat)
    (caps : Nat → Option (List Char)) (k : MState → Option α) (r : α)
    (hfail : ∀ k1 : MState → Option α, (Regex.str s).run ⟨pos, rest, caps⟩ k1 = none)
    (h : (Regex.seq rs).run ⟨pos, rest, caps⟩ k = some r) :
    (Regex.seq (Regex.opt (Regex.str s) :: rs)).run ⟨pos, rest, caps⟩ k = some r := by
  rw [run_seq_cons]
  simp only [Regex.run]
  rw [hfail, h]

end Matching

section ReadBack

/-- Part of `bindLine` after the zone name and its closing quote. -/
theorem bindLine_tail (Z M : List Char) (pos : Nat) (caps : Nat → Option (List Char))
    (hZ : ∀ x ∈ Z, notQuote x = true) (hM : M ≠ [])
    (hMsemi : ∀ x ∈ M, notSemicolon x = true)
    (hMhead : ∀ c ∈ M.head?, isSpace c = false) :
    ∃ p, (Regex.seq
      [ .star isSpace, .str "\x7btype", .plus isSpace, .str "slave;",
        .star isSpace, .str "file", .plus isSpace, .str "\"", .plus notQuote, .str "\";",
        .star isSpace, .str "masters", .star isSpace, .str "\x7b",
        .star isSpace, .group 2 (.plus notSemicolon), .star isSpace, .str ";",
        .star isSpace, .str "\x7d", .star isSpace, .str ";",
        .star isSpace, .str "\x7d", .star isSpace, .str ";" ]).run
      ⟨pos,
        " ".toList ++ ("\x7btype".toList ++ (" ".toList ++ ("slave;".toList ++
        (" ".toList ++ ("file".toList ++ (" ".toList ++ ("\"".toList ++
        (("slave/".toList ++ (Z ++ ".db".toList)) ++ ("\";".toList ++
        (" ".toList ++ ("masters".toList ++ (" ".toList ++ ("\x7b".toList ++
        (" ".toList ++ (M ++ (";".toList ++
        (" ".toList ++ ("\x7d".toList ++ (";".toList ++
        ("\x7d".toList ++ (";".toList ++ []))))))))))))))))))))),
        caps⟩ some
      = some ⟨p, [], Function.update caps 2 (some M)⟩ := by
  refine ⟨?_, ?_⟩
  swap
  refine seq_star _ _ _ _ _ _ _ _ (by decide) (by simp [isSpace]) ?_
  refine seq_str _ _ _ _ _ _ _ ?_
  refine seq_plus _ _ _ _ _ _ _ _ (by decide) (by decide) (by simp [isSpace]) ?_
  refine seq_str _ _ _ _ _ _ _ ?_
  refine seq_star _ _ _ _ _ _ _ _ (by decide) (by simp [isSpace]) ?_
  refine seq_str _ _ _ _ _ _ _ ?_
  refine seq_plus _ _ _ _ _ _ _ _ (by decide) (by decide) (by simp [isSpace]) ?_
  refine seq_str _ _ _ _ _ _ _ ?_
  refine seq_plus _ _ _ _ _ _ _ _ (by simp) ?_ (by simp [notQuote]) ?_
  · intro x hx
    simp only [List.mem_append] at hx
    rcases hx with hx | hx | hx
    · revert x; decide
    · exact hZ x hx
    · revert x; decide
  refine seq_str _ _ _ _ _ _ _ ?_
  refine seq_star _ _ _ _ _ _ _ _ (by decide) (by simp [isSpace]) ?_
  refine seq_str _ _ _ _ _ _ _ ?_
  refine seq_star _ _ _ _ _ _ _ _ (by decide) (by simp [isSpace]) ?_
  refine seq_str _ _ _ _ _ _ _ ?_
  refine seq_star _ _ _ _ _ _ _ _ (by decide) ?_ ?_
  · intro c hc
    apply hMhead c
    cases M with
    | nil => exact absurd rfl hM
    | cons a as => simpa using hc
  refine seq_group_plus _ _ _ _ _ _ _ _ _ hM hMsemi (by simp [notSemicolon]) ?_
  refine seq_star_none _ _ _ _ _ _ _ (by simp [isSpace]) ?_
  refine seq_str _ _ _ _ _ _ _ ?_
  refine seq_star _ _ _ _ _ _ _ _ (by decide) (by simp [isSpace]) ?_
  refine seq_str _ _ _ _ _ _ _ ?_
  refine seq_star_none _ _ _ _ _ _ _ (by simp [isSpace]) ?_
  refine seq_str _ _ _ _ _ _ _ ?_
  refine seq_star_none _ _ _ _ _ _ _ (by simp [isSpace]) ?_
  refine seq_str _ _ _ _ _ _ _ ?_
  refine seq_star_none _ _ _ _ _ _ _ (by simp [isSpace]) ?_
  refine seq_str _ _ _ _ _ _ _ ?_
  exact rfl


theorem str_quote_fail {α : Type} (c : Char) (cs : List Char) (pos : Nat)
    (caps : Nat → Option (List Char)) (k : MState → Option α) (h : notQuote c = true) :
    (Regex.str "\"").run ⟨pos, c :: cs, caps⟩ k = none := by
  have hc : (c == Char.ofNat 34) = false := by simpa [notQuote] using h
  have hs : "\"".toList = [Char.ofNat 34] := by decide
  simp only [Regex.str, hs, List.map, Regex.seq, Regex.run, Regex.lit, hc]
  rfl

theorem notQuote_of_isZoneChar (c : Char) (h : isZoneChar c = true) : notQuote c = true := by
  simp only [isZoneChar, Bool.not_eq_true', Bool.or_eq_false_iff] at h
  simp only [notQuote, h.1.2, Bool.not_false]

/-- Match of `bindLine` at the start of a stanza with a quoted zone name. -/
theorem bindLine_run_quoted (Z M : List Char) (hZne : Z ≠ [])
    (hZ : ∀ x ∈ Z, isZoneChar x = true) (hM : M ≠ [])
    (hMsemi : ∀ x ∈ M, notSemicolon x = true)
    (hMhead : ∀ c ∈ M.head?, isSpace c = false) :
    ∃ p, bindLine.run
      ⟨0,
        "zone ".toList ++ ("\"".toList ++ (Z ++ ("\"".toList ++
        (" ".toList ++ ("\x7btype".toList ++ (" ".toList ++ ("slave;".toList ++
        (" ".toList ++ ("file".toList ++ (" ".toList ++ ("\"".toList ++
        (("slave/".toList ++ (Z ++ ".db".toList)) ++ ("\";".toList ++
        (" ".toList ++ ("masters".toList ++ (" ".toList ++ ("\x7b".toList ++
        (" ".toList ++ (M ++ (";".toList ++
        (" ".toList ++ ("\x7d".toList ++ (";".toList ++
        ("\x7d".toList ++ (";".toList ++ []))))))))))))))))))))))))),
        fun _ => none⟩ some
      = some ⟨p, [],
          Function.update (Function.update (fun _ => none) 1 (some Z)) 2 (some M)⟩ := by
  refine ⟨?_, ?_⟩
  swap
  unfold bindLine
  refine seq_str _ _ _ _ _ _ _ ?_
  refine seq_opt_take _ _ _ _ _ _ _ ?_
  refine seq_group_plus _ _ _ _ _ _ _ _ _ hZne hZ (by simp [isZoneChar]) ?_
  refine seq_opt_take _ _ _ _ _ _ _ ?_
  exact (bindLine_tail Z M _ _ (fun x hx => notQuote_of_isZoneChar x (hZ x hx)) hM hMsemi
    hMhead).choose_spec

/-- Match of `bindLine` at the start of a stanza with an unquoted zone name. -/
theorem bindLine_run_unquoted (Z M : List Char) (hZne : Z ≠ [])
    (hZ : ∀ x ∈ Z, isZoneChar x = true) (hM : M ≠ [])
    (hMsemi : ∀ x ∈ M, notSemicolon x = true)
    (hMhead : ∀ c ∈ M.head?, isSpace c = false) :
    ∃ p, bindLine.run
      ⟨0,
        "zone ".toList ++ (Z ++
        (" ".toList ++ ("\x7btype".toList ++ (" ".toList ++ ("slave;".toList ++
        (" ".toList ++ ("file".toList ++ (" ".toList ++ ("\"".toList ++
        (("slave/".toList ++ (Z ++ ".db".toList)) ++ ("\";".toList ++
        (" ".toList ++ ("masters".toList ++ (" ".toList ++ ("\x7b".toList ++
        (" ".toList ++ (M ++ (";".toList ++
        (" ".toList ++ ("\x7d".toList ++ (";".toList ++
        ("\x7d".toList ++ (";".toList ++ []))))))))))))))))))))))),
        fun _ => none⟩ some
      = some ⟨p, [],
          Function.update (Function.update (fun _ => none) 1 (some Z)) 2 (some M)⟩ := by
  refine ⟨?_, ?_⟩
  swap
  unfold bindLine
  refine seq_str _ _ _ _ _ _ _ ?_
  refine seq_opt_skip _ _ _ _ _ _ _ ?_ ?_
  · intro k1
    cases Z with
    | nil => exact absurd rfl hZne
    | cons a as =>
      exact str_quote_fail a _ _ _ k1
        (notQuote_of_isZoneChar a (hZ a (List.mem_cons_self _ _)))
  refine seq_group_plus _ _ _ _ _ _ _ _ _ hZne hZ (by simp [isZoneChar, isSpace]) ?_
  refine seq_opt_skip _ _ _ _ _ _ _ ?_ ?_
  · intro k1
    exact str_quote_fail (Char.ofNat 32) _ _ _ k1 (by decide)
  exact (bindLine_tail Z M _ _ (fun x hx => notQuote_of_isZoneChar x (hZ x hx)) hM hMsemi
    hMhead).choose_spec


theorem searchFrom_zero_of_run (r : Regex) (cs : List Char) (t : MState)
    (h : r.run ⟨0, cs, fun _ => none⟩ some = some t) : r.searchFrom 0 cs = some t := by
  cases cs with
  | nil => simpa [Regex.searchFrom] using h
  | cons c cs => simp [Regex.searchFrom, h]

/-- A line that starts with neither whitespace nor `#` is not an ignored line. -/
theorem ignoredLine_not_MatchString (s : String) (c : Char) (cs : List Char)
    (hs : s.toList = c :: cs) (hsp : isSpace c = false)
    (hh : (c == Char.ofNat 35) = false) : ignoredLine.MatchString s = false := by
  have hstr : "#".toList = [Char.ofNat 35] := by decide
  have hrun : ignoredLine.run ⟨0, c :: cs, fun _ => none⟩ some = none := by
    simp [ignoredLine, Regex.seq, Regex.str, Regex.run, Regex.lit, starRun, hsp, hh, hstr]
  unfold Regex.MatchString
  rw [hs]
  simp only [Regex.searchFrom, hrun, ignoredLine_searchFrom_pos 1 (by decide) cs]
  rfl

theorem parseLine_of_run (line : String) (L Z M : List Char) (p : Nat)
    (hs : line.toList = L)
    (hc : ∃ c cs, L = c :: cs ∧ isSpace c = false ∧ (c == Char.ofNat 35) = false)
    (hrun : bindLine.run ⟨0, L, fun _ => none⟩ some
      = some ⟨p, [], Function.update (Function.update (fun _ => none) 1 (some Z)) 2 (some M)⟩) :
    parseLine line = .ok (true, String.mk M, String.mk Z) := by
  obtain ⟨c, cs, hL, hsp, hh⟩ := hc
  unfold parseLine
  rw [ignoredLine_not_MatchString line c cs (hs.trans hL) hsp hh]
  unfold Regex.FindStringSubmatch
  rw [hs, searchFrom_zero_of_run bindLine L _ hrun]
  simp [Function.update]

/-- Claim C20. For every non-empty zone `z` without whitespace, `"` or `{`, and every
non-empty master `m` without `;` that does not start with whitespace: `parseLine` applied
to `zone "<z>" ` followed by the snippet `RndcZoneAdder` and `LogZoneAdder` build for
`(m, z)` returns `found = true` with the master `m` and the zone `z`; the same holds
with the zone name unquoted. -/
theorem parseLine_reads_back_snippet (z m : String)
    (hz : z ≠ "")
    (hzc : ∀ c ∈ z.toList, isSpace c = false ∧ c ≠ Char.ofNat 34 ∧ c ≠ Char.ofNat 123)
    (hm : m ≠ "") (hmc : ∀ c ∈ m.toList, c ≠ Char.ofNat 59)
    (hmh : ∀ c ∈ m.toList.head?, isSpace c = false) :
    parseLine ("zone \"" ++ z ++ "\" " ++ zoneSnippet m z) = .ok (true, m, z) ∧
    parseLine ("zone " ++ z ++ " " ++ zoneSnippet m z) = .ok (true, m, z) := by
  have hZne : z.toList ≠ [] := by
    intro h
    apply hz
    cases z with
    | mk l =>
      simp only [String.toList] at h
      subst h
      rfl
  have hMne : m.toList ≠ [] := by
    intro h
    apply hm
    cases m with
    | mk l =>
      simp only [String.toList] at h
      subst h
      rfl
  have hZ : ∀ x ∈ z.toList, isZoneChar x = true := by
    intro x hx
    obtain ⟨h1, h2, h3⟩ := hzc x hx
    simp [isZoneChar, h1, h2, h3]
  have hM : ∀ x ∈ m.toList, notSemicolon x = true := by
    intro x hx
    simp [notSemicolon, hmc x hx]
  obtain ⟨p1, h1⟩ := bindLine_run_quoted z.toList m.toList hZne hZ hMne hM hmh
  obtain ⟨p2, h2⟩ := bindLine_run_unquoted z.toList m.toList hZne hZ hMne hM hmh
  constructor
  · refine parseLine_of_run _ _ z.toList m.toList p1 ?_ ⟨_, _, rfl, by decide, by decide⟩ h1
    simp [zoneSnippet, String.toList, List.append_assoc]
  · refine parseLine_of_run _ _ z.toList m.toList p2 ?_ ⟨_, _, rfl, by decide, by decide⟩ h2
    simp [zoneSnippet, String.toList, List.append_assoc]


/-- Witness of C20: the first stanza of the dump of `TestLoadZones` is the line built for
the zone `test.com` and the master `192.168.2.10`, and `parseLine` reads both back. -/
theorem parseLine_reads_back_snippet_witness :
    parseLine
        "zone \"test.com\" \x7btype slave; file \"slave/test.com.db\"; masters \x7b 192.168.2.10; \x7d;\x7d;"
      = .ok (true, "192.168.2.10", "test.com") ∧
    parseLine
        "zone test.com \x7btype slave; file \"slave/test.com.db\"; masters \x7b 192.168.2.10; \x7d;\x7d;"
      = .ok (true, "192.168.2.10", "test.com") :=
  parseLine_reads_back_snippet "test.com" "192.168.2.10" (by decide) (by decide) (by decide)
    (by decide) (by decide)

end ReadBack

/-! ## The scanner -/

section Scanner

theorem splitLines_no_newline (cs : List Char) :
    ∀ l ∈ splitLines cs, Char.ofNat 10 ∉ l := by
  induction cs with
  | nil =>
    intro l hl
    simp [splitLines] at hl
  | cons c cs ih =>
    intro l hl
    unfold splitLines at hl
    by_cases hc : c = Char.ofNat 10
    · rw [if_pos hc] at hl
      rcases List.mem_cons.mp hl with h | h
      · rw [h]
        exact List.not_mem_nil _
      · exact ih l h
    · rw [if_neg hc] at hl
      cases hs : splitLines cs with
      | nil =>
        rw [hs] at hl
        simp only [List.mem_singleton] at hl
        rw [hl]
        simp only [List.mem_singleton]
        exact fun h => hc h.symm
      | cons l1 ls =>
        rw [hs] at hl
        simp only at hl
        rcases List.mem_cons.mp hl with h | h
        · rw [h]
          intro hmem
          rcases List.mem_cons.mp hmem with h1 | h1
          · exact hc h1.symm
          · exact ih l1 (by rw [hs]; exact List.mem_cons_self _ _) h1
        · exact ih l (by rw [hs]; exact List.mem_cons_of_mem _ h)

theorem mem_of_mem_dropCR (l : List Char) (c : Char) (h : c ∈ dropCR l) : c ∈ l := by
  unfold dropCR at h
  by_cases hl : l.getLast? = some (Char.ofNat 13)
  · rw [if_pos hl] at h
    exact List.mem_of_mem_dropLast h
  · rw [if_neg hl] at h
    exact h

/-- No value of `scanner.Text()` holds a newline. -/
theorem scanTokens_no_newline (data : String) :
    ∀ line ∈ scanTokens data, Char.ofNat 10 ∉ line.toList := by
  intro line hl
  unfold scanTokens at hl
  obtain ⟨l, hl1, rfl⟩ := List.mem_map.mp hl
  have hl2 : l ∈ splitLines data.toList := (List.takeWhile_sublist _).subset hl1
  intro h
  exact splitLines_no_newline _ l hl2 (mem_of_mem_dropCR l _ h)

/-- On a text whose lines all fit the buffer, the scanner yields every line and ends with
the error of the reader. -/
theorem scan_of_short (reader : Reader)
    (h : ∀ l ∈ splitLines reader.data.toList, byteLength l < MaxScanTokenSize) :
    scanTokens reader.data = (splitLines reader.data.toList).map lineText ∧
    scanErr reader = reader.err := by
  constructor
  · unfold scanTokens
    rw [List.takeWhile_eq_self_iff.mpr]
    intro l hl
    exact decide_eq_true (h l hl)
  · unfold scanErr
    rw [if_pos]
    rw [List.all_eq_true]
    intro l hl
    exact decide_eq_true (h l hl)

/-- A line without newline, ended by a newline, is the first line of the text. -/
theorem splitLines_append_newline (xs rest : List Char) (h : Char.ofNat 10 ∉ xs) :
    splitLines (xs ++ Char.ofNat 10 :: rest) = xs :: splitLines rest := by
  induction xs with
  | nil =>
    simp [splitLines]
  | cons x xs ih =>
    have hx : x ≠ Char.ofNat 10 := fun e => h (by rw [e]; exact List.mem_cons_self _ _)
    have hxs : Char.ofNat 10 ∉ xs := fun e => h (List.mem_cons_of_mem _ e)
    rw [List.cons_append, splitLines, if_neg hx, ih hxs]

theorem byteLength_replicate (n : Nat) (c : Char) :
    byteLength (List.replicate n c) = n * c.utf8Size := by
  unfold byteLength
  rw [List.map_replicate, List.sum_replicate]
  rfl

/-- The scanner stops at a first line that does not fit its buffer. -/
theorem scan_of_long (xs rest : List Char) (err : Option GoError) (h : Char.ofNat 10 ∉ xs)
    (hlong : ¬ byteLength xs < MaxScanTokenSize) :
    scanTokens (String.mk (xs ++ Char.ofNat 10 :: rest)) = [] ∧
    scanErr ⟨String.mk (xs ++ Char.ofNat 10 :: rest), err⟩
      = some "bufio.Scanner: token too long" := by
  constructor
  · unfold scanTokens
    show List.map lineText (List.takeWhile _ (splitLines (xs ++ Char.ofNat 10 :: rest))) = []
    rw [splitLines_append_newline xs rest h, List.takeWhile_cons_of_neg]
    · rfl
    · simpa using hlong
  · unfold scanErr
    show (if (splitLines (xs ++ Char.ofNat 10 :: rest)).all _ = true then _ else _) = _
    rw [splitLines_append_newline xs rest h, if_neg]
    simp only [List.all_cons, Bool.and_eq_true, decide_eq_true_eq, not_and]
    intro h1
    exact absurd h1 hlong

end Scanner

/-! ## The stanza grammar and the pattern `bindLine` -/

section Grammar

variable {α : Type}

theorem Stanza.text_toList (s : Stanza) :
    s.text.toList
      = "zone ".toList ++ ((if s.openQuote then "\"".toList else []) ++ (s.zone.toList ++
        ((if s.closeQuote then "\"".toList else []) ++ (s.s1.toList ++
        ("\x7btype".toList ++ (s.s2.toList ++ ("slave;".toList ++ (s.s3.toList ++
        ("file".toList ++ (s.s4.toList ++ ("\"".toList ++ (s.path.toList ++
        ("\";".toList ++ (s.s5.toList ++ ("masters".toList ++ (s.s6.toList ++
        ("\x7b".toList ++ (s.s7.toList ++ (s.master.toList ++ (s.s8.toList ++
        (";".toList ++ (s.s9.toList ++ ("\x7d".toList ++ (s.s10.toList ++ (";".toList ++
        (s.s11.toList ++ ("\x7d".toList ++ (s.s12.toList ++ (";".toList ++
        []))))))))))))))))))))))))))))) := by
  unfold Stanza.text
  cases s.openQuote <;> cases s.closeQuote <;>
    simp [String.toList, List.append_assoc]


/-- Parts of a stanza that has the shape. -/
theorem Stanza.shaped_iff (s : Stanza) :
    s.shaped = true ↔
    (s.zone.toList ≠ [] ∧ ∀ x ∈ s.zone.toList, isZoneChar x = true) ∧
    (s.path.toList ≠ [] ∧ ∀ x ∈ s.path.toList, notQuote x = true) ∧
    (s.master.toList ≠ [] ∧ ∀ x ∈ s.master.toList, notSemicolon x = true) ∧
    ((∀ x ∈ s.s1.toList, isSpace x = true) ∧
      (s.s2.toList ≠ [] ∧ ∀ x ∈ s.s2.toList, isSpace x = true) ∧
      (∀ x ∈ s.s3.toList, isSpace x = true) ∧
      (s.s4.toList ≠ [] ∧ ∀ x ∈ s.s4.toList, isSpace x = true)) ∧
    ((∀ x ∈ s.s5.toList, isSpace x = true) ∧ (∀ x ∈ s.s6.toList, isSpace x = true) ∧
      (∀ x ∈ s.s7.toList, isSpace x = true) ∧ (∀ x ∈ s.s8.toList, isSpace x = true)) ∧
    ((∀ x ∈ s.s9.toList, isSpace x = true) ∧ (∀ x ∈ s.s10.toList, isSpace x = true) ∧
      (∀ x ∈ s.s11.toList, isSpace x = true) ∧ (∀ x ∈ s.s12.toList, isSpace x = true)) := by
  simp [Stanza.shaped, isBlank, List.all_eq_true, List.isEmpty_iff, and_assoc]

/-- Part of `bindLine` after the zone name and its closing quote, on the rest of a stanza
in which the `;` follows the master at once. -/
theorem bindLine_tail_stanza (w1 w2 w3 w4 P w5 w6 w7 M w9 w10 w11 w12 : List Char)
    (pos : Nat) (caps : Nat → Option (List Char))
    (h1 : ∀ x ∈ w1, isSpace x = true) (h2 : ∀ x ∈ w2, isSpace x = true) (h2ne : w2 ≠ [])
    (h3 : ∀ x ∈ w3, isSpace x = true) (h4 : ∀ x ∈ w4, isSpace x = true) (h4ne : w4 ≠ [])
    (hP : ∀ x ∈ P, notQuote x = true) (hPne : P ≠ [])
    (h5 : ∀ x ∈ w5, isSpace x = true) (h6 : ∀ x ∈ w6, isSpace x = true)
    (h7 : ∀ x ∈ w7, isSpace x = true)
    (hM : M ≠ []) (hMsemi : ∀ x ∈ M, notSemicolon x = true)
    (hMhead : ∀ c ∈ M.head?, isSpace c = false)
    (h9 : ∀ x ∈ w9, isSpace x = true) (h10 : ∀ x ∈ w10, isSpace x = true)
    (h11 : ∀ x ∈ w11, isSpace x = true) (h12 : ∀ x ∈ w12, isSpace x = true) :
    ∃ p, (Regex.seq
      [ .star isSpace, .str "\x7btype", .plus isSpace, .str "slave;",
        .star isSpace, .str "file", .plus isSpace, .str "\"", .plus notQuote, .str "\";",
        .star isSpace, .str "masters", .star isSpace, .str "\x7b",
        .star isSpace, .group 2 (.plus notSemicolon), .star isSpace, .str ";",
        .star isSpace, .str "\x7d", .star isSpace, .str ";",
        .star isSpace, .str "\x7d", .star isSpace, .str ";" ]).run
      ⟨pos,
        w1 ++ ("\x7btype".toList ++ (w2 ++ ("slave;".toList ++ (w3 ++
        ("file".toList ++ (w4 ++ ("\"".toList ++ (P ++
        ("\";".toList ++ (w5 ++ ("masters".toList ++ (w6 ++
        ("\x7b".toList ++ (w7 ++ (M ++
        (";".toList ++ (w9 ++ ("\x7d".toList ++ (w10 ++
        (";".toList ++ (w11 ++ ("\x7d".toList ++ (w12 ++
        (";".toList ++ [])))))))))))))))))))))))),
        caps⟩ some
      = some ⟨p, [], Function.update caps 2 (some M)⟩ := by
  refine ⟨?_, ?_⟩
  swap
  refine seq_star _ _ _ _ _ _ _ _ h1 (by simp [isSpace]) ?_
  refine seq_str _ _ _ _ _ _ _ ?_
  refine seq_plus _ _ _ _ _ _ _ _ h2ne h2 (by simp [isSpace]) ?_
  refine seq_str _ _ _ _ _ _ _ ?_
  refine seq_star _ _ _ _ _ _ _ _ h3 (by simp [isSpace]) ?_
  refine seq_str _ _ _ _ _ _ _ ?_
  refine seq_plus _ _ _ _ _ _ _ _ h4ne h4 (by simp [isSpace]) ?_
  refine seq_str _ _ _ _ _ _ _ ?_
  refine seq_plus _ _ _ _ _ _ _ _ hPne hP (by simp [notQuote]) ?_
  refine seq_str _ _ _ _ _ _ _ ?_
  refine seq_star _ _ _ _ _ _ _ _ h5 (by simp [isSpace]) ?_
  refine seq_str _ _ _ _ _ _ _ ?_
  refine seq_star _ _ _ _ _ _ _ _ h6 (by simp [isSpace]) ?_
  refine seq_str _ _ _ _ _ _ _ ?_
  refine seq_star _ _ _ _ _ _ _ _ h7 ?_ ?_
  · intro c hc
    apply hMhead c
    cases M with
    | nil => exact absurd rfl hM
    | cons a as => simpa using hc
  refine seq_group_plus _ _ _ _ _ _ _ _ _ hM hMsemi (by simp [notSemicolon]) ?_
  refine seq_star_none _ _ _ _ _ _ _ (by simp [isSpace]) ?_
  refine seq_str _ _ _ _ _ _ _ ?_
  refine seq_star _ _ _ _ _ _ _ _ h9 (by simp [isSpace]) ?_
  refine seq_str _ _ _ _ _ _ _ ?_
  refine seq_star _ _ _ _ _ _ _ _ h10 (by simp [isSpace]) ?_
  refine seq_str _ _ _ _ _ _ _ ?_
  refine seq_star _ _ _ _ _ _ _ _ h11 (by simp [isSpace]) ?_
  refine seq_str _ _ _ _ _ _ _ ?_
  refine seq_star _ _ _ _ _ _ _ _ h12 (by simp [isSpace]) ?_
  refine seq_str _ _ _ _ _ _ _ ?_
  exact rfl


theorem head_append_cons (w : List Char) (c : Char) (rest : List Char) (q : Char → Bool)
    (hw : ∀ x ∈ w, q x = false) (hc : q c = false) :
    ∀ d ∈ (w ++ c :: rest).head?, q d = false := by
  intro d hd
  cases w with
  | nil =>
    simp only [List.nil_append, List.head?_cons, Option.mem_def, Option.some.injEq] at hd
    rw [← hd]
    exact hc
  | cons a as =>
    simp only [List.cons_append, List.head?_cons, Option.mem_def, Option.some.injEq] at hd
    rw [← hd]
    exact hw a (List.mem_cons_self _ _)

theorem str_quote_fail_head {α : Type} (L : List Char) (pos : Nat)
    (caps : Nat → Option (List Char)) (k : MState → Option α)
    (h : ∀ c ∈ L.head?, notQuote c = true) :
    (Regex.str "\"").run ⟨pos, L, caps⟩ k = none := by
  cases L with
  | nil =>
    have hs : "\"".toList = [Char.ofNat 34] := by decide
    simp only [Regex.str, hs, List.map, Regex.seq, Regex.run, Regex.lit]
  | cons c cs => exact str_quote_fail c cs pos caps k (h c (by simp))

/-- On every proper stanza of the shape, `parseLine` finds the master and the zone of the
stanza. -/
theorem parseLine_stanza (s : Stanza) (hs : s.shaped = true) (hp : s.proper = true) :
    parseLine s.text = .ok (true, s.master, s.zone) := by
  obtain ⟨⟨hZne, hZ⟩, ⟨hPne, hP⟩, ⟨hMne, hM⟩, ⟨h1, ⟨h2ne, h2⟩, h3, h4ne, h4⟩,
    ⟨h5, h6, h7, _⟩, h9, h10, h11, h12⟩ := s.shaped_iff.mp hs
  simp only [Stanza.proper, Bool.and_eq_true, beq_iff_eq, List.isEmpty_iff] at hp
  obtain ⟨⟨⟨hq, hMhead⟩, _⟩, h8⟩ := hp
  have hMhead2 : ∀ c ∈ s.master.toList.head?, isSpace c = false := by
    intro c hc
    cases hh : s.master.toList.head? with
    | none => rw [hh] at hc; cases hc
    | some d =>
      rw [hh] at hc hMhead
      cases hc
      simpa using hMhead
  have hZq : ∀ x ∈ s.zone.toList, notQuote x = true :=
    fun x hx => notQuote_of_isZoneChar x (hZ x hx)
  have hsz : ∀ x ∈ s.s1.toList, isZoneChar x = false := by
    intro x hx
    simp [isZoneChar, h1 x hx]
  have hsq : ∀ x ∈ s.s1.toList, notQuote x = true := by
    intro x hx
    have := h1 x hx
    simp only [notQuote, Bool.not_eq_true', beq_eq_false_iff_ne, ne_eq]
    rintro rfl
    revert this
    decide
  have htail := fun (pos : Nat) (caps : Nat → Option (List Char)) =>
    bindLine_tail_stanza s.s1.toList s.s2.toList s.s3.toList s.s4.toList
      s.path.toList s.s5.toList s.s6.toList s.s7.toList s.master.toList s.s9.toList
      s.s10.toList s.s11.toList s.s12.toList pos caps h1 h2 h2ne h3 h4 h4ne hP hPne h5 h6 h7
      hMne hM hMhead2 h9 h10 h11 h12
  have htext := s.text_toList
  rw [h8, List.nil_append] at htext
  cases hoq : s.openQuote with
  | true =>
    have hcq : s.closeQuote = true := by rw [← hq, hoq]
    rw [hoq, hcq] at htext
    simp only [if_true] at htext
    refine parseLine_of_run _ _ s.zone.toList s.master.toList ?_ htext
      ⟨_, _, rfl, by decide, by decide⟩ ?_
    swap
    unfold bindLine
    refine seq_str _ _ _ _ _ _ _ ?_
    refine seq_opt_take _ _ _ _ _ _ _ ?_
    refine seq_group_plus _ _ _ _ _ _ _ _ _ hZne hZ (by simp [isZoneChar]) ?_
    refine seq_opt_take _ _ _ _ _ _ _ ?_
    exact (htail _ _).choose_spec
  | false =>
    have hcq : s.closeQuote = false := by rw [← hq, hoq]
    rw [hoq, hcq] at htext
    simp only [Bool.false_eq_true, if_false, List.nil_append] at htext
    refine parseLine_of_run _ _ s.zone.toList s.master.toList ?_ htext
      ⟨_, _, rfl, by decide, by decide⟩ ?_
    swap
    unfold bindLine
    refine seq_str _ _ _ _ _ _ _ ?_
    refine seq_opt_skip _ _ _ _ _ _ _ ?_ ?_
    · intro k1
      apply str_quote_fail_head
      intro c hc
      cases hz : s.zone.toList with
      | nil => exact absurd hz hZne
      | cons a as =>
        rw [hz] at hc
        simp only [List.cons_append, List.head?_cons, Option.mem_def, Option.some.injEq] at hc
        rw [← hc]
        exact hZq a (by rw [hz]; exact List.mem_cons_self _ _)
    refine seq_group_plus _ _ _ _ _ _ _ _ _ hZne hZ ?_ ?_
    · exact head_append_cons s.s1.toList (Char.ofNat 123) _ isZoneChar hsz (by decide)
    refine seq_opt_skip _ _ _ _ _ _ _ ?_ ?_
    · intro k1
      apply str_quote_fail_head
      intro c hc
      have := head_append_cons s.s1.toList (Char.ofNat 123) _ (fun x => !notQuote x)
        (fun x hx => by simp [hsq x hx]) (by decide) c hc
      simpa using this
    exact (htail _ _).choose_spec

theorem run_lits_inv (l L : List Char) (pos : Nat) (caps : Nat → Option (List Char))
    (k : MState → Option α) (a : α)
    (h : (Regex.seq (l.map Regex.lit)).run ⟨pos, L, caps⟩ k = some a) :
    ∃ rest, L = l ++ rest ∧ k ⟨pos + l.length, rest, caps⟩ = some a := by
  induction l generalizing pos L with
  | nil => exact ⟨L, rfl, h⟩
  | cons c l ih =>
    simp only [List.map_cons, run_seq_cons, Regex.lit, Regex.run] at h
    cases L with
    | nil => simp at h
    | cons d ds =>
      simp only at h
      by_cases hd : (d == c) = true
      · rw [if_pos hd] at h
        obtain ⟨rest, hds, hk⟩ := ih ds (pos + 1) h
        refine ⟨rest, ?_, ?_⟩
        · rw [hds, List.cons_append, beq_iff_eq.mp hd]
        · rw [← hk]
          simp only [List.length_cons]
          rw [Nat.add_assoc, Nat.add_comm 1]
      · rw [if_neg hd] at h
        cases h

theorem seq_str_inv (s : String) (rs : List Regex) (L : List Char) (pos : Nat)
    (caps : Nat → Option (List Char)) (k : MState → Option α) (a : α)
    (h : (Regex.seq (Regex.str s :: rs)).run ⟨pos, L, caps⟩ k = some a) :
    ∃ rest, L = s.toList ++ rest ∧
      (Regex.seq rs).run ⟨pos + s.toList.length, rest, caps⟩ k = some a := by
  rw [run_seq_cons] at h
  exact run_lits_inv s.toList L pos caps _ a h

theorem starRun_inv (p : Char → Bool) (caps : Nat → Option (List Char))
    (k : MState → Option α) (L : List Char) (pos : Nat) (a : α)
    (h : starRun p caps k pos L = some a) :
    ∃ xs rest, L = xs ++ rest ∧ (∀ x ∈ xs, p x = true) ∧
      k ⟨pos + xs.length, rest, caps⟩ = some a := by
  induction L generalizing pos with
  | nil =>
    rw [starRun] at h
    exact ⟨[], [], rfl, fun _ hx => absurd hx (List.not_mem_nil _), h⟩
  | cons c cs ih =>
    rw [starRun] at h
    by_cases hc : p c = true
    · rw [if_pos hc] at h
      cases hr : starRun p caps k (pos + 1) cs with
      | some b =>
        rw [hr] at h
        simp only [Option.some.injEq] at h
        subst h
        obtain ⟨xs, rest, hcs, hall, hk⟩ := ih (pos + 1) hr
        refine ⟨c :: xs, rest, ?_, ?_, ?_⟩
        · rw [hcs, List.cons_append]
        · intro x hx
          rcases List.mem_cons.mp hx with rfl | hx
          · exact hc
          · exact hall x hx
        · rw [← hk]
          simp only [List.length_cons]
          rw [Nat.add_assoc, Nat.add_comm 1]
      | none =>
        rw [hr] at h
        exact ⟨[], c :: cs, rfl, fun _ hx => absurd hx (List.not_mem_nil _), h⟩
    · rw [if_neg hc] at h
      exact ⟨[], c :: cs, rfl, fun _ hx => absurd hx (List.not_mem_nil _), h⟩

theorem seq_star_inv (p : Char → Bool) (rs : List Regex) (L : List Char) (pos : Nat)
    (caps : Nat → Option (List Char)) (k : MState → Option α) (a : α)
    (h : (Regex.seq (Regex.star p :: rs)).run ⟨pos, L, caps⟩ k = some a) :
    ∃ xs rest, L = xs ++ rest ∧ (∀ x ∈ xs, p x = true) ∧
      (Regex.seq rs).run ⟨pos + xs.length, rest, caps⟩ k = some a := by
  rw [run_seq_cons] at h
  exact starRun_inv p caps _ L pos a h

theorem plus_inv (p : Char → Bool) (L : List Char) (pos : Nat)
    (caps : Nat → Option (List Char)) (k : MState → Option α) (a : α)
    (h : (Regex.plus p).run ⟨pos, L, caps⟩ k = some a) :
    ∃ xs rest, L = xs ++ rest ∧ xs ≠ [] ∧ (∀ x ∈ xs, p x = true) ∧
      k ⟨pos + xs.length, rest, caps⟩ = some a := by
  simp only [Regex.plus, Regex.run] at h
  cases L with
  | nil => simp at h
  | cons c cs =>
    simp only at h
    by_cases hc : p c = true
    · rw [if_pos hc] at h
      obtain ⟨xs, rest, hcs, hall, hk⟩ := starRun_inv p caps k cs (pos + 1) a h
      refine ⟨c :: xs, rest, ?_, List.cons_ne_nil _ _, ?_, ?_⟩
      · rw [hcs, List.cons_append]
      · intro x hx
        rcases List.mem_cons.mp hx with rfl | hx
        · exact hc
        · exact hall x hx
      · rw [← hk]
        simp only [List.length_cons]
        rw [Nat.add_assoc, Nat.add_comm 1]
    · rw [if_neg hc] at h
      cases h

theorem seq_plus_inv (p : Char → Bool) (rs : List Regex) (L : List Char) (pos : Nat)
    (caps : Nat → Option (List Char)) (k : MState → Option α) (a : α)
    (h : (Regex.seq (Regex.plus p :: rs)).run ⟨pos, L, caps⟩ k = some a) :
    ∃ xs rest, L = xs ++ rest ∧ xs ≠ [] ∧ (∀ x ∈ xs, p x = true) ∧
      (Regex.seq rs).run ⟨pos + xs.length, rest, caps⟩ k = some a := by
  rw [run_seq_cons] at h
  exact plus_inv p L pos caps _ a h

theorem seq_group_plus_inv (i : Nat) (p : Char → Bool) (rs : List Regex) (L : List Char)
    (pos : Nat) (caps : Nat → Option (List Char)) (k : MState → Option α) (a : α)
    (h : (Regex.seq (Regex.group i (Regex.plus p) :: rs)).run ⟨pos, L, caps⟩ k = some a) :
    ∃ xs rest, L = xs ++ rest ∧ xs ≠ [] ∧ (∀ x ∈ xs, p x = true) ∧
      (Regex.seq rs).run ⟨pos + xs.length, rest, Function.update caps i (some xs)⟩ k
        = some a := by
  rw [run_seq_cons] at h
  simp only [Regex.run] at h
  obtain ⟨xs, rest, hL, hne, hall, hk⟩ := plus_inv p L pos caps _ a h
  refine ⟨xs, rest, hL, hne, hall, ?_⟩
  rw [← hk, hL]
  simp only [Nat.add_sub_cancel_left, List.take_left']

theorem seq_opt_str_inv (s : String) (rs : List Regex) (L : List Char) (pos : Nat)
    (caps : Nat → Option (List Char)) (k : MState → Option α) (a : α)
    (h : (Regex.seq (Regex.opt (Regex.str s) :: rs)).run ⟨pos, L, caps⟩ k = some a) :
    ∃ (b : Bool) (rest : List Char), L = (if b then s.toList else []) ++ rest ∧
      (Regex.seq rs).run ⟨pos + (if b then s.toList else []).length, rest, caps⟩ k
        = some a := by
  rw [run_seq_cons] at h
  simp only [Regex.run] at h
  cases hr : (Regex.str s).run ⟨pos, L, caps⟩ (fun t => (Regex.seq rs).run t k) with
  | some b =>
    rw [hr] at h
    simp only [Option.some.injEq] at h
    subst h
    obtain ⟨rest, hL, hk⟩ := run_lits_inv s.toList L pos caps _ b hr
    exact ⟨true, rest, by simpa using hL, by simpa using hk⟩
  | none =>
    rw [hr] at h
    exact ⟨false, L, by simp, by simpa using h⟩

/-- A match found by the search starts somewhere in the text. -/
theorem searchFrom_inv (r : Regex) (L : List Char) (pos : Nat) (t : MState)
    (h : r.searchFrom pos L = some t) :
    ∃ pre suf, L = pre ++ suf ∧
      r.run ⟨pos + pre.length, suf, fun _ => none⟩ some = some t := by
  induction L generalizing pos with
  | nil =>
    rw [Regex.searchFrom] at h
    exact ⟨[], [], rfl, h⟩
  | cons c cs ih =>
    rw [Regex.searchFrom] at h
    cases hr : r.run ⟨pos, c :: cs, fun _ => none⟩ some with
    | some b =>
      rw [hr] at h
      simp only [Option.some.injEq] at h
      subst h
      exact ⟨[], c :: cs, rfl, hr⟩
    | none =>
      rw [hr] at h
      obtain ⟨pre, suf, hcs, hk⟩ := ih (pos + 1) h
      refine ⟨c :: pre, suf, ?_, ?_⟩
      · rw [hcs, List.cons_append]
      · rw [← hk]
        simp only [List.length_cons]
        rw [Nat.add_assoc, Nat.add_comm 1]

/-- What `bindLine` matches at the start of a text is a stanza of the shape. -/
theorem stanza_of_bindLine_run (L : List Char) (pos : Nat) (caps : Nat → Option (List Char))
    (t : MState) (h : bindLine.run ⟨pos, L, caps⟩ some = some t) :
    ∃ (s : Stanza) (post : List Char), s.shaped = true ∧ L = s.text.toList ++ post := by
  unfold bindLine at h
  obtain ⟨r0, e0, h⟩ := seq_str_inv _ _ _ _ _ _ _ h
  obtain ⟨oq, r1, e1, h⟩ := seq_opt_str_inv _ _ _ _ _ _ _ h
  obtain ⟨Z, r2, e2, hZne, hZ, h⟩ := seq_group_plus_inv _ _ _ _ _ _ _ _ h
  obtain ⟨cq, r3, e3, h⟩ := seq_opt_str_inv _ _ _ _ _ _ _ h
  obtain ⟨w1, r4, e4, h1, h⟩ := seq_star_inv _ _ _ _ _ _ _ h
  obtain ⟨r5, e5, h⟩ := seq_str_inv _ _ _ _ _ _ _ h
  obtain ⟨w2, r6, e6, h2ne, h2, h⟩ := seq_plus_inv _ _ _ _ _ _ _ h
  obtain ⟨r7, e7, h⟩ := seq_str_inv _ _ _ _ _ _ _ h
  obtain ⟨w3, r8, e8, h3, h⟩ := seq_star_inv _ _ _ _ _ _ _ h
  obtain ⟨r9, e9, h⟩ := seq_str_inv _ _ _ _ _ _ _ h
  obtain ⟨w4, r10, e10, h4ne, h4, h⟩ := seq_plus_inv _ _ _ _ _ _ _ h
  obtain ⟨r11, e11, h⟩ := seq_str_inv _ _ _ _ _ _ _ h
  obtain ⟨P, r12, e12, hPne, hP, h⟩ := seq_plus_inv _ _ _ _ _ _ _ h
  obtain ⟨r13, e13, h⟩ := seq_str_inv _ _ _ _ _ _ _ h
  obtain ⟨w5, r14, e14, h5, h⟩ := seq_star_inv _ _ _ _ _ _ _ h
  obtain ⟨r15, e15, h⟩ := seq_str_inv _ _ _ _ _ _ _ h
  obtain ⟨w6, r16, e16, h6, h⟩ := seq_star_inv _ _ _ _ _ _ _ h
  obtain ⟨r17, e17, h⟩ := seq_str_inv _ _ _ _ _ _ _ h
  obtain ⟨w7, r18, e18, h7, h⟩ := seq_star_inv _ _ _ _ _ _ _ h
  obtain ⟨M, r19, e19, hMne, hM, h⟩ := seq_group_plus_inv _ _ _ _ _ _ _ _ h
  obtain ⟨w8, r20, e20, h8, h⟩ := seq_star_inv _ _ _ _ _ _ _ h
  obtain ⟨r21, e21, h⟩ := seq_str_inv _ _ _ _ _ _ _ h
  obtain ⟨w9, r22, e22, h9, h⟩ := seq_star_inv _ _ _ _ _ _ _ h
  obtain ⟨r23, e23, h⟩ := seq_str_inv _ _ _ _ _ _ _ h
  obtain ⟨w10, r24, e24, h10, h⟩ := seq_star_inv _ _ _ _ _ _ _ h
  obtain ⟨r25, e25, h⟩ := seq_str_inv _ _ _ _ _ _ _ h
  obtain ⟨w11, r26, e26, h11, h⟩ := seq_star_inv _ _ _ _ _ _ _ h
  obtain ⟨r27, e27, h⟩ := seq_str_inv _ _ _ _ _ _ _ h
  obtain ⟨w12, r28, e28, h12, h⟩ := seq_star_inv _ _ _ _ _ _ _ h
  obtain ⟨r29, e29, h⟩ := seq_str_inv _ _ _ _ _ _ _ h
  refine ⟨{ openQuote := oq, zone := String.mk Z, closeQuote := cq, path := String.mk P,
            master := String.mk M, s1 := String.mk w1, s2 := String.mk w2,
            s3 := String.mk w3, s4 := String.mk w4, s5 := String.mk w5,
            s6 := String.mk w6, s7 := String.mk w7, s8 := String.mk w8,
            s9 := String.mk w9, s10 := String.mk w10, s11 := String.mk w11,
            s12 := String.mk w12 }, r29, ?_, ?_⟩
  · rw [Stanza.shaped_iff]
    exact ⟨⟨hZne, hZ⟩, ⟨hPne, hP⟩, ⟨hMne, hM⟩, ⟨h1, ⟨h2ne, h2⟩, h3, h4ne, h4⟩,
      ⟨h5, h6, h7, h8⟩, h9, h10, h11, h12⟩
  · rw [Stanza.text_toList]
    subst e29 e28 e27 e26 e25 e24 e23 e22 e21 e20 e19 e18 e17 e16 e15 e14 e13 e12 e11 e10 e9
      e8 e7 e6 e5 e4 e3 e2 e1 e0
    simp only [String.toList, List.append_assoc, List.nil_append]



theorem seq_str_isSome (s : String) (rs : List Regex) (rest : List Char) (pos : Nat)
    (caps : Nat → Option (List Char)) (k : MState → Option α)
    (h : ((Regex.seq rs).run ⟨pos + s.toList.length, rest, caps⟩ k).isSome = true) :
    ((Regex.seq (Regex.str s :: rs)).run ⟨pos, s.toList ++ rest, caps⟩ k).isSome = true := by
  rw [run_seq_cons, run_str]
  exact h

/-- Greedy star finds a match whenever what follows matches after some block. -/
theorem starRun_isSome (p : Char → Bool) (caps : Nat → Option (List Char))
    (k : MState → Option α) (xs rest : List Char) (pos : Nat)
    (hall : ∀ x ∈ xs, p x = true)
    (h : (k ⟨pos + xs.length, rest, caps⟩).isSome = true) :
    (starRun p caps k pos (xs ++ rest)).isSome = true := by
  induction xs generalizing pos with
  | nil =>
    simp only [List.nil_append, List.length_nil, Nat.add_zero] at h ⊢
    cases rest with
    | nil => simpa [starRun] using h
    | cons c cs =>
      rw [starRun]
      by_cases hc : p c = true
      · rw [if_pos hc]
        cases hr : starRun p caps k (pos + 1) cs with
        | some b => rfl
        | none => exact h
      · rw [if_neg hc]
        exact h
  | cons x xs ih =>
    have hx : p x = true := hall x (List.mem_cons_self _ _)
    have := ih (pos + 1) (fun y hy => hall y (List.mem_cons_of_mem _ hy))
      (by rw [← h]; simp only [List.length_cons]; rw [Nat.add_assoc, Nat.add_comm 1])
    rw [List.cons_append, starRun, if_pos hx]
    cases hr : starRun p caps k (pos + 1) (xs ++ rest) with
    | some b => rfl
    | none => rw [hr] at this; cases this

theorem seq_star_isSome (p : Char → Bool) (rs : List Regex) (xs rest : List Char) (pos : Nat)
    (caps : Nat → Option (List Char)) (k : MState → Option α)
    (hall : ∀ x ∈ xs, p x = true)
    (h : ((Regex.seq rs).run ⟨pos + xs.length, rest, caps⟩ k).isSome = true) :
    ((Regex.seq (Regex.star p :: rs)).run ⟨pos, xs ++ rest, caps⟩ k).isSome = true := by
  rw [run_seq_cons]
  exact starRun_isSome p caps _ xs rest pos hall h

theorem plus_isSome (p : Char → Bool) (xs rest : List Char) (pos : Nat)
    (caps : Nat → Option (List Char)) (k : MState → Option α)
    (hne : xs ≠ []) (hall : ∀ x ∈ xs, p x = true)
    (h : (k ⟨pos + xs.length, rest, caps⟩).isSome = true) :
    ((Regex.plus p).run ⟨pos, xs ++ rest, caps⟩ k).isSome = true := by
  cases xs with
  | nil => exact absurd rfl hne
  | cons x xs =>
    have hx : p x = true := hall x (List.mem_cons_self _ _)
    simp only [Regex.plus, Regex.run, List.cons_append, hx, if_true]
    apply starRun_isSome p caps k xs rest (pos + 1)
      (fun y hy => hall y (List.mem_cons_of_mem _ hy))
    rw [← h]
    simp only [List.length_cons]
    rw [Nat.add_assoc, Nat.add_comm 1]

theorem seq_plus_isSome (p : Char → Bool) (rs : List Regex) (xs rest : List Char) (pos : Nat)
    (caps : Nat → Option (List Char)) (k : MState → Option α)
    (hne : xs ≠ []) (hall : ∀ x ∈ xs, p x = true)
    (h : ((Regex.seq rs).run ⟨pos + xs.length, rest, caps⟩ k).isSome = true) :
    ((Regex.seq (Regex.plus p :: rs)).run ⟨pos, xs ++ rest, caps⟩ k).isSome = true := by
  rw [run_seq_cons]
  exact plus_isSome p xs rest pos caps _ hne hall h

/-- A group finds a match whenever what follows matches whatever the group has captured. -/
theorem seq_group_plus_isSome (i : Nat) (p : Char → Bool) (rs : List Regex)
    (xs rest : List Char) (pos : Nat) (caps : Nat → Option (List Char))
    (k : MState → Option α) (hne : xs ≠ []) (hall : ∀ x ∈ xs, p x = true)
    (h : ∀ caps1, ((Regex.seq rs).run ⟨pos + xs.length, rest, caps1⟩ k).isSome = true) :
    ((Regex.seq (Regex.group i (Regex.plus p) :: rs)).run ⟨pos, xs ++ rest, caps⟩ k).isSome
      = true := by
  rw [run_seq_cons]
  simp only [Regex.run]
  apply plus_isSome p xs rest pos caps _ hne hall
  exact h _

theorem seq_opt_str_isSome (s : String) (rs : List Regex) (rest : List Char) (pos : Nat)
    (caps : Nat → Option (List Char)) (k : MState → Option α) (b : Bool)
    (h : ((Regex.seq rs).run ⟨pos + (if b then s.toList else []).length, rest, caps⟩ k).isSome
      = true) :
    ((Regex.seq (Regex.opt (Regex.str s) :: rs)).run
      ⟨pos, (if b then s.toList else []) ++ rest, caps⟩ k).isSome = true := by
  rw [run_seq_cons]
  simp only [Regex.run]
  cases b with
  | true =>
    simp only [if_true] at h ⊢
    rw [run_str]
    cases hr : (Regex.seq rs).run ⟨pos + s.toList.length, rest, caps⟩ k with
    | some a => rfl
    | none => rw [hr] at h; cases h
  | false =>
    simp only [Bool.false_eq_true, if_false, List.nil_append, List.length_nil,
      Nat.add_zero] at h ⊢
    cases hr : (Regex.str s).run ⟨pos, rest, caps⟩ (fun t => (Regex.seq rs).run t k) with
    | some a => rfl
    | none => exact h

/-- The search finds a match whenever the pattern matches somewhere in the text. -/
theorem searchFrom_isSome (r : Regex) (pre suf : List Char) (pos : Nat)
    (h : (r.run ⟨pos + pre.length, suf, fun _ => none⟩ some).isSome = true) :
    (r.searchFrom pos (pre ++ suf)).isSome = true := by
  induction pre generalizing pos with
  | nil =>
    simp only [List.nil_append, List.length_nil, Nat.add_zero] at h ⊢
    cases suf with
    | nil =>
      rw [Regex.searchFrom]
      exact h
    | cons c cs =>
      rw [Regex.searchFrom]
      cases hr : r.run ⟨pos, c :: cs, fun _ => none⟩ some with
      | some a => rfl
      | none => rw [hr] at h; cases h
  | cons a pre ih =>
    rw [List.cons_append, Regex.searchFrom]
    cases hr : r.run ⟨pos, a :: (pre ++ suf), fun _ => none⟩ some with
    | some b => rfl
    | none =>
      apply ih (pos + 1)
      rw [← h]
      simp only [List.length_cons]
      rw [Nat.add_assoc, Nat.add_comm 1]


/-- `bindLine` matches at the start of every text that starts with a stanza of the shape. -/
theorem bindLine_isSome_of_stanza (s : Stanza) (hs : s.shaped = true) (post : List Char)
    (pos : Nat) (caps : Nat → Option (List Char)) :
    (bindLine.run ⟨pos, s.text.toList ++ post, caps⟩ some).isSome = true := by
  obtain ⟨⟨hZne, hZ⟩, ⟨hPne, hP⟩, ⟨hMne, hM⟩, ⟨h1, ⟨h2ne, h2⟩, h3, h4ne, h4⟩,
    ⟨h5, h6, h7, h8⟩, h9, h10, h11, h12⟩ := s.shaped_iff.mp hs
  rw [Stanza.text_toList]
  simp only [List.append_assoc, List.nil_append]
  unfold bindLine
  refine seq_str_isSome _ _ _ _ _ _ ?_
  refine seq_opt_str_isSome _ _ _ _ _ _ _ ?_
  refine seq_group_plus_isSome _ _ _ _ _ _ _ _ hZne hZ ?_
  intro caps1
  refine seq_opt_str_isSome _ _ _ _ _ _ _ ?_
  refine seq_star_isSome _ _ _ _ _ _ _ h1 ?_
  refine seq_str_isSome _ _ _ _ _ _ ?_
  refine seq_plus_isSome _ _ _ _ _ _ _ h2ne h2 ?_
  refine seq_str_isSome _ _ _ _ _ _ ?_
  refine seq_star_isSome _ _ _ _ _ _ _ h3 ?_
  refine seq_str_isSome _ _ _ _ _ _ ?_
  refine seq_plus_isSome _ _ _ _ _ _ _ h4ne h4 ?_
  refine seq_str_isSome _ _ _ _ _ _ ?_
  refine seq_plus_isSome _ _ _ _ _ _ _ hPne hP ?_
  refine seq_str_isSome _ _ _ _ _ _ ?_
  refine seq_star_isSome _ _ _ _ _ _ _ h5 ?_
  refine seq_str_isSome _ _ _ _ _ _ ?_
  refine seq_star_isSome _ _ _ _ _ _ _ h6 ?_
  refine seq_str_isSome _ _ _ _ _ _ ?_
  refine seq_star_isSome _ _ _ _ _ _ _ h7 ?_
  refine seq_group_plus_isSome _ _ _ _ _ _ _ _ hMne hM ?_
  intro caps2
  refine seq_star_isSome _ _ _ _ _ _ _ h8 ?_
  refine seq_str_isSome _ _ _ _ _ _ ?_
  refine seq_star_isSome _ _ _ _ _ _ _ h9 ?_
  refine seq_str_isSome _ _ _ _ _ _ ?_
  refine seq_star_isSome _ _ _ _ _ _ _ h10 ?_
  refine seq_str_isSome _ _ _ _ _ _ ?_
  refine seq_star_isSome _ _ _ _ _ _ _ h11 ?_
  refine seq_str_isSome _ _ _ _ _ _ ?_
  refine seq_star_isSome _ _ _ _ _ _ _ h12 ?_
  refine seq_str_isSome _ _ _ _ _ _ ?_
  rfl

/-- The code's pattern finds a match in a line iff the line holds a stanza of the shape. -/
theorem FindStringSubmatch_isSome_iff (line : String) :
    (bindLine.FindStringSubmatch line).isSome = true ↔ containsStanza line := by
  constructor
  · intro h
    unfold Regex.FindStringSubmatch at h
    cases hr : bindLine.searchFrom 0 line.toList with
    | none => rw [hr] at h; cases h
    | some t =>
      obtain ⟨pre, suf, hL, hrun⟩ := searchFrom_inv bindLine line.toList 0 t hr
      obtain ⟨s, post, hs, hsuf⟩ := stanza_of_bindLine_run suf _ _ t hrun
      refine ⟨s, pre, post, hs, ?_⟩
      rw [hL, hsuf, List.append_assoc]
  · rintro ⟨s, pre, post, hs, hL⟩
    have h := searchFrom_isSome bindLine pre (s.text.toList ++ post) 0
      (bindLine_isSome_of_stanza s hs post _ _)
    unfold Regex.FindStringSubmatch
    rw [hL, List.append_assoc]
    cases hr : bindLine.searchFrom 0 (pre ++ (s.text.toList ++ post)) with
    | none => rw [hr] at h; cases h
    | some t => rfl


end Grammar

/-! ## Bootstrap on a reader -/

section BootstrapClaims

variable {E : Type}

/-- A stanza of the shape holds a `{`. -/
theorem mem_brace_of_containsStanza (line : String) (h : containsStanza line) :
    Char.ofNat 123 ∈ line.toList := by
  obtain ⟨s, pre, post, _, hL⟩ := h
  have hb : Char.ofNat 123 ∈ "\x7btype".toList := by decide
  rw [hL, Stanza.text_toList]
  simp only [List.mem_append]
  exact Or.inl (Or.inr (Or.inr (Or.inr (Or.inr (Or.inr (Or.inr (Or.inl hb)))))))

theorem parseLine_wellFormed (item : DumpLine) (hwf : item.wellFormed = true)
    (hnl : Char.ofNat 10 ∉ item.text.toList) : parseLine item.text = .ok item.found := by
  cases item with
  | ignored line => exact parseLine_ignored line hnl hwf
  | stanza s =>
    simp only [DumpLine.wellFormed, Bool.and_eq_true] at hwf
    exact parseLine_stanza s hwf.1 hwf.2

/-- A line that holds a stanza of the shape does not make `parseLine` panic. -/
theorem parseLine_ok_of_containsStanza (line : String) (h : containsStanza line) :
    ∃ r, parseLine line = .ok r := by
  have hm := (FindStringSubmatch_isSome_iff line).mpr h
  unfold parseLine
  by_cases hi : ignoredLine.MatchString line = true
  · rw [if_pos hi]
    exact ⟨_, rfl⟩
  · rw [if_neg hi]
    cases hf : bindLine.FindStringSubmatch line with
    | none => rw [hf] at hm; cases hm
    | some pair => exact ⟨_, rfl⟩

/-- A line that is neither blank nor a comment and holds no stanza makes `parseLine`
panic. -/
theorem parseLine_error_of_no_stanza (line : String) (hnl : Char.ofNat 10 ∉ line.toList)
    (hblank : (blankLine line || commentLine line) = false) (hno : ¬ containsStanza line) :
    parseLine line = .error ("Invalid config line \"" ++ line ++ "\"") := by
  apply parseLine_invalid line hnl hblank
  cases hf : bindLine.FindStringSubmatch line with
  | none => rfl
  | some pair =>
    exact absurd ((FindStringSubmatch_isSome_iff line).mp (by rw [hf]; rfl)) hno

theorem loadLoop_no_panic (lines : List String) (zd : ZoneManager E) (w : World E)
    (h : ∀ line ∈ lines, ∃ r, parseLine line = .ok r) : (loadLoop lines zd w).panic = none := by
  induction lines generalizing zd w with
  | nil => rfl
  | cons line lines ih =>
    obtain ⟨⟨found, master, zone⟩, hp⟩ := h line (List.mem_cons_self _ _)
    rw [loadLoop_cons, hp]
    cases found with
    | true =>
      simp only [if_true]
      exact ih _ _ (fun l hl => h l (List.mem_cons_of_mem _ hl))
    | false =>
      simp only [Bool.false_eq_true, if_false]
      exact ih _ _ (fun l hl => h l (List.mem_cons_of_mem _ hl))

/-- The loop of `LoadZones` on lines that parse as the specification reads them does what
`addStanzas` does. -/
theorem loadLoop_refines (items : List DumpLine) (zd1 zd2 : ZoneManager E) (w1 w2 : World E)
    (hdata : zd1.toZoneData = zd2.toZoneData) (hadder : zd1.adder = LoadingZoneAdder)
    (hparse : ∀ item ∈ items, parseLine item.text = .ok item.found) :
    (loadLoop (items.map DumpLine.text) zd1 w1).panic = none ∧
    (loadLoop (items.map DumpLine.text) zd1 w1).zd.toZoneData
      = (addStanzas items zd2 w2).1.toZoneData := by
  induction items generalizing zd1 zd2 w1 w2 with
  | nil => exact ⟨rfl, hdata⟩
  | cons item items ih =>
    have hp := hparse item (List.mem_cons_self _ _)
    have hparse2 : ∀ it ∈ items, parseLine it.text = .ok it.found :=
      fun it hit => hparse it (List.mem_cons_of_mem _ hit)
    rw [List.map_cons, loadLoop_cons, hp]
    cases item with
    | ignored line =>
      simp only [DumpLine.found, Bool.false_eq_true, if_false, addStanzas]
      exact ih zd1 zd2 w1 w2 hdata hadder hparse2
    | stanza s =>
      simp only [DumpLine.found, if_true, addStanzas]
      apply ih
      · apply AddZone_data_congr
        · exact hdata
        · rw [hadder]; rfl
        · rfl
      · rw [AddZone_adder, hadder]
      · exact hparse2

/-- Whitespace before the `;` that ends the master stays in the master `parseLine` returns:
in `([^;]+)\s*;` the group takes all there is up to the `;`, and `\s*` nothing. -/
theorem parseLine_keeps_blank_before_semicolon :
    parseLine
        "zone \"a.org\" \x7btype slave; file \"slave/a.org.db\"; masters \x7b 10.0.0.1 ; \x7d;\x7d;"
      = .ok (true, "10.0.0.1 ", "a.org") := by
  decide

/-- Claim C10, as the code has it. For every reader whose text has only lines shorter than
65536 bytes (`MaxScanTokenSize`), each of them blank, a comment, or a proper stanza of the
shape of §4.2, `items` being the lines as the specification reads them: `LoadZones` ends without
panic and leaves the registry data, hence `GetZoneMap()`, `GetZones(m)` for every master
and `GetMasters()`, that `addStanzas` leaves, which is one `AddZone` under the no-op hook
per stanza, in line order, with the master and the zone of the stanza, and nothing for
the blank and comment lines. `parseLine` finds in every line what the specification reads
in it, and `os.Stderr` gets the error of the reader, if it has one, and nothing else. -/
theorem LoadZones_refines_addStanzas (zd : ZoneManager E) (reader : Reader)
    (items : List DumpLine) (w : World E)
    (hshort : ∀ l ∈ splitLines reader.data.toList, byteLength l < MaxScanTokenSize)
    (hitems : (splitLines reader.data.toList).map lineText = items.map DumpLine.text)
    (hwf : ∀ item ∈ items, item.wellFormed = true) :
    (LoadZones zd reader w).panic = none ∧
    GetZoneMap (LoadZones zd reader w).zd = GetZoneMap (addStanzas items zd w).1 ∧
    (∀ m, GetZones (LoadZones zd reader w).zd m = GetZones (addStanzas items zd w).1 m) ∧
    GetMasters (LoadZones zd reader w).zd = GetMasters (addStanzas items zd w).1 ∧
    (LoadZones zd reader w).zd.toZoneData = (addStanzas items zd w).1.toZoneData ∧
    (∀ item ∈ items, parseLine item.text = .ok item.found) ∧
    (LoadZones zd reader w).stderr
      = (reader.err.map (fun err => "reading standard input: " ++ err)).toList := by
  obtain ⟨htok, herr⟩ := scan_of_short reader hshort
  have htok2 : scanTokens reader.data = items.map DumpLine.text := htok.trans hitems
  have hparse : ∀ item ∈ items, parseLine item.text = .ok item.found := by
    intro item hi
    apply parseLine_wellFormed item (hwf item hi)
    apply scanTokens_no_newline reader.data
    rw [htok2]
    exact List.mem_map_of_mem _ hi
  obtain ⟨hpanic, hdata⟩ :=
    loadLoop_refines items { zd with adder := LoadingZoneAdder } zd w w rfl rfl hparse
  have ho := LoadZones_toLoadOutcome zd reader w
  rw [htok2] at ho
  obtain ⟨a1, a2, _⟩ := loadScanned_eq zd (items.map DumpLine.text) w
  have hp : (LoadZones zd reader w).panic = none :=
    (congrArg LoadOutcome.panic ho).trans (a1.trans hpanic)
  have hd : (LoadZones zd reader w).zd.toZoneData = (addStanzas items zd w).1.toZoneData :=
    (congrArg (fun o : LoadOutcome E => o.zd.toZoneData) ho).trans (a2.trans hdata)
  have hz : (LoadZones zd reader w).zd.zones = (addStanzas items zd w).1.zones :=
    congrArg ZoneData.zones hd
  have hm : (LoadZones zd reader w).zd.masters = (addStanzas items zd w).1.masters :=
    congrArg ZoneData.masters hd
  refine ⟨hp, ?_, ?_, ?_, hd, hparse, ?_⟩
  · unfold GetZoneMap
    rw [hz]
  · intro m
    unfold GetZones
    rw [hm]
  · unfold GetMasters
    rw [hm]
  · rw [LoadZones_stderr, hp, herr]
    cases reader.err with
    | none => rfl
    | some err => rfl

/-- Witness of C10: the dump of `TestLoadZones` loads without panic into the zone map
`test.com: 192.168.2.10, domain.tld: 10.10.29.19, something.net: 127.0.3.1`, three zones
in all. -/
theorem LoadZones_refines_addStanzas_witness :
    (LoadZones (NewZoneManager : ZoneManager Unit) ⟨testInput, none⟩ ⟨[], ()⟩).panic = none ∧
    (GetZoneMap (LoadZones (NewZoneManager : ZoneManager Unit) ⟨testInput, none⟩
      ⟨[], ()⟩).zd).lookup "test.com" = some "192.168.2.10" ∧
    (GetZoneMap (LoadZones (NewZoneManager : ZoneManager Unit) ⟨testInput, none⟩
      ⟨[], ()⟩).zd).lookup "domain.tld" = some "10.10.29.19" ∧
    (GetZoneMap (LoadZones (NewZoneManager : ZoneManager Unit) ⟨testInput, none⟩
      ⟨[], ()⟩).zd).lookup "something.net" = some "127.0.3.1" ∧
    (GetZoneMap (LoadZones (NewZoneManager : ZoneManager Unit) ⟨testInput, none⟩
      ⟨[], ()⟩).zd).entries.length = 3 :=
  have h := LoadZones_refines_addStanzas (NewZoneManager : ZoneManager Unit)
    ⟨testInput, none⟩ testItems ⟨[], ()⟩ (by decide) (by decide) (by decide)
  ⟨h.1, by rw [h.2.1]; decide, by rw [h.2.1]; decide, by rw [h.2.1]; decide,
    by rw [h.2.1]; decide⟩

theorem newline_not_mem_longComment : Char.ofNat 10 ∉ longComment := by
  intro h
  have := (List.mem_replicate.mp h).2
  revert this
  decide

theorem longComment_long : ¬ byteLength longComment < MaxScanTokenSize := by
  unfold longComment
  rw [byteLength_replicate]
  have h1 : (Char.ofNat 35).utf8Size = 1 := by decide
  rw [h1]
  omega

theorem dropCR_longComment : dropCR longComment = longComment := by
  unfold dropCR
  rw [if_neg]
  intro h
  have hm : Char.ofNat 13 ∈ longComment := List.mem_of_getLast?_eq_some h
  have := (List.mem_replicate.mp hm).2
  revert this
  decide

theorem commentLine_longComment : commentLine (String.mk longComment) = true := by
  have h : longComment = Char.ofNat 35 :: List.replicate 65535 (Char.ofNat 35) := rfl
  unfold commentLine
  show (match List.dropWhile isSpace longComment with
    | c :: _ => c == Char.ofNat 35
    | [] => false) = true
  rw [h]
  rfl

/-- Counterexample to C10 as stated: the dump of a comment line of 65536 bytes followed by
the stanza of `b.org` has only lines that are a comment or a proper stanza, and feeding
its stanzas to `AddZone` gives `b.org` the owner `10.0.0.1`; yet `LoadZones` returns
without panic with `b.org` not in the registry, the scanner having stopped at the long
line with `bufio.ErrTooLong`, which `LoadZones` writes to `os.Stderr`. -/
theorem LoadZones_stops_at_long_line :
    (splitLines longDump.toList).map lineText = longItems.map DumpLine.text ∧
    (∀ item ∈ longItems, item.wellFormed = true) ∧
    (GetZoneMap (addStanzas longItems (NewZoneManager : ZoneManager Unit)
      ⟨[], ()⟩).1).lookup "b.org" = some "10.0.0.1" ∧
    (LoadZones (NewZoneManager : ZoneManager Unit) ⟨longDump, none⟩ ⟨[], ()⟩).panic = none ∧
    (GetZoneMap (LoadZones (NewZoneManager : ZoneManager Unit) ⟨longDump, none⟩
      ⟨[], ()⟩).zd).lookup "b.org" = none ∧
    (LoadZones (NewZoneManager : ZoneManager Unit) ⟨longDump, none⟩ ⟨[], ()⟩).stderr
      = ["reading standard input: bufio.Scanner: token too long"] := by
  obtain ⟨htok, herr⟩ := scan_of_long longComment stanzaB.text.toList none
    newline_not_mem_longComment longComment_long
  have htok2 : scanTokens longDump = [] := htok
  have herr2 : scanErr ⟨longDump, none⟩ = some "bufio.Scanner: token too long" := herr
  have ho := LoadZones_toLoadOutcome (NewZoneManager : ZoneManager Unit) ⟨longDump, none⟩
    ⟨[], ()⟩
  rw [show scanTokens (⟨longDump, none⟩ : Reader).data = [] from htok2] at ho
  have hp : (LoadZones (NewZoneManager : ZoneManager Unit) ⟨longDump, none⟩ ⟨[], ()⟩).panic
      = none := (congrArg LoadOutcome.panic ho).trans rfl
  refine ⟨?_, ?_, by decide, hp, ?_, ?_⟩
  · show List.map lineText (splitLines (longComment ++ Char.ofNat 10 :: stanzaB.text.toList))
      = _
    rw [splitLines_append_newline _ _ newline_not_mem_longComment]
    have h1 : lineText longComment = String.mk longComment := by
      unfold lineText
      rw [dropCR_longComment]
    have h2 : splitLines stanzaB.text.toList = [stanzaB.text.toList] := by decide
    have h3 : lineText stanzaB.text.toList = stanzaB.text := by decide
    rw [h2]
    simp only [List.map_cons, List.map_nil, longItems, DumpLine.text, h1, h3]
  · intro item hi
    simp only [longItems, List.mem_cons, List.mem_singleton, List.not_mem_nil, or_false] at hi
    rcases hi with rfl | rfl
    · simp only [DumpLine.wellFormed, commentLine_longComment, Bool.or_true]
    · decide
  · exact (congrArg (fun o : LoadOutcome Unit => (GetZoneMap o.zd).lookup "b.org") ho).trans
      (by decide)
  · rw [LoadZones_stderr, hp, herr2]
    decide

/-- Claim C11, as the code has it. For every reader whose text has a line `bad` that is
neither blank nor a comment and holds no stanza of the shape of §4.2 anywhere in its text
(so that it is the first such line), while every
line before it is blank, a comment or holds such a stanza, and `bad` and the lines before
it are shorter than 65536 bytes (`MaxScanTokenSize`): `LoadZones` ends in the panic
`Invalid config line "<bad>"` with the exact text of `bad` (without the carriage return
that may end it), it writes nothing to `os.Stderr`, and the registry and the world are
those left by loading the lines before `bad` alone, so that no later line is added. -/
theorem LoadZones_aborts_at_invalid_line (zd : ZoneManager E) (reader : Reader)
    (pre post : List (List Char)) (bad : List Char) (w : World E)
    (hlines : splitLines reader.data.toList = pre ++ bad :: post)
    (hshort : ∀ l ∈ pre ++ [bad], byteLength l < MaxScanTokenSize)
    (hpre : ∀ l ∈ pre, (blankLine (lineText l) || commentLine (lineText l)) = true ∨
      containsStanza (lineText l))
    (hblank : (blankLine (lineText bad) || commentLine (lineText bad)) = false)
    (hnostanza : ¬ containsStanza (lineText bad)) :
    (LoadZones zd reader w).panic
      = some ("Invalid config line \"" ++ lineText bad ++ "\"") ∧
    (LoadZones zd reader w).zd.toZoneData
      = (loadScanned zd (pre.map lineText) w).zd.toZoneData ∧
    (LoadZones zd reader w).world = (loadScanned zd (pre.map lineText) w).world ∧
    GetZoneMap (LoadZones zd reader w).zd
      = GetZoneMap (loadScanned zd (pre.map lineText) w).zd ∧
    (∀ m, GetZones (LoadZones zd reader w).zd m
      = GetZones (loadScanned zd (pre.map lineText) w).zd m) ∧
    (LoadZones zd reader w).stderr = [] := by
  have hnl : ∀ l ∈ pre ++ [bad], Char.ofNat 10 ∉ (lineText l).toList := by
    intro l hl h
    apply splitLines_no_newline reader.data.toList l _ (mem_of_mem_dropCR l _ h)
    rw [hlines]
    rcases List.mem_append.mp hl with h1 | h1
    · exact List.mem_append_left _ h1
    · rw [List.mem_singleton.mp h1]
      exact List.mem_append_right _ (List.mem_cons_self _ _)
  have htok : scanTokens reader.data
      = pre.map lineText ++ lineText bad ::
          (post.takeWhile (fun l => decide (byteLength l < MaxScanTokenSize))).map lineText := by
    unfold scanTokens
    rw [hlines, List.takeWhile_append_of_pos, List.takeWhile_cons_of_pos, List.map_append,
      List.map_cons]
    · exact decide_eq_true (hshort bad (List.mem_append_right _ (List.mem_singleton_self _)))
    · intro l hl
      exact decide_eq_true (hshort l (List.mem_append_left _ hl))
  have hok : ∀ line ∈ pre.map lineText, ∃ r, parseLine line = .ok r := by
    intro line hline
    obtain ⟨l, hl, rfl⟩ := List.mem_map.mp hline
    rcases hpre l hl with h | h
    · exact ⟨_, parseLine_ignored _ (hnl l (List.mem_append_left _ hl)) h⟩
    · exact parseLine_ok_of_containsStanza _ h
  have hpanic := loadLoop_no_panic (pre.map lineText) { zd with adder := LoadingZoneAdder } w hok
  have hbad := parseLine_error_of_no_stanza (lineText bad)
    (hnl bad (List.mem_append_right _ (List.mem_singleton_self _))) hblank hnostanza
  have hloop : loadLoop (scanTokens reader.data) { zd with adder := LoadingZoneAdder } w
      = ⟨some ("Invalid config line \"" ++ lineText bad ++ "\""),
          (loadLoop (pre.map lineText) { zd with adder := LoadingZoneAdder } w).zd,
          (loadLoop (pre.map lineText) { zd with adder := LoadingZoneAdder } w).world⟩ := by
    rw [htok, loadLoop_append _ _ _ w hpanic, loadLoop_cons, hbad]
  have ho := LoadZones_toLoadOutcome zd reader w
  obtain ⟨a1, a2, a3, _⟩ := loadScanned_eq zd (scanTokens reader.data) w
  obtain ⟨b1, b2, b3, _⟩ := loadScanned_eq zd (pre.map lineText) w
  have hp : (LoadZones zd reader w).panic
      = some ("Invalid config line \"" ++ lineText bad ++ "\"") := by
    rw [show (LoadZones zd reader w).panic = (loadScanned zd (scanTokens reader.data) w).panic
      from congrArg LoadOutcome.panic ho, a1, hloop]
  have hd : (LoadZones zd reader w).zd.toZoneData
      = (loadScanned zd (pre.map lineText) w).zd.toZoneData := by
    rw [show (LoadZones zd reader w).zd.toZoneData
        = (loadScanned zd (scanTokens reader.data) w).zd.toZoneData
      from congrArg (fun o : LoadOutcome E => o.zd.toZoneData) ho, a2, b2, hloop]
  refine ⟨hp, hd, ?_, ?_, ?_, ?_⟩
  · rw [show (LoadZones zd reader w).world = (loadScanned zd (scanTokens reader.data) w).world
      from congrArg LoadOutcome.world ho, a3, b3, hloop]
  · unfold GetZoneMap
    rw [show (LoadZones zd reader w).zd.zones = (loadScanned zd (pre.map lineText) w).zd.zones
      from congrArg ZoneData.zones hd]
  · intro m
    unfold GetZones
    rw [show (LoadZones zd reader w).zd.masters
      = (loadScanned zd (pre.map lineText) w).zd.masters from congrArg ZoneData.masters hd]
  · rw [LoadZones_stderr, hp]

/-- Witness of C11: the dump `zone basis.es` of `TestLoadZones_Invalid` ends in the panic
`Invalid config line "zone basis.es"`; and put between two stanzas, the line keeps the
second one out of the registry. -/
theorem LoadZones_aborts_at_invalid_line_witness :
    (LoadZones (NewZoneManager : ZoneManager Unit) ⟨"zone basis.es", none⟩ ⟨[], ()⟩).panic
      = some "Invalid config line \"zone basis.es\"" ∧
    (GetZoneMap (LoadZones (NewZoneManager : ZoneManager Unit)
      ⟨"zone a.org \x7btype slave; file \"slave/a.org.db\"; masters \x7b 10.0.0.1; \x7d;\x7d;\nzone basis.es\nzone b.org \x7btype slave; file \"slave/b.org.db\"; masters \x7b 10.0.0.1; \x7d;\x7d;\n",
        none⟩
      ⟨[], ()⟩).zd).lookup "b.org" = none ∧
    (GetZoneMap (LoadZones (NewZoneManager : ZoneManager Unit)
      ⟨"zone a.org \x7btype slave; file \"slave/a.org.db\"; masters \x7b 10.0.0.1; \x7d;\x7d;\nzone basis.es\nzone b.org \x7btype slave; file \"slave/b.org.db\"; masters \x7b 10.0.0.1; \x7d;\x7d;\n",
        none⟩
      ⟨[], ()⟩).zd).lookup "a.org" = some "10.0.0.1" :=
  have h1 := LoadZones_aborts_at_invalid_line (NewZoneManager : ZoneManager Unit)
    ⟨"zone basis.es", none⟩ [] [] "zone basis.es".toList ⟨[], ()⟩ (by decide) (by decide)
    (fun _ h => absurd h (List.not_mem_nil _)) (by decide)
    (fun h => absurd (mem_brace_of_containsStanza _ h) (by decide))
  have h2 := LoadZones_aborts_at_invalid_line (NewZoneManager : ZoneManager Unit)
    ⟨"zone a.org \x7btype slave; file \"slave/a.org.db\"; masters \x7b 10.0.0.1; \x7d;\x7d;\nzone basis.es\nzone b.org \x7btype slave; file \"slave/b.org.db\"; masters \x7b 10.0.0.1; \x7d;\x7d;\n",
      none⟩
    [stanzaA.text.toList] [stanzaB.text.toList] "zone basis.es".toList ⟨[], ()⟩
    (by decide) (by decide)
    (fun l hl => Or.inr ⟨stanzaA, [], [], by decide, by rw [List.mem_singleton.mp hl]; decide⟩)
    (by decide)
    (fun h => absurd (mem_brace_of_containsStanza _ h) (by decide))
  ⟨h1.1.trans (by decide),
    (congrArg (fun zm : ZoneMap => zm.lookup "b.org") h2.2.2.2.1).trans (by decide),
    (congrArg (fun zm : ZoneMap => zm.lookup "a.org") h2.2.2.2.1).trans (by decide)⟩

/-- Counterexample to C11 as stated: the dump of a comment line of 65536 bytes followed by
the line `zone basis.es` has a line that is neither blank nor a comment and is no stanza,
one that `parseLine` rejects; yet `LoadZones` returns without panic, the scanner having
stopped at the long line before it, and writes the error of the scanner to
`os.Stderr`. -/
theorem LoadZones_misses_invalid_line :
    splitLines longInvalidDump.toList = [longComment, "zone basis.es".toList] ∧
    commentLine (lineText longComment) = true ∧
    (blankLine "zone basis.es" || commentLine "zone basis.es") = false ∧
    ¬ containsStanza "zone basis.es" ∧
    parseLine "zone basis.es" = .error "Invalid config line \"zone basis.es\"" ∧
    (LoadZones (NewZoneManager : ZoneManager Unit) ⟨longInvalidDump, none⟩
      ⟨[], ()⟩).panic = none ∧
    (LoadZones (NewZoneManager : ZoneManager Unit) ⟨longInvalidDump, none⟩
      ⟨[], ()⟩).stderr = ["reading standard input: bufio.Scanner: token too long"] := by
  obtain ⟨htok, herr⟩ := scan_of_long longComment "zone basis.es".toList none
    newline_not_mem_longComment longComment_long
  have htok2 : scanTokens longInvalidDump = [] := htok
  have herr2 : scanErr ⟨longInvalidDump, none⟩ = some "bufio.Scanner: token too long" := herr
  have ho := LoadZones_toLoadOutcome (NewZoneManager : ZoneManager Unit)
    ⟨longInvalidDump, none⟩ ⟨[], ()⟩
  rw [show scanTokens (⟨longInvalidDump, none⟩ : Reader).data = [] from htok2] at ho
  have hp : (LoadZones (NewZoneManager : ZoneManager Unit) ⟨longInvalidDump, none⟩
      ⟨[], ()⟩).panic = none := (congrArg LoadOutcome.panic ho).trans rfl
  refine ⟨?_, ?_, by decide, ?_, by decide, hp, ?_⟩
  · show splitLines (longComment ++ Char.ofNat 10 :: "zone basis.es".toList) = _
    rw [splitLines_append_newline _ _ newline_not_mem_longComment]
    have h2 : splitLines "zone basis.es".toList = ["zone basis.es".toList] := by decide
    rw [h2]
  · unfold lineText
    rw [dropCR_longComment]
    exact commentLine_longComment
  · exact fun h => absurd (mem_brace_of_containsStanza _ h) (by decide)
  · rw [LoadZones_stderr, hp, herr2]
    decide

end BootstrapClaims

end Bind
